import Mathlib

/-!
Verification of the core of the td tower-defence game (src/coords.rs,
src/main.rs) against its natural-language specification.

The Rust code is shallowly embedded: machine integers i32/u32 become Int/Nat
(no arithmetic in the game ever approaches the i32 range, every quantity is a
small grid coordinate, counter or hit-point value, so wrap-around is never
exercised and is not modelled), the thread-local RNG becomes an explicit
oracle stream `Nat → Nat` together with an index that each `rand_range` call
advances, unbounded loops take an explicit fuel argument and return `none`
when it runs out, and panicking code paths (`unwrap`, `assert_eq!`) return
`none` as well.  Transient presentation-only fields of the Rust structs
(`alive_animation`, `colored_animation`, the wall-clock `start` instant of a
`TimeProgression`) are not part of the game state proper and are omitted;
animation durations are kept as rationals.
-/

set_option maxHeartbeats 1000000
set_option linter.unnecessarySimpa false

namespace TD

/-- Plain old integer coordinates (src/coords.rs, `struct Coords`). -/
structure Coords where
  x : Int
  y : Int
deriving DecidableEq, Repr

/-- A difference between two `Coords` (src/coords.rs, `struct CoordsDelta`). -/
structure CoordsDelta where
  dx : Int
  dy : Int
deriving DecidableEq, Repr

instance : HAdd Coords CoordsDelta Coords := ⟨fun c d => ⟨c.x + d.dx, c.y + d.dy⟩⟩

instance : HSub Coords Coords CoordsDelta := ⟨fun a b => ⟨a.x - b.x, a.y - b.y⟩⟩

instance : Neg CoordsDelta := ⟨fun d => ⟨-d.dx, -d.dy⟩⟩

@[simp] theorem coords_add_x (c : Coords) (d : CoordsDelta) : (c + d).x = c.x + d.dx := rfl

@[simp] theorem coords_add_y (c : Coords) (d : CoordsDelta) : (c + d).y = c.y + d.dy := rfl

@[simp] theorem coords_sub_dx (a b : Coords) : (a - b).dx = a.x - b.x := rfl

@[simp] theorem coords_sub_dy (a b : Coords) : (a - b).dy = a.y - b.y := rfl

@[simp] theorem delta_neg_dx (d : CoordsDelta) : (-d).dx = -d.dx := rfl

@[simp] theorem delta_neg_dy (d : CoordsDelta) : (-d).dy = -d.dy := rfl

/-- `CoordsDelta::UP` from src/coords.rs. -/
def dUP : CoordsDelta := ⟨0, -1⟩

/-- `CoordsDelta::RIGHT` from src/coords.rs. -/
def dRIGHT : CoordsDelta := ⟨1, 0⟩

/-- `CoordsDelta::DOWN` from src/coords.rs. -/
def dDOWN : CoordsDelta := ⟨0, 1⟩

/-- `CoordsDelta::LEFT` from src/coords.rs. -/
def dLEFT : CoordsDelta := ⟨-1, 0⟩

/-- `CoordsDelta::iter_4_directions` from src/coords.rs, as the list it yields. -/
def directions4 : List CoordsDelta := [dUP, dRIGHT, dDOWN, dLEFT]

/-- Integer size of a rectangular area (src/coords.rs, `struct Dimensions`). -/
structure Dimensions where
  w : Int
  h : Int
deriving DecidableEq, Repr

/-- `Dimensions::contains` from src/coords.rs. -/
def Dimensions.contains (d : Dimensions) (c : Coords) : Prop :=
  0 ≤ c.x ∧ c.x < d.w ∧ 0 ≤ c.y ∧ c.y < d.h

instance (d : Dimensions) (c : Coords) : Decidable (d.contains c) := by
  unfold Dimensions.contains; infer_instance

/-- `Dimensions::index_of_coords` from src/coords.rs. -/
def Dimensions.indexOfCoords (d : Dimensions) (c : Coords) : Option Nat :=
  if d.contains c then some (c.y * d.w + c.x).toNat else none

/-- One row of the row-major coordinate iteration (`IterCoordsRect`, x ascending). -/
def rowCoords (w : Nat) (yy : Int) : List Coords :=
  (List.range w).map (fun (xx : Nat) => (⟨(xx : Int), yy⟩ : Coords))

/-- First `h` rows of the row-major coordinate iteration (y outer, ascending). -/
def iterRows (w : Nat) : Nat → List Coords
  | 0 => []
  | hh + 1 => iterRows w hh ++ rowCoords w (hh : Int)

/-- `Dimensions::iter` from src/coords.rs: all coordinates of the rectangle
anchored at the origin, in row-major order (y outer, x inner, both ascending),
exactly the sequence produced by `IterCoordsRect`. -/
def Dimensions.iterCoords (d : Dimensions) : List Coords :=
  iterRows d.w.toNat d.h.toNat

/-- A dense 2-D grid (src/coords.rs, `struct Grid<T>`): dimensions plus the
row-major cell contents. -/
structure Grid (T : Type) where
  dims : Dimensions
  content : List T
deriving DecidableEq, Repr

/-- `Grid::of_size_zero` from src/coords.rs. -/
def Grid.ofSizeZero (T : Type) : Grid T := ⟨⟨0, 0⟩, []⟩

/-- `Grid::get` from src/coords.rs. -/
def Grid.get {T : Type} (g : Grid T) (c : Coords) : Option T :=
  match g.dims.indexOfCoords c with
  | some idx => g.content[idx]?
  | none => none

/-- The well-formedness invariant of a grid in use: non-negative dimensions and
`content.len() == dims.area()` (spec §3, Grid invariant). -/
def Grid.wf {T : Type} (g : Grid T) : Prop :=
  0 ≤ g.dims.w ∧ 0 ≤ g.dims.h ∧ g.content.length = (g.dims.w * g.dims.h).toNat

instance {T : Type} (g : Grid T) : Decidable (Grid.wf g) := by
  unfold Grid.wf; infer_instance

/-- Effectful collect over a list, propagating a failure (`none` stands for a
panic inside a `Grid::new` initializer closure). -/
def listMapM {α β : Type _} (f : α → Option β) : List α → Option (List β)
  | [] => some []
  | a :: t =>
    match f a with
    | none => none
    | some b =>
      match listMapM f t with
      | none => none
      | some tl => some (b :: tl)

/-- `Grid::new` from src/coords.rs, with a fallible initializer (`none` stands
for a panic inside the closure); used by `add_to_right` whose initializer
unwraps the source grids' `get`. -/
def Grid.newOpt {T : Type} (dims : Dimensions) (f : Coords → Option T) : Option (Grid T) :=
  (listMapM f dims.iterCoords).map (fun l => ⟨dims, l⟩)

/-- `Grid::add_to_right` from src/coords.rs.  The `assert_eq!` on heights and
the `unwrap`s of the initializer become `none`. -/
def Grid.addToRight {T : Type} (g rhs : Grid T) : Option (Grid T) :=
  if g.dims.w = 0 ∧ g.dims.h = 0 then some rhs
  else if g.dims.h = rhs.dims.h then
    Grid.newOpt ⟨g.dims.w + rhs.dims.w, g.dims.h⟩ (fun c =>
      if c.x < g.dims.w then g.get c else rhs.get (⟨c.x - g.dims.w, c.y⟩ : Coords))
  else none

/-! ### List helper lemmas (index bookkeeping for the row-major grid) -/

theorem listGet_append_left {α : Type _} (l₁ l₂ : List α) (n : Nat) (h : n < l₁.length) :
    (l₁ ++ l₂)[n]? = l₁[n]? := by
  induction l₁ generalizing n with
  | nil => simp at h
  | cons a t ih =>
    cases n with
    | zero => simp
    | succ m => simpa using ih m (by simpa using h)

theorem listGet_append_right {α : Type _} (l₁ l₂ : List α) (n : Nat) (h : l₁.length ≤ n) :
    (l₁ ++ l₂)[n]? = l₂[n - l₁.length]? := by
  induction l₁ generalizing n with
  | nil => simp
  | cons a t ih =>
    cases n with
    | zero => simp at h
    | succ m =>
      simp only [List.cons_append, List.getElem?_cons_succ, List.length_cons]
      rw [ih m (by simpa using h)]
      congr 1
      omega

theorem listGet_map {α β : Type _} (f : α → β) (l : List α) (n : Nat) :
    (l.map f)[n]? = (l[n]?).map f := by
  induction l generalizing n with
  | nil => simp
  | cons a t ih =>
    cases n with
    | zero => simp
    | succ m => simpa using ih m

theorem listGet_range (n m : Nat) (h : n < m) : (List.range m)[n]? = some n := by
  induction m with
  | zero => omega
  | succ k ih =>
    rw [List.range_succ]
    rcases Nat.lt_or_ge n k with hlt | hge
    · rw [listGet_append_left _ _ _ (by simpa using hlt)]
      exact ih hlt
    · have hnk : n = k := by omega
      subst hnk
      rw [listGet_append_right _ _ _ (by simp)]
      simp

theorem listGet_set_eq {α : Type _} (l : List α) (i : Nat) (a : α) (h : i < l.length) :
    (l.set i a)[i]? = some a := by
  induction l generalizing i with
  | nil => simp at h
  | cons b t ih =>
    cases i with
    | zero => simp
    | succ m => simpa using ih m (by simpa using h)

theorem listGet_set_ne {α : Type _} (l : List α) (i j : Nat) (a : α) (h : i ≠ j) :
    (l.set i a)[j]? = l[j]? := by
  induction l generalizing i j with
  | nil => simp
  | cons b t ih =>
    cases i with
    | zero =>
      cases j with
      | zero => omega
      | succ m => simp
    | succ m =>
      cases j with
      | zero => simp
      | succ k => simpa using ih m k (by omega)

theorem list_set_set {α : Type _} (l : List α) (i : Nat) (a b : α) :
    (l.set i a).set i b = l.set i b := by
  induction l generalizing i with
  | nil => simp
  | cons c t ih =>
    cases i with
    | zero => simp
    | succ m => simpa using ih m

theorem list_length_set {α : Type _} (l : List α) (i : Nat) (a : α) :
    (l.set i a).length = l.length := by
  simp

theorem listMapM_length {α β : Type _} (f : α → Option β) :
    ∀ (l : List α) (l' : List β), listMapM f l = some l' → l'.length = l.length := by
  intro l
  induction l with
  | nil => intro l' h; simp [listMapM] at h; simp [← h]
  | cons a t ih =>
    intro l' h
    unfold listMapM at h
    cases hfa : f a with
    | none => rw [hfa] at h; simp at h
    | some b =>
      rw [hfa] at h
      cases hft : listMapM f t with
      | none => rw [hft] at h; simp at h
      | some tl =>
        rw [hft] at h
        simp at h
        subst h
        simp [ih tl hft]

theorem listMapM_get {α β : Type _} (f : α → Option β) :
    ∀ (l : List α) (l' : List β), listMapM f l = some l' →
      ∀ n : Nat, l'[n]? = (l[n]?).bind f := by
  intro l
  induction l with
  | nil => intro l' h n; simp [listMapM] at h; subst h; simp
  | cons a t ih =>
    intro l' h n
    unfold listMapM at h
    cases hfa : f a with
    | none => rw [hfa] at h; simp at h
    | some b =>
      rw [hfa] at h
      cases hft : listMapM f t with
      | none => rw [hft] at h; simp at h
      | some tl =>
        rw [hft] at h
        simp at h
        subst h
        cases n with
        | zero => simp [hfa]
        | succ m => simpa using ih tl hft m

theorem listMapM_isSome {α β : Type _} (f : α → Option β) :
    ∀ (l : List α), (∀ a ∈ l, (f a).isSome) → (listMapM f l).isSome := by
  intro l
  induction l with
  | nil => intro _; simp [listMapM]
  | cons a t ih =>
    intro h
    unfold listMapM
    cases hfa : f a with
    | none =>
      have := h a (by simp)
      rw [hfa] at this
      simp at this
    | some b =>
      have ht := ih (fun x hx => h x (by simp [hx]))
      cases hft : listMapM f t with
      | none => rw [hft] at ht; simp at ht
      | some tl => simp

/-! ### Row-major iteration lemmas -/

theorem rowCoords_length (w : Nat) (yy : Int) : (rowCoords w yy).length = w := by
  unfold rowCoords
  rw [List.length_map, List.length_range]

theorem iterRows_length (w h : Nat) : (iterRows w h).length = h * w := by
  induction h with
  | zero => simp [iterRows]
  | succ k ih =>
    rw [iterRows, List.length_append, ih, rowCoords_length]
    ring

theorem iterRows_get (w h x y : Nat) (hx : x < w) (hy : y < h) :
    (iterRows w h)[y * w + x]? = some (⟨(x : Int), (y : Int)⟩ : Coords) := by
  induction h with
  | zero => omega
  | succ k ih =>
    rcases Nat.lt_or_ge y k with hlt | hge
    · have hidx : y * w + x < (iterRows w k).length := by
        rw [iterRows_length]
        have h1 : y * w + x < (y + 1) * w := by
          have := hx
          nlinarith
        have h2 : (y + 1) * w ≤ k * w := Nat.mul_le_mul_right w (by omega)
        omega
      rw [iterRows, listGet_append_left _ _ _ hidx]
      exact ih hlt
    · have hyk : y = k := by omega
      subst hyk
      rw [iterRows, listGet_append_right _ _ _ (by rw [iterRows_length]; omega)]
      rw [iterRows_length]
      have : y * w + x - y * w = x := by omega
      rw [this]
      unfold rowCoords
      rw [listGet_map (fun xx : Nat => (⟨(xx : Int), (y : Int)⟩ : Coords)) (List.range w) x,
        listGet_range x w hx]
      rfl

theorem mem_rowCoords (w : Nat) (yy : Int) (c : Coords) :
    c ∈ rowCoords w yy ↔ ∃ x : Nat, x < w ∧ c = ⟨(x : Int), yy⟩ := by
  unfold rowCoords
  rw [List.mem_map]
  constructor
  · rintro ⟨x, hx, rfl⟩
    exact ⟨x, List.mem_range.mp hx, rfl⟩
  · rintro ⟨x, hx, rfl⟩
    exact ⟨x, List.mem_range.mpr hx, rfl⟩

theorem mem_iterRows (w h : Nat) (c : Coords) :
    c ∈ iterRows w h ↔ ∃ x y : Nat, x < w ∧ y < h ∧ c = ⟨(x : Int), (y : Int)⟩ := by
  induction h with
  | zero => simp [iterRows]
  | succ k ih =>
    rw [iterRows, List.mem_append, ih, mem_rowCoords]
    constructor
    · rintro (⟨x, y, hx, hy, rfl⟩ | ⟨x, hx, rfl⟩)
      · exact ⟨x, y, hx, by omega, rfl⟩
      · exact ⟨x, k, hx, by omega, rfl⟩
    · rintro ⟨x, y, hx, hy, rfl⟩
      rcases Nat.lt_or_ge y k with hlt | hge
      · exact Or.inl ⟨x, y, hx, hlt, rfl⟩
      · have : y = k := by omega
        subst this
        exact Or.inr ⟨x, hx, rfl⟩

theorem mem_iterCoords (d : Dimensions) (c : Coords) (hw : 0 ≤ d.w) (hh : 0 ≤ d.h) :
    c ∈ d.iterCoords ↔ d.contains c := by
  unfold Dimensions.iterCoords
  rw [mem_iterRows]
  constructor
  · rintro ⟨x, y, hx, hy, rfl⟩
    refine ⟨?_, ?_, ?_, ?_⟩
    · show (0 : Int) ≤ ((x : Nat) : Int); omega
    · show ((x : Nat) : Int) < d.w; omega
    · show (0 : Int) ≤ ((y : Nat) : Int); omega
    · show ((y : Nat) : Int) < d.h; omega
  · rintro ⟨h1, h2, h3, h4⟩
    refine ⟨c.x.toNat, c.y.toNat, by omega, by omega, ?_⟩
    have hx' : ((c.x.toNat : Nat) : Int) = c.x := by omega
    have hy' : ((c.y.toNat : Nat) : Int) = c.y := by omega
    rw [hx', hy']

/-! ### Grid get/index lemmas -/

theorem indexOfCoords_toNat (d : Dimensions) (c : Coords) (h : d.contains c) :
    (c.y * d.w + c.x).toNat = c.y.toNat * d.w.toNat + c.x.toNat := by
  obtain ⟨h1, h2, h3, h4⟩ := h
  have hw : 0 ≤ d.w := le_trans h1 (le_of_lt h2)
  have hcy : (c.y.toNat : Int) = c.y := Int.toNat_of_nonneg h3
  have hcx : (c.x.toNat : Int) = c.x := Int.toNat_of_nonneg h1
  have hdw : (d.w.toNat : Int) = d.w := Int.toNat_of_nonneg hw
  have : c.y * d.w + c.x = ((c.y.toNat * d.w.toNat + c.x.toNat : Nat) : Int) := by
    push_cast
    rw [hcy, hcx, hdw]
  rw [this]
  exact Int.toNat_natCast _

theorem index_lt_area (d : Dimensions) (c : Coords) (h : d.contains c) :
    c.y.toNat * d.w.toNat + c.x.toNat < d.h.toNat * d.w.toNat := by
  obtain ⟨h1, h2, h3, h4⟩ := h
  have hx : c.x.toNat < d.w.toNat := by omega
  have hy : c.y.toNat < d.h.toNat := by omega
  have h5 : c.y.toNat * d.w.toNat + c.x.toNat < (c.y.toNat + 1) * d.w.toNat := by nlinarith
  have h6 : (c.y.toNat + 1) * d.w.toNat ≤ d.h.toNat * d.w.toNat :=
    Nat.mul_le_mul_right _ (by omega)
  omega

theorem area_toNat (d : Dimensions) (hw : 0 ≤ d.w) (hh : 0 ≤ d.h) :
    (d.w * d.h).toNat = d.h.toNat * d.w.toNat := by
  have h1 : (d.w.toNat : Int) = d.w := Int.toNat_of_nonneg hw
  have h2 : (d.h.toNat : Int) = d.h := Int.toNat_of_nonneg hh
  have : d.w * d.h = ((d.h.toNat * d.w.toNat : Nat) : Int) := by
    push_cast
    rw [h1, h2]
    ring
  rw [this, Int.toNat_natCast]

/-- On a well-formed grid, `get` succeeds exactly on contained coordinates. -/
theorem Grid.get_isSome {T : Type} (g : Grid T) (hwf : g.wf) (c : Coords) :
    (g.get c).isSome ↔ g.dims.contains c := by
  obtain ⟨hw, hh, hlen⟩ := hwf
  unfold Grid.get Dimensions.indexOfCoords
  by_cases h : g.dims.contains c
  · simp only [h, if_pos]
    rw [indexOfCoords_toNat _ _ h]
    have : c.y.toNat * g.dims.w.toNat + c.x.toNat < g.content.length := by
      rw [hlen, area_toNat _ hw hh]
      exact index_lt_area _ _ h
    simp [List.getElem?_eq_getElem this, h]
  · simp [h]

theorem Grid.get_eq_some_of_contains {T : Type} (g : Grid T) (hwf : g.wf) (c : Coords)
    (h : g.dims.contains c) : ∃ t, g.get c = some t := by
  have := (Grid.get_isSome g hwf c).mpr h
  cases hg : g.get c with
  | none => rw [hg] at this; simp at this
  | some t => exact ⟨t, rfl⟩

theorem Grid.get_none_of_not_contains {T : Type} (g : Grid T) (c : Coords)
    (h : ¬ g.dims.contains c) : g.get c = none := by
  unfold Grid.get Dimensions.indexOfCoords
  simp [h]

/-- Injectivity of the row-major index on contained coordinates. -/
theorem indexOfCoords_inj (d : Dimensions) (c c' : Coords)
    (hc : d.contains c) (hc' : d.contains c')
    (h : (c.y * d.w + c.x).toNat = (c'.y * d.w + c'.x).toNat) : c = c' := by
  obtain ⟨h1, h2, h3, h4⟩ := hc
  obtain ⟨h1', h2', h3', h4'⟩ := hc'
  have hw : 0 < d.w := lt_of_le_of_lt h1 h2
  have e1 : 0 ≤ c.y * d.w + c.x := by positivity
  have e2 : 0 ≤ c'.y * d.w + c'.x := by positivity
  have heq : c.y * d.w + c.x = c'.y * d.w + c'.x := by omega
  have hyy : c.y = c'.y := by
    by_contra hne
    rcases lt_or_gt_of_ne hne with hlt | hgt
    · have : (c'.y - c.y) * d.w = c.x - c'.x := by ring_nf; linarith
      have hge : 1 * d.w ≤ (c'.y - c.y) * d.w :=
        mul_le_mul_of_nonneg_right (by omega) (le_of_lt hw)
      omega
    · have : (c.y - c'.y) * d.w = c'.x - c.x := by ring_nf; linarith
      have hge : 1 * d.w ≤ (c.y - c'.y) * d.w :=
        mul_le_mul_of_nonneg_right (by omega) (le_of_lt hw)
      omega
  have hxx : c.x = c'.x := by
    rw [hyy] at heq
    omega
  cases c; cases c'
  simp_all

/-- `Grid.newOpt` on a total-at-contained initializer: characterization of the
result's cells. -/
theorem Grid.newOpt_get {T : Type} (dims : Dimensions) (f : Coords → Option T)
    (g : Grid T) (h : Grid.newOpt dims f = some g) :
    g.dims = dims ∧ g.content.length = dims.iterCoords.length ∧
      ∀ c, dims.contains c → g.get c = f c := by
  unfold Grid.newOpt at h
  cases hm : listMapM f dims.iterCoords with
  | none => rw [hm] at h; simp at h
  | some l =>
    rw [hm] at h
    simp at h
    subst h
    refine ⟨rfl, listMapM_length f _ _ hm, ?_⟩
    intro c hc
    unfold Grid.get Dimensions.indexOfCoords
    simp only [hc, if_pos]
    rw [listMapM_get f _ _ hm]
    rw [indexOfCoords_toNat _ _ hc]
    unfold Dimensions.iterCoords
    rw [iterRows_get dims.w.toNat dims.h.toNat c.x.toNat c.y.toNat
      (by obtain ⟨a, b, _, _⟩ := hc; omega) (by obtain ⟨_, _, a, b⟩ := hc; omega)]
    have hcx : ((c.x.toNat : Nat) : Int) = c.x := by
      obtain ⟨a, _, _, _⟩ := hc; omega
    have hcy : ((c.y.toNat : Nat) : Int) = c.y := by
      obtain ⟨_, _, a, _⟩ := hc; omega
    rw [Option.some_bind, hcx, hcy]

/-- The length of `iterCoords` equals the area. -/
theorem iterCoords_length (d : Dimensions) : d.iterCoords.length = d.h.toNat * d.w.toNat := by
  unfold Dimensions.iterCoords
  exact iterRows_length _ _

/-- `Grid.newOpt` success yields a well-formed grid. -/
theorem Grid.newOpt_wf {T : Type} (dims : Dimensions) (f : Coords → Option T)
    (g : Grid T) (hw : 0 ≤ dims.w) (hh : 0 ≤ dims.h)
    (h : Grid.newOpt dims f = some g) : g.wf := by
  obtain ⟨hd, hlen, _⟩ := Grid.newOpt_get dims f g h
  refine ⟨by rw [hd]; exact hw, by rw [hd]; exact hh, ?_⟩
  rw [hd, hlen, iterCoords_length, area_toNat _ hw hh]

/-- C2 helper: the initializer of `add_to_right` succeeds on every contained
coordinate of the combined dimensions when the two grids are well-formed and of
equal heights. -/
theorem addToRight_some {T : Type} (a b : Grid T) (hwa : a.wf) (hwb : b.wf)
    (hh : a.dims.h = b.dims.h) : ∃ r, a.addToRight b = some r := by
  obtain ⟨hwa1, hwa2, hwa3⟩ := hwa
  obtain ⟨hwb1, hwb2, hwb3⟩ := hwb
  unfold Grid.addToRight
  by_cases hz : a.dims.w = 0 ∧ a.dims.h = 0
  · exact ⟨b, by rw [if_pos hz]⟩
  · rw [if_neg hz, if_pos hh]
    unfold Grid.newOpt
    have hsome : (listMapM
        (fun c => if c.x < a.dims.w then a.get c else b.get (⟨c.x - a.dims.w, c.y⟩ : Coords))
        (Dimensions.mk (a.dims.w + b.dims.w) a.dims.h).iterCoords).isSome := by
      apply listMapM_isSome
      intro c hc
      rw [mem_iterCoords _ _ (by simp only; omega) (by simp only; omega)] at hc
      obtain ⟨h1, h2, h3, h4⟩ := hc
      simp only at h1 h2 h3 h4
      by_cases hlt : c.x < a.dims.w
      · simp only [hlt, if_pos]
        rw [Grid.get_isSome a ⟨hwa1, hwa2, hwa3⟩]
        exact ⟨h1, hlt, h3, h4⟩
      · simp only [hlt, if_neg, not_false_iff]
        rw [Grid.get_isSome b ⟨hwb1, hwb2, hwb3⟩]
        exact ⟨by simp only; omega, by simp only; omega, by simp only; omega,
          by simp only; omega⟩
    rw [Option.isSome_iff_exists] at hsome
    obtain ⟨l, hm⟩ := hsome
    exact ⟨⟨⟨a.dims.w + b.dims.w, a.dims.h⟩, l⟩, by rw [hm]; rfl⟩

/-! ### Grid update operations (the shallow embedding of `get_mut` writes) -/

/-- A write through `Grid::get_mut`: replace the cell at `c`.  Out-of-bounds
writes are a no-op here; every use in the sources is guarded or in-bounds. -/
def Grid.setAt {T : Type} (g : Grid T) (c : Coords) (t : T) : Grid T :=
  match g.dims.indexOfCoords c with
  | some idx => ⟨g.dims, g.content.set idx t⟩
  | none => g

/-- A read-modify-write through `Grid::get_mut`: apply `f` to the cell at `c`
if it exists. -/
def Grid.modifyAt {T : Type} (g : Grid T) (c : Coords) (f : T → T) : Grid T :=
  match g.get c with
  | some t => g.setAt c (f t)
  | none => g

theorem Grid.dims_setAt {T : Type} (g : Grid T) (c : Coords) (t : T) :
    (g.setAt c t).dims = g.dims := by
  unfold Grid.setAt
  cases g.dims.indexOfCoords c <;> rfl

theorem Grid.dims_modifyAt {T : Type} (g : Grid T) (c : Coords) (f : T → T) :
    (g.modifyAt c f).dims = g.dims := by
  unfold Grid.modifyAt
  cases g.get c
  · rfl
  · exact Grid.dims_setAt g c _

theorem Grid.wf_setAt {T : Type} (g : Grid T) (c : Coords) (t : T) (hwf : g.wf) :
    (g.setAt c t).wf := by
  obtain ⟨h1, h2, h3⟩ := hwf
  unfold Grid.setAt
  cases g.dims.indexOfCoords c
  · exact ⟨h1, h2, h3⟩
  · exact ⟨h1, h2, by simpa using h3⟩

theorem Grid.wf_modifyAt {T : Type} (g : Grid T) (c : Coords) (f : T → T) (hwf : g.wf) :
    (g.modifyAt c f).wf := by
  unfold Grid.modifyAt
  cases g.get c
  · exact hwf
  · exact Grid.wf_setAt g c _ hwf

theorem Grid.get_setAt_self {T : Type} (g : Grid T) (c : Coords) (t : T) (hwf : g.wf)
    (h : g.dims.contains c) : (g.setAt c t).get c = some t := by
  obtain ⟨h1, h2, h3⟩ := hwf
  unfold Grid.setAt Grid.get Dimensions.indexOfCoords
  simp only [h, if_pos]
  rw [List.getElem?_set_self']
  have hlt : (c.y * g.dims.w + c.x).toNat < g.content.length := by
    rw [h3, indexOfCoords_toNat _ _ h, area_toNat _ (by obtain ⟨a, b, _, _⟩ := h; omega)
      (by obtain ⟨_, _, a, b⟩ := h; omega)]
    exact index_lt_area _ _ h
  rw [List.getElem?_eq_getElem hlt]
  rfl

theorem Grid.get_setAt_other {T : Type} (g : Grid T) (c c' : Coords) (t : T)
    (h : c' ≠ c) : (g.setAt c t).get c' = g.get c' := by
  unfold Grid.setAt
  cases hidx : g.dims.indexOfCoords c with
  | none => rfl
  | some idx =>
    unfold Grid.get
    simp only
    cases hidx' : g.dims.indexOfCoords c' with
    | none => rfl
    | some idx' =>
      have hne : idx ≠ idx' := by
        intro heq
        apply h
        unfold Dimensions.indexOfCoords at hidx hidx'
        by_cases hc : g.dims.contains c
        · by_cases hc' : g.dims.contains c'
          · rw [if_pos hc] at hidx
            rw [if_pos hc'] at hidx'
            have e1 := Option.some.inj hidx
            have e2 := Option.some.inj hidx'
            exact indexOfCoords_inj g.dims c' c hc' hc (by omega)
          · rw [if_neg hc'] at hidx'; exact absurd hidx' (by simp)
        · rw [if_neg hc] at hidx; exact absurd hidx (by simp)
      exact listGet_set_ne _ _ _ _ hne

theorem Grid.get_modifyAt_self {T : Type} (g : Grid T) (c : Coords) (f : T → T) (hwf : g.wf) :
    (g.modifyAt c f).get c = (g.get c).map f := by
  unfold Grid.modifyAt
  cases hg : g.get c with
  | none => rw [hg]; rfl
  | some t =>
    rw [Grid.get_setAt_self g c (f t) hwf]
    · rfl
    · rw [← Grid.get_isSome g hwf c, hg]; rfl

theorem Grid.get_modifyAt_other {T : Type} (g : Grid T) (c c' : Coords) (f : T → T)
    (h : c' ≠ c) : (g.modifyAt c f).get c' = g.get c' := by
  unfold Grid.modifyAt
  cases g.get c
  · rfl
  · exact Grid.get_setAt_other g c c' _ h

theorem Grid.setAt_setAt {T : Type} (g : Grid T) (c : Coords) (t t' : T) :
    (g.setAt c t).setAt c t' = g.setAt c t' := by
  unfold Grid.setAt
  cases hidx : g.dims.indexOfCoords c with
  | none => simp [hidx]
  | some idx =>
    simp only [hidx]
    rw [list_set_set]

/-! ### The game data model (src/main.rs) -/

/-- A path tile info (src/main.rs, `struct Path`): the caravan moves along
`forward`, enemies along `backward`, `distance` counts tiles along the path
from the left-most path tile. -/
structure Path where
  forward : CoordsDelta
  backward : CoordsDelta
  distance : Int
deriving DecidableEq, Repr

/-- The ground of a tile (src/main.rs, `enum Ground`). -/
inductive Ground where
  | grass (visualVariant : Nat)
  | path (p : Path)
  | water
deriving DecidableEq, Repr

/-- `Ground::is_path`. -/
def Ground.isPath : Ground → Bool
  | Ground.path _ => true
  | _ => false

/-- `Ground::is_water`. -/
def Ground.isWater : Ground → Bool
  | Ground.water => true
  | _ => false

/-- `Ground::is_grass`. -/
def Ground.isGrass : Ground → Bool
  | Ground.grass _ => true
  | _ => false

/-- `Ground::path` (the optional `Path` payload). -/
def Ground.pathInfo : Ground → Option Path
  | Ground.path p => some p
  | _ => none

/-- The three tower types (src/main.rs, `enum Tower`). -/
inductive TowerKind where
  | basic
  | pink
  | blue
deriving DecidableEq, Repr

/-- The enemy types (src/main.rs, `enum Enemy`). -/
inductive EnemyKind where
  | basic
deriving DecidableEq, Repr

mutual

/-- `enum ShotCascade` from src/main.rs: what a shot spawns when it connects. -/
inductive ShotCascade where
  | nothing
  | piercing (s : Shot)
  | splitInTwo (s : Shot)

/-- `struct Shot` from src/main.rs: damages (possibly negative), fire stacks
to apply, bonus actions to grant, and the cascade policy. -/
inductive Shot where
  | mk (damages fire additionalActions : Int) (cascade : ShotCascade)

end

/-- `Shot.damages` field accessor. -/
def Shot.damages : Shot → Int
  | Shot.mk d _ _ _ => d

/-- `Shot.fire` field accessor. -/
def Shot.fire : Shot → Int
  | Shot.mk _ f _ _ => f

/-- `Shot.additional_actions` field accessor. -/
def Shot.additionalActions : Shot → Int
  | Shot.mk _ _ a _ => a

/-- `Shot.cascade` field accessor. -/
def Shot.cascade : Shot → ShotCascade
  | Shot.mk _ _ _ c => c

/-- `Tower::initial_hp` from src/main.rs. -/
def TowerKind.initialHp : TowerKind → Int
  | TowerKind.basic => 3
  | TowerKind.pink => 4
  | TowerKind.blue => 3

/-- `Tower::shot` from src/main.rs: the type-specific shot each tower fires. -/
def TowerKind.shot : TowerKind → Shot
  | TowerKind.basic => Shot.mk 1 0 0 ShotCascade.nothing
  | TowerKind.pink =>
    Shot.mk (-1) 0 0 (ShotCascade.splitInTwo (Shot.mk 3 0 0 ShotCascade.nothing))
  | TowerKind.blue =>
    Shot.mk 0 0 2 (ShotCascade.piercing
      (Shot.mk 1 0 0 (ShotCascade.piercing (Shot.mk 0 4 0 ShotCascade.nothing))))

/-- An object on a tile (src/main.rs, `enum Obj`).  The transient
`alive_animation`/`colored_animation` fields are presentation-only and are not
part of the modelled game state. -/
inductive Obj where
  | caravan
  | tree
  | rock (visualVariant : Nat)
  | crystal
  | enemy (actions hp fire : Int) (variant : EnemyKind)
  | tower (actions hp fire : Int) (variant : TowerKind)
deriving DecidableEq, Repr

/-- A tile (src/main.rs, `struct Tile`). -/
structure Tile where
  ground : Ground
  obj : Option Obj
deriving DecidableEq, Repr

/-- `Tile::has_path`. -/
def Tile.hasPath (t : Tile) : Bool := t.ground.isPath

/-- `Tile::has_water`. -/
def Tile.hasWater (t : Tile) : Bool := t.ground.isWater

/-- `Tile::has_caravan`. -/
def Tile.hasCaravan (t : Tile) : Bool :=
  match t.obj with
  | some Obj.caravan => true
  | _ => false

/-- `Tile::has_enemy`. -/
def Tile.hasEnemy (t : Tile) : Bool :=
  match t.obj with
  | some (Obj.enemy _ _ _ _) => true
  | _ => false

/-- `Tile::is_empty_grass`. -/
def Tile.isEmptyGrass (t : Tile) : Bool := t.obj.isNone && t.ground.isGrass

/-- `Tile::path`. -/
def Tile.pathInfo (t : Tile) : Option Path := t.ground.pathInfo

/-- The `Path` payload of the tile at `c`, if any. -/
def pathAt (g : Grid Tile) (c : Coords) : Option Path :=
  (g.get c).bind Tile.pathInfo

/-- Write just the `obj` field of the tile at `c` (a `get_mut(...).obj = ...`
write in the source). -/
def Grid.setObjAt (g : Grid Tile) (c : Coords) (o : Option Obj) : Grid Tile :=
  g.modifyAt c (fun t => ⟨t.ground, o⟩)

/-- Write just the `ground` field of the tile at `c` (a
`get_mut(...).ground = ...` write in the source). -/
def Grid.setGroundAt (g : Grid Tile) (c : Coords) (gr : Ground) : Grid Tile :=
  g.modifyAt c (fun t => ⟨gr, t.obj⟩)

/-! ### Claim C2: concatenation correctness of `Grid::add_to_right` -/

/-- C2: for well-formed grids A (width wa) and B of equal height,
`A.add_to_right(B)` succeeds and yields a wholly rebuilt well-formed grid of
width `wa + width(B)` and the same height whose cell at each in-bounds `(x,y)`
equals `A.get((x,y))` for `x < wa` and `B.get((x-wa,y))` for `wa ≤ x`. -/
theorem c2_concat_correct {T : Type} (a b : Grid T) (hwa : a.wf) (hwb : b.wf)
    (hh : a.dims.h = b.dims.h) :
    ∃ r, a.addToRight b = some r ∧
      r.dims.w = a.dims.w + b.dims.w ∧ r.dims.h = a.dims.h ∧ r.wf ∧
      ∀ c : Coords, r.dims.contains c →
        r.get c = if c.x < a.dims.w then a.get c
                  else b.get (⟨c.x - a.dims.w, c.y⟩ : Coords) := by
  obtain ⟨hwa1, hwa2, hwa3⟩ := hwa
  obtain ⟨hwb1, hwb2, hwb3⟩ := hwb
  unfold Grid.addToRight
  by_cases hz : a.dims.w = 0 ∧ a.dims.h = 0
  · refine ⟨b, by rw [if_pos hz], by omega, by omega, ⟨hwb1, hwb2, hwb3⟩, ?_⟩
    intro c hc
    obtain ⟨h1, h2, h3, h4⟩ := hc
    rw [if_neg (by omega)]
    have hx0 : c.x - a.dims.w = c.x := by omega
    rw [hx0]
  · rw [if_neg hz, if_pos hh]
    have hsome : (listMapM
        (fun c => if c.x < a.dims.w then a.get c else b.get (⟨c.x - a.dims.w, c.y⟩ : Coords))
        (Dimensions.mk (a.dims.w + b.dims.w) a.dims.h).iterCoords).isSome := by
      apply listMapM_isSome
      intro c hc
      rw [mem_iterCoords _ _ (by simp only; omega) (by simp only; omega)] at hc
      obtain ⟨h1, h2, h3, h4⟩ := hc
      simp only at h1 h2 h3 h4
      by_cases hlt : c.x < a.dims.w
      · simp only [hlt, if_pos]
        rw [Grid.get_isSome a ⟨hwa1, hwa2, hwa3⟩]
        exact ⟨h1, hlt, h3, h4⟩
      · simp only [hlt, if_neg, not_false_iff]
        rw [Grid.get_isSome b ⟨hwb1, hwb2, hwb3⟩]
        exact ⟨by simp only; omega, by simp only; omega, by simp only; omega,
          by simp only; omega⟩
    rw [Option.isSome_iff_exists] at hsome
    obtain ⟨l, hm⟩ := hsome
    have hr : Grid.newOpt (Dimensions.mk (a.dims.w + b.dims.w) a.dims.h)
        (fun c => if c.x < a.dims.w then a.get c
          else b.get (⟨c.x - a.dims.w, c.y⟩ : Coords))
        = some ⟨Dimensions.mk (a.dims.w + b.dims.w) a.dims.h, l⟩ := by
      unfold Grid.newOpt
      rw [hm]
      rfl
    obtain ⟨hd, _, hget⟩ := Grid.newOpt_get _ _ _ hr
    have hwfr := Grid.newOpt_wf _ _ _ (by simp only; omega) (by simp only; omega) hr
    refine ⟨⟨_, l⟩, hr, by rw [hd], by rw [hd], hwfr, ?_⟩
    intro c hc
    rw [hd] at hc
    exact hget c hc

/-- Witness for C2 at concrete grids: a 2-by-1 grid concatenated to a 1-by-1
grid. -/
theorem c2_concat_correct_witness :
    ∃ r, (Grid.mk (T := Nat) ⟨2, 1⟩ [10, 11]).addToRight ⟨⟨1, 1⟩, [20]⟩ = some r ∧
      r.dims.w = 2 + 1 ∧ r.dims.h = 1 ∧ r.wf ∧
      ∀ c : Coords, r.dims.contains c →
        r.get c = if c.x < 2 then (Grid.mk (T := Nat) ⟨2, 1⟩ [10, 11]).get c
                  else (Grid.mk (T := Nat) ⟨1, 1⟩ [20]).get (⟨c.x - 2, c.y⟩ : Coords) :=
  c2_concat_correct ⟨⟨2, 1⟩, [10, 11]⟩ ⟨⟨1, 1⟩, [20]⟩
    (by constructor; · decide
        constructor; · decide
        decide)
    ⟨by decide, by decide, by decide⟩ (by decide)

/-! ### Combat state updates (src/main.rs, `impl Map`) -/

theorem Grid.contains_of_get_some {T : Type} (g : Grid T) (c : Coords) (t : T)
    (h : g.get c = some t) : g.dims.contains c := by
  unfold Grid.get Dimensions.indexOfCoords at h
  by_cases hc : g.dims.contains c
  · exact hc
  · rw [if_neg hc] at h
    exact absurd h (by simp)

theorem Grid.get_setObjAt_self (g : Grid Tile) (c : Coords) (o : Option Obj)
    (hwf : g.wf) (t : Tile) (h : g.get c = some t) :
    (g.setObjAt c o).get c = some ⟨t.ground, o⟩ := by
  unfold Grid.setObjAt
  rw [Grid.get_modifyAt_self _ _ _ hwf, h]
  rfl

theorem Grid.get_setObjAt_other (g : Grid Tile) (c c' : Coords) (o : Option Obj)
    (h : c' ≠ c) : (g.setObjAt c o).get c' = g.get c' :=
  Grid.get_modifyAt_other g c c' _ h

theorem Grid.wf_setObjAt (g : Grid Tile) (c : Coords) (o : Option Obj) (hwf : g.wf) :
    (g.setObjAt c o).wf := Grid.wf_modifyAt g c _ hwf

theorem Grid.dims_setObjAt (g : Grid Tile) (c : Coords) (o : Option Obj) :
    (g.setObjAt c o).dims = g.dims := Grid.dims_modifyAt g c _

theorem Grid.setObjAt_setObjAt (g : Grid Tile) (c : Coords) (o o' : Option Obj)
    (hwf : g.wf) : (g.setObjAt c o).setObjAt c o' = g.setObjAt c o' := by
  cases hg : g.get c with
  | none =>
    have h1 : g.setObjAt c o = g := by unfold Grid.setObjAt Grid.modifyAt; rw [hg]
    have h2 : g.setObjAt c o' = g := by unfold Grid.setObjAt Grid.modifyAt; rw [hg]
    rw [h1, h2]
  | some t =>
    have h1 : g.setObjAt c o = g.setAt c ⟨t.ground, o⟩ := by
      unfold Grid.setObjAt Grid.modifyAt; rw [hg]
    have hget2 : (g.setAt c ⟨t.ground, o⟩).get c = some ⟨t.ground, o⟩ :=
      Grid.get_setAt_self g c _ hwf (Grid.contains_of_get_some g c t hg)
    have h2 : (g.setAt c ⟨t.ground, o⟩).setObjAt c o'
        = (g.setAt c ⟨t.ground, o⟩).setAt c ⟨t.ground, o'⟩ := by
      unfold Grid.setObjAt Grid.modifyAt; rw [hget2]
    have h3 : g.setObjAt c o' = g.setAt c ⟨t.ground, o'⟩ := by
      unfold Grid.setObjAt Grid.modifyAt; rw [hg]
    rw [h1, h2, h3, Grid.setAt_setAt]

instance : Inhabited Tile := ⟨⟨Ground.water, none⟩⟩

/-- `Map::inflict_damage_to_obj_at` from src/main.rs: subtract `damages` from
the hp of an enemy or tower at `c` (healing if negative) and destroy the
object if its hp drops to 0 or below.  The flashing `colored_animation` is
presentation-only and not modelled. -/
def inflictDamage (g : Grid Tile) (c : Coords) (damages : Int) : Grid Tile :=
  match g.get c with
  | some t =>
    match t.obj with
    | some (Obj.enemy a hp f v) =>
      if hp - damages ≤ 0 then g.setObjAt c none
      else g.setObjAt c (some (Obj.enemy a (hp - damages) f v))
    | some (Obj.tower a hp f v) =>
      if hp - damages ≤ 0 then g.setObjAt c none
      else g.setObjAt c (some (Obj.tower a (hp - damages) f v))
    | _ => g
  | none => g

/-- The `*fire += shot.fire` arm of `Map::shot_hits_obj_at`. -/
def addFire (g : Grid Tile) (c : Coords) (amount : Int) : Grid Tile :=
  match g.get c with
  | some ⟨_, some (Obj.enemy a hp f v)⟩ => g.setObjAt c (some (Obj.enemy a hp (f + amount) v))
  | some ⟨_, some (Obj.tower a hp f v)⟩ => g.setObjAt c (some (Obj.tower a hp (f + amount) v))
  | _ => g

/-- The `*actions += shot.additional_actions` arm of `Map::shot_hits_obj_at`. -/
def addActions (g : Grid Tile) (c : Coords) (amount : Int) : Grid Tile :=
  match g.get c with
  | some ⟨_, some (Obj.enemy a hp f v)⟩ => g.setObjAt c (some (Obj.enemy (a + amount) hp f v))
  | some ⟨_, some (Obj.tower a hp f v)⟩ => g.setObjAt c (some (Obj.tower (a + amount) hp f v))
  | _ => g

/-- `Map::shot_hits_obj_at` from src/main.rs: inflict the shot's damage, then
apply its fire stacks (if positive), then its bonus actions (if positive). -/
def shotHits (g : Grid Tile) (c : Coords) (s : Shot) : Grid Tile :=
  let g1 := inflictDamage g c s.damages
  let g2 := if 0 < s.fire then addFire g1 c s.fire else g1
  if 0 < s.additionalActions then addActions g2 c s.additionalActions else g2

/-- A pending `Shoot` animation (src/main.rs, `AnimationAction::Shoot` plus its
`TimeProgression` duration, in seconds). -/
structure ShootAnim where
  src : Coords
  dirn : CoordsDelta
  shot : Shot
  duration : Rat

/-- The 0.05-second duration passed to `TimeProgression::new` for every
animation spawned by the game logic. -/
def animDur : Rat := 1 / 20

/-- Finalization of a `Shoot` animation (src/main.rs, the
`AnimationAction::Shoot` arm of the animation-completion match): returns the
updated grid and the successor `Shoot` animations pushed to `new_anims`. -/
def shootFinalize (g : Grid Tile) (src : Coords) (dirn : CoordsDelta) (s : Shot)
    (dur : Rat) : Grid Tile × List ShootAnim :=
  let dst := src + dirn
  if g.dims.contains dst then
    match g.get dst with
    | some t =>
      if t.obj.isSome then
        (shotHits g dst s,
         match s.cascade with
         | ShotCascade.nothing => []
         | ShotCascade.piercing p => [⟨dst, dirn, p, animDur⟩]
         | ShotCascade.splitInTwo sp =>
           let oneSide : CoordsDelta := ⟨dirn.dy, dirn.dx⟩
           [⟨dst, oneSide, sp, animDur⟩, ⟨dst, -oneSide, sp, animDur⟩])
      else (g, [⟨dst, dirn, s, dur⟩])
    | none => (g, [])
  else (g, [])

/-- `AnimationAction::Move` finalization (src/main.rs): the moved object is
written into the destination tile. -/
def moveFinalize (g : Grid Tile) (obj : Obj) (dst : Coords) : Grid Tile :=
  g.setObjAt dst (some obj)

/-! ### Claim C10: Move finalization overwrites the destination object -/

/-- C10: when a Move animation finalizes at an in-bounds destination, the moved
object is written into the destination tile unconditionally, replacing
whatever object (Caravan, Tower of any hp, ...) was there, while every other
tile is unchanged.  In particular an enemy moving onto the Caravan or a Tower
removes it from the grid regardless of its hp: this is the attack-by-contact
mechanism. -/
theorem c10_move_overwrites (g : Grid Tile) (obj : Obj) (dst : Coords)
    (hwf : g.wf) (hc : g.dims.contains dst) :
    ∃ t, g.get dst = some t ∧
      (moveFinalize g obj dst).get dst = some ⟨t.ground, some obj⟩ ∧
      ∀ c', c' ≠ dst → (moveFinalize g obj dst).get c' = g.get c' := by
  obtain ⟨t, ht⟩ := Grid.get_eq_some_of_contains g hwf dst hc
  exact ⟨t, ht, Grid.get_setObjAt_self g dst (some obj) hwf t ht,
    fun c' hne => Grid.get_setObjAt_other g dst c' _ hne⟩

/-- Witness for C10: an enemy with 1 hp finalizes a move onto the full-hp
Caravan's tile, and the Caravan is gone. -/
theorem c10_move_overwrites_witness :
    ∃ t, (Grid.mk ⟨2, 1⟩ [Tile.mk (Ground.path ⟨dRIGHT, dLEFT, 0⟩) (some Obj.caravan),
        Tile.mk (Ground.path ⟨dRIGHT, dLEFT, 1⟩) none]).get ⟨0, 0⟩ = some t ∧
      (moveFinalize (Grid.mk ⟨2, 1⟩ [Tile.mk (Ground.path ⟨dRIGHT, dLEFT, 0⟩) (some Obj.caravan),
          Tile.mk (Ground.path ⟨dRIGHT, dLEFT, 1⟩) none])
        (Obj.enemy 0 1 0 EnemyKind.basic) ⟨0, 0⟩).get ⟨0, 0⟩
        = some ⟨t.ground, some (Obj.enemy 0 1 0 EnemyKind.basic)⟩ ∧
      ∀ c', c' ≠ (⟨0, 0⟩ : Coords) →
        (moveFinalize (Grid.mk ⟨2, 1⟩ [Tile.mk (Ground.path ⟨dRIGHT, dLEFT, 0⟩) (some Obj.caravan),
            Tile.mk (Ground.path ⟨dRIGHT, dLEFT, 1⟩) none])
          (Obj.enemy 0 1 0 EnemyKind.basic) ⟨0, 0⟩).get c'
        = (Grid.mk ⟨2, 1⟩ [Tile.mk (Ground.path ⟨dRIGHT, dLEFT, 0⟩) (some Obj.caravan),
            Tile.mk (Ground.path ⟨dRIGHT, dLEFT, 1⟩) none]).get c' :=
  c10_move_overwrites _ (Obj.enemy 0 1 0 EnemyKind.basic) ⟨0, 0⟩
    ⟨by decide, by decide, by decide⟩ (by decide)

/-! ### Claim C9: crystal economy of the left-click handler -/

/-- `tower_price` from the left-click handler in src/main.rs. -/
def towerPrice : Int := 10

/-- Outcome of a left click on the selected tile (src/main.rs, the
`MouseButton::Left` handler): the new crystal amount, the tile's object after
the click, the payload of a spawned Appear or Disappear animation if any, the
`end_player_phase_after_animation` flag, and whether the interface switched to
caravan-destination choice. -/
structure ClickResult where
  crystal : Int
  tileObj : Option Obj
  appear : Option Obj
  disappear : Option Obj
  endPhaseAfterAnim : Bool
  choosingCaravanDst : Bool
deriving DecidableEq, Repr

/-- The left-click handler branch of src/main.rs for a click on the already
selected tile, under its guard conditions (selected tile hovered, no animation
in flight, `Phase::Player`, `InterfaceMode::Normal`), which are preconditions
of this function. -/
def leftClickSelected (tile : Tile) (crystal : Int) (ttp : TowerKind) : ClickResult :=
  if tile.obj.isNone && !tile.hasWater && decide (towerPrice ≤ crystal) then
    ⟨crystal - towerPrice, tile.obj, some (Obj.tower 0 ttp.initialHp 0 ttp), none, true, false⟩
  else if (match tile.obj with | some Obj.crystal => true | _ => false) then
    ⟨crystal + 30, none, none, tile.obj, true, false⟩
  else if (match tile.obj with | some Obj.caravan => true | _ => false) then
    ⟨crystal, tile.obj, none, none, false, true⟩
  else ⟨crystal, tile.obj, none, none, false, false⟩

/-- C9: clicking an empty non-water tile to place a tower while holding
`tower_price - 1` crystals is rejected with no state change at all (no crystal
deduction, no tower Appear animation, no end-of-phase flag); mining a crystal
adds exactly the configured reward of 30 and removes the crystal object from
its tile (it is taken into a Disappear animation). -/
theorem c9_crystal_economy (tile : Tile) (crystal : Int) (ttp : TowerKind) :
    (tile.obj = none → tile.hasWater = false → crystal = towerPrice - 1 →
      leftClickSelected tile crystal ttp
        = ⟨crystal, tile.obj, none, none, false, false⟩) ∧
    (tile.obj = some Obj.crystal →
      leftClickSelected tile crystal ttp
        = ⟨crystal + 30, none, none, some Obj.crystal, true, false⟩) := by
  constructor
  · intro hobj hw hcr
    unfold leftClickSelected
    rw [hobj, hcr]
    simp [towerPrice]
  · intro hobj
    unfold leftClickSelected
    rw [hobj]
    simp

/-- Witness for C9: a rejected placement at 9 crystals on empty grass, and a
mined crystal at 9 crystals. -/
theorem c9_crystal_economy_witness :
    leftClickSelected ⟨Ground.grass 0, none⟩ 9 TowerKind.basic
      = ⟨9, none, none, none, false, false⟩ ∧
    leftClickSelected ⟨Ground.grass 0, some Obj.crystal⟩ 9 TowerKind.basic
      = ⟨9 + 30, none, none, some Obj.crystal, true, false⟩ :=
  ⟨(c9_crystal_economy ⟨Ground.grass 0, none⟩ 9 TowerKind.basic).1 rfl (by decide) (by decide),
   (c9_crystal_economy ⟨Ground.grass 0, some Obj.crystal⟩ 9 TowerKind.basic).2 rfl⟩

/-! ### Claims C6 and C7: Shoot-animation finalization and cascades -/

theorem inflictDamage_enemy_survive (g : Grid Tile) (c : Coords) (d : Int)
    (t : Tile) (a hp f : Int) (v : EnemyKind)
    (hget : g.get c = some t) (hobj : t.obj = some (Obj.enemy a hp f v))
    (hsurv : ¬ hp - d ≤ 0) :
    inflictDamage g c d = g.setObjAt c (some (Obj.enemy a (hp - d) f v)) := by
  unfold inflictDamage
  rw [hget]
  simp only [hobj]
  rw [if_neg hsurv]

theorem addFire_enemy (g : Grid Tile) (c : Coords) (amount : Int)
    (gr : Ground) (a hp f : Int) (v : EnemyKind)
    (hget : g.get c = some ⟨gr, some (Obj.enemy a hp f v)⟩) :
    addFire g c amount = g.setObjAt c (some (Obj.enemy a hp (f + amount) v)) := by
  unfold addFire
  rw [hget]

theorem addActions_enemy (g : Grid Tile) (c : Coords) (amount : Int)
    (gr : Ground) (a hp f : Int) (v : EnemyKind)
    (hget : g.get c = some ⟨gr, some (Obj.enemy a hp f v)⟩) :
    addActions g c amount = g.setObjAt c (some (Obj.enemy (a + amount) hp f v)) := by
  unfold addActions
  rw [hget]

/-- Applying a shot to a surviving enemy: hp drops by the damages, fire and
actions grow by the shot's (positive) amounts. -/
theorem shotHits_enemy (g : Grid Tile) (c : Coords) (s : Shot) (hwf : g.wf)
    (t : Tile) (a hp f : Int) (v : EnemyKind)
    (hget : g.get c = some t) (hobj : t.obj = some (Obj.enemy a hp f v))
    (hsurv : 1 ≤ hp - s.damages) :
    (shotHits g c s).get c = some ⟨t.ground,
      some (Obj.enemy (a + (if 0 < s.additionalActions then s.additionalActions else 0))
        (hp - s.damages) (f + (if 0 < s.fire then s.fire else 0)) v)⟩ := by
  have hid := inflictDamage_enemy_survive g c s.damages t a hp f v hget hobj (by omega)
  have hwf1 : (g.setObjAt c (some (Obj.enemy a (hp - s.damages) f v))).wf :=
    Grid.wf_setObjAt g c _ hwf
  have hget1 : (g.setObjAt c (some (Obj.enemy a (hp - s.damages) f v))).get c
      = some ⟨t.ground, some (Obj.enemy a (hp - s.damages) f v)⟩ :=
    Grid.get_setObjAt_self g c _ hwf t hget
  by_cases hf : 0 < s.fire
  · have haf := addFire_enemy (g.setObjAt c (some (Obj.enemy a (hp - s.damages) f v)))
      c s.fire t.ground a (hp - s.damages) f v hget1
    have hwf2 := Grid.wf_setObjAt (g.setObjAt c (some (Obj.enemy a (hp - s.damages) f v)))
      c (some (Obj.enemy a (hp - s.damages) (f + s.fire) v)) hwf1
    have hget2 := Grid.get_setObjAt_self (g.setObjAt c (some (Obj.enemy a (hp - s.damages) f v)))
      c (some (Obj.enemy a (hp - s.damages) (f + s.fire) v)) hwf1 _ hget1
    by_cases ha : 0 < s.additionalActions
    · have haa := addActions_enemy _ c s.additionalActions t.ground a (hp - s.damages)
        (f + s.fire) v hget2
      have hget3 := Grid.get_setObjAt_self _
        c (some (Obj.enemy (a + s.additionalActions) (hp - s.damages) (f + s.fire) v)) hwf2 _ hget2
      simp only [shotHits, hid, if_pos hf, if_pos ha, haf, haa, hget3]
    · simp only [shotHits, hid, if_pos hf, if_neg ha, haf, hget2, add_zero]
  · by_cases ha : 0 < s.additionalActions
    · have haa := addActions_enemy _ c s.additionalActions t.ground a (hp - s.damages) f v hget1
      have hget3 := Grid.get_setObjAt_self _
        c (some (Obj.enemy (a + s.additionalActions) (hp - s.damages) f v)) hwf1 _ hget1
      simp only [shotHits, hid, if_neg hf, if_pos ha, haa, hget3, add_zero]
    · simp only [shotHits, hid, if_neg hf, if_neg ha, hget1, add_zero]

/-- C6: when a Shoot animation finalizes, (a) if the next tile in its direction
is in-bounds and empty, exactly one successor Shoot continues one tile further
in the same direction with the same shot payload and the same duration, with
no grid change; (b) if the next tile is occupied, the shot's
damage/fire/actions are applied via `shot_hits_obj_at` (detailed for a
surviving enemy target in the last conjunct), and a Piercing cascade spawns
exactly one successor one tile further carrying the nested payload (no cascade
spawns none); (c) if the next tile is off-grid, nothing is spawned and the
grid is unchanged. -/
theorem c6_shoot_finalize (g : Grid Tile) (src : Coords) (dirn : CoordsDelta)
    (s : Shot) (dur : Rat) (hwf : g.wf) :
    (∀ t, g.get (src + dirn) = some t → t.obj = none →
      shootFinalize g src dirn s dur = (g, [⟨src + dirn, dirn, s, dur⟩])) ∧
    (∀ t o, g.get (src + dirn) = some t → t.obj = some o →
      (shootFinalize g src dirn s dur).1 = shotHits g (src + dirn) s ∧
      (s.cascade = ShotCascade.nothing → (shootFinalize g src dirn s dur).2 = []) ∧
      (∀ p, s.cascade = ShotCascade.piercing p →
        (shootFinalize g src dirn s dur).2 = [⟨src + dirn, dirn, p, animDur⟩])) ∧
    (¬ g.dims.contains (src + dirn) → shootFinalize g src dirn s dur = (g, [])) ∧
    (∀ t a hp f v, g.get (src + dirn) = some t → t.obj = some (Obj.enemy a hp f v) →
      1 ≤ hp - s.damages →
      (shotHits g (src + dirn) s).get (src + dirn) = some ⟨t.ground,
        some (Obj.enemy (a + (if 0 < s.additionalActions then s.additionalActions else 0))
          (hp - s.damages) (f + (if 0 < s.fire then s.fire else 0)) v)⟩) := by
  refine ⟨?_, ?_, ?_, ?_⟩
  · intro t hget hobj
    have hc := Grid.contains_of_get_some g _ t hget
    simp only [shootFinalize]
    rw [if_pos hc, hget]
    simp [hobj]
  · intro t o hget hobj
    have hc := Grid.contains_of_get_some g _ t hget
    have hred : shootFinalize g src dirn s dur
        = (shotHits g (src + dirn) s,
           match s.cascade with
           | ShotCascade.nothing => []
           | ShotCascade.piercing p => [⟨src + dirn, dirn, p, animDur⟩]
           | ShotCascade.splitInTwo sp =>
             [⟨src + dirn, (⟨dirn.dy, dirn.dx⟩ : CoordsDelta), sp, animDur⟩,
              ⟨src + dirn, -(⟨dirn.dy, dirn.dx⟩ : CoordsDelta), sp, animDur⟩]) := by
      simp only [shootFinalize]
      rw [if_pos hc, hget]
      simp [hobj]
    rw [hred]
    refine ⟨rfl, ?_, ?_⟩
    · intro hcas
      rw [hcas]
    · intro p hcas
      rw [hcas]
  · intro hc
    simp only [shootFinalize]
    rw [if_neg hc]
  · intro t a hp f v hget hobj hsurv
    exact shotHits_enemy g _ s hwf t a hp f v hget hobj hsurv

/-- Witness for C6 on a 3-by-1 grid with an enemy in the last column: a miss
into an empty tile, a hit on the enemy, and an off-grid drop. -/
theorem c6_shoot_finalize_witness :
    (shootFinalize ⟨⟨3, 1⟩, [⟨Ground.grass 0, none⟩, ⟨Ground.grass 0, none⟩,
        ⟨Ground.grass 0, some (Obj.enemy 0 8 0 EnemyKind.basic)⟩]⟩
        ⟨0, 0⟩ dRIGHT (TowerKind.basic.shot) (1 / 10)
      = (⟨⟨3, 1⟩, [⟨Ground.grass 0, none⟩, ⟨Ground.grass 0, none⟩,
          ⟨Ground.grass 0, some (Obj.enemy 0 8 0 EnemyKind.basic)⟩]⟩,
         [⟨⟨1, 0⟩, dRIGHT, TowerKind.basic.shot, 1 / 10⟩])) ∧
    ((shootFinalize ⟨⟨3, 1⟩, [⟨Ground.grass 0, none⟩, ⟨Ground.grass 0, none⟩,
        ⟨Ground.grass 0, some (Obj.enemy 0 8 0 EnemyKind.basic)⟩]⟩
        ⟨1, 0⟩ dRIGHT (TowerKind.basic.shot) (1 / 10)).1
      = shotHits ⟨⟨3, 1⟩, [⟨Ground.grass 0, none⟩, ⟨Ground.grass 0, none⟩,
          ⟨Ground.grass 0, some (Obj.enemy 0 8 0 EnemyKind.basic)⟩]⟩ ⟨2, 0⟩
          (TowerKind.basic.shot)) ∧
    (shootFinalize ⟨⟨3, 1⟩, [⟨Ground.grass 0, none⟩, ⟨Ground.grass 0, none⟩,
        ⟨Ground.grass 0, some (Obj.enemy 0 8 0 EnemyKind.basic)⟩]⟩
        ⟨2, 0⟩ dRIGHT (TowerKind.basic.shot) (1 / 10)
      = (⟨⟨3, 1⟩, [⟨Ground.grass 0, none⟩, ⟨Ground.grass 0, none⟩,
          ⟨Ground.grass 0, some (Obj.enemy 0 8 0 EnemyKind.basic)⟩]⟩, [])) ∧
    ((shotHits ⟨⟨3, 1⟩, [⟨Ground.grass 0, none⟩, ⟨Ground.grass 0, none⟩,
        ⟨Ground.grass 0, some (Obj.enemy 0 8 0 EnemyKind.basic)⟩]⟩ ⟨2, 0⟩
        (TowerKind.basic.shot)).get ⟨2, 0⟩
      = some ⟨Ground.grass 0, some (Obj.enemy 0 7 0 EnemyKind.basic)⟩) := by
  have h1 := (c6_shoot_finalize ⟨⟨3, 1⟩, [⟨Ground.grass 0, none⟩, ⟨Ground.grass 0, none⟩,
      ⟨Ground.grass 0, some (Obj.enemy 0 8 0 EnemyKind.basic)⟩]⟩ ⟨0, 0⟩ dRIGHT
      (TowerKind.basic.shot) (1 / 10) (by decide)).1
      ⟨Ground.grass 0, none⟩ (by decide) rfl
  have h2full := c6_shoot_finalize ⟨⟨3, 1⟩, [⟨Ground.grass 0, none⟩, ⟨Ground.grass 0, none⟩,
      ⟨Ground.grass 0, some (Obj.enemy 0 8 0 EnemyKind.basic)⟩]⟩ ⟨1, 0⟩ dRIGHT
      (TowerKind.basic.shot) (1 / 10) (by decide)
  have h2 := (h2full.2.1 ⟨Ground.grass 0, some (Obj.enemy 0 8 0 EnemyKind.basic)⟩
      (Obj.enemy 0 8 0 EnemyKind.basic) (by decide) rfl).1
  have h3 := (c6_shoot_finalize ⟨⟨3, 1⟩, [⟨Ground.grass 0, none⟩, ⟨Ground.grass 0, none⟩,
      ⟨Ground.grass 0, some (Obj.enemy 0 8 0 EnemyKind.basic)⟩]⟩ ⟨2, 0⟩ dRIGHT
      (TowerKind.basic.shot) (1 / 10) (by decide)).2.2.1 (by decide)
  have h4 := (c6_shoot_finalize ⟨⟨3, 1⟩, [⟨Ground.grass 0, none⟩, ⟨Ground.grass 0, none⟩,
      ⟨Ground.grass 0, some (Obj.enemy 0 8 0 EnemyKind.basic)⟩]⟩ ⟨1, 0⟩ dRIGHT
      (TowerKind.basic.shot) (1 / 10) (by decide)).2.2.2
      ⟨Ground.grass 0, some (Obj.enemy 0 8 0 EnemyKind.basic)⟩ 0 8 0 EnemyKind.basic
      (by decide) rfl (by decide)
  refine ⟨?_, h2, h3, ?_⟩
  · have hc : ((⟨0, 0⟩ : Coords) + dRIGHT) = (⟨1, 0⟩ : Coords) := by decide
    rw [hc] at h1
    exact h1
  · have hc : ((⟨1, 0⟩ : Coords) + dRIGHT) = (⟨2, 0⟩ : Coords) := by decide
    rw [hc] at h4
    convert h4 using 4

/-- C7: a SplitInTwo shot finalizing against an occupied tile spawns exactly
two successor Shoot animations from the hit tile; for a cardinal incoming
direction their directions are perpendicular to it and opposite each other,
and each carries the nested shot payload. -/
theorem c7_split_in_two (g : Grid Tile) (src : Coords) (dirn : CoordsDelta)
    (s sp : Shot) (dur : Rat) (t : Tile) (o : Obj)
    (hdir : dirn ∈ directions4)
    (hget : g.get (src + dirn) = some t) (hobj : t.obj = some o)
    (hcas : s.cascade = ShotCascade.splitInTwo sp) :
    (shootFinalize g src dirn s dur).2
      = [⟨src + dirn, ⟨dirn.dy, dirn.dx⟩, sp, animDur⟩,
         ⟨src + dirn, -(⟨dirn.dy, dirn.dx⟩ : CoordsDelta), sp, animDur⟩] ∧
    (⟨dirn.dy, dirn.dx⟩ : CoordsDelta).dx * dirn.dx
      + (⟨dirn.dy, dirn.dx⟩ : CoordsDelta).dy * dirn.dy = 0 ∧
    (-(⟨dirn.dy, dirn.dx⟩ : CoordsDelta)).dx * dirn.dx
      + (-(⟨dirn.dy, dirn.dx⟩ : CoordsDelta)).dy * dirn.dy = 0 := by
  have hc := Grid.contains_of_get_some g _ t hget
  refine ⟨?_, ?_, ?_⟩
  · simp only [shootFinalize]
    rw [if_pos hc, hget]
    simp [hobj, hcas]
  · fin_cases hdir <;> decide
  · fin_cases hdir <;> decide

/-- Witness for C7: a splitting shot (the pink tower's) hitting an enemy one
tile to the right. -/
theorem c7_split_in_two_witness :
    (shootFinalize ⟨⟨2, 1⟩, [⟨Ground.grass 0, none⟩,
        ⟨Ground.grass 0, some (Obj.enemy 0 8 0 EnemyKind.basic)⟩]⟩
        ⟨0, 0⟩ dRIGHT (TowerKind.pink.shot) animDur).2
      = [⟨(⟨0, 0⟩ : Coords) + dRIGHT, ⟨dRIGHT.dy, dRIGHT.dx⟩, Shot.mk 3 0 0 ShotCascade.nothing, animDur⟩,
         ⟨(⟨0, 0⟩ : Coords) + dRIGHT, -(⟨dRIGHT.dy, dRIGHT.dx⟩ : CoordsDelta),
          Shot.mk 3 0 0 ShotCascade.nothing, animDur⟩] ∧
    (⟨dRIGHT.dy, dRIGHT.dx⟩ : CoordsDelta).dx * dRIGHT.dx
      + (⟨dRIGHT.dy, dRIGHT.dx⟩ : CoordsDelta).dy * dRIGHT.dy = 0 ∧
    (-(⟨dRIGHT.dy, dRIGHT.dx⟩ : CoordsDelta)).dx * dRIGHT.dx
      + (-(⟨dRIGHT.dy, dRIGHT.dx⟩ : CoordsDelta)).dy * dRIGHT.dy = 0 :=
  c7_split_in_two (⟨⟨2, 1⟩, [⟨Ground.grass 0, none⟩,
      ⟨Ground.grass 0, some (Obj.enemy 0 8 0 EnemyKind.basic)⟩]⟩ : Grid Tile)
    (⟨0, 0⟩ : Coords) dRIGHT (TowerKind.pink.shot) (Shot.mk 3 0 0 ShotCascade.nothing) animDur
    (⟨Ground.grass 0, some (Obj.enemy 0 8 0 EnemyKind.basic)⟩ : Tile)
    (Obj.enemy 0 8 0 EnemyKind.basic)
    (by simp [directions4]) (by decide) rfl rfl

/-! ### Claim C4: the enemy phase step -/

/-- A pending Move animation (src/main.rs, `AnimationAction::Move`). -/
structure MoveAnim where
  obj : Obj
  src : Coords
  dst : Coords
deriving DecidableEq, Repr

/-- Eligibility of the tile at `c` for enemy selection (src/main.rs, the
`Phase::Enemy` selection loop body): an enemy with at least one pending action
standing on a path tile, together with that tile's path distance. -/
def enemyEligible (g : Grid Tile) (c : Coords) : Option Int :=
  match g.get c with
  | some t =>
    match t.obj with
    | some (Obj.enemy a _ _ _) =>
      if 1 ≤ a then (t.pathInfo).map Path.distance else none
    | _ => none
  | none => none

/-- One step of the minimum-distance scan of the `Phase::Enemy` selection loop
(update the running minimum on a strictly smaller distance). -/
def enemySelectStep (g : Grid Tile) (acc : Option (Int × Coords)) (c : Coords) :
    Option (Int × Coords) :=
  match enemyEligible g c with
  | some d =>
    match acc with
    | none => some (d, c)
    | some (dmin, cmin) => if d < dmin then some (d, c) else some (dmin, cmin)
  | none => acc

/-- The `Phase::Enemy` selection loop of src/main.rs: scan all tiles in
row-major order and keep the eligible enemy on the path tile of smallest
`distance` (the first such on a tie). -/
def enemySelect (g : Grid Tile) : Option (Int × Coords) :=
  g.dims.iterCoords.foldl (enemySelectStep g) none

/-- The move-destination test of the enemy move (src/main.rs): the destination
tile exists and is empty or holds the Caravan or a Tower. -/
def moveDstOk (g : Grid Tile) (dst : Coords) : Bool :=
  match g.get dst with
  | some dt =>
    dt.obj.isNone || (match dt.obj with
      | some Obj.caravan => true
      | some (Obj.tower _ _ _ _) => true
      | _ => false)
  | none => false

/-- The fire-effect handling of the selected enemy (src/main.rs, just before
the enemy plays): if it has a pending action and a fire stack, consume one
stack and inflict 1 damage. -/
def applyEnemyFire (g : Grid Tile) (c : Coords) : Grid Tile :=
  match g.get c with
  | some ⟨_, some (Obj.enemy a hp f v)⟩ =>
    if 1 ≤ a ∧ 1 ≤ f then
      inflictDamage (g.setObjAt c (some (Obj.enemy a hp (f - 1) v))) c 1
    else g
  | _ => g

/-- The selected enemy's turn (src/main.rs, `Phase::Enemy` after selection):
fire effect first, then, if an enemy with a pending action is still there,
consume one action and move it one tile along its tile's `backward` delta,
but only when the destination is empty or holds the Caravan or a Tower
(otherwise the action is forfeited).  The `(g2, none)` arm for a missing path
stands for the source's `panic!("enemy not on a path")`, unreachable after
selection. -/
def enemyActStep (g : Grid Tile) (c : Coords) : Grid Tile × Option MoveAnim :=
  let g1 := applyEnemyFire g c
  match g1.get c with
  | some t =>
    match t.obj with
    | some (Obj.enemy a hp f v) =>
      if 1 ≤ a then
        let g2 := g1.setObjAt c (some (Obj.enemy (a - 1) hp f v))
        match t.pathInfo with
        | some p =>
          if moveDstOk g2 (c + p.backward) then
            (g2.setObjAt c none, some ⟨Obj.enemy (a - 1) hp f v, c, c + p.backward⟩)
          else (g2, none)
        | none => (g2, none)
      else (g1, none)
    | _ => (g1, none)
  | none => (g1, none)

/-- One tick of the enemy phase while some enemy still has a pending action
(src/main.rs, `Phase::Enemy`).  The no-enemy-left branch (enemy spawning and
the transition to `Phase::Tower`) is outside the claims and not modelled. -/
def enemyPhaseStep (g : Grid Tile) : Grid Tile × Option MoveAnim :=
  match enemySelect g with
  | some (_, c) => enemyActStep g c
  | none => (g, none)

theorem enemySelectStep_skip (g : Grid Tile) (acc : Option (Int × Coords)) (c : Coords)
    (he : enemyEligible g c = none) : enemySelectStep g acc c = acc := by
  simp [enemySelectStep, he]

theorem enemySelectStep_first (g : Grid Tile) (c : Coords) (d : Int)
    (he : enemyEligible g c = some d) : enemySelectStep g none c = some (d, c) := by
  simp [enemySelectStep, he]

theorem enemySelectStep_better (g : Grid Tile) (c cm : Coords) (d dm : Int)
    (he : enemyEligible g c = some d) (hlt : d < dm) :
    enemySelectStep g (some (dm, cm)) c = some (d, c) := by
  simp [enemySelectStep, he, hlt]

theorem enemySelectStep_keep (g : Grid Tile) (c cm : Coords) (d dm : Int)
    (he : enemyEligible g c = some d) (hlt : ¬ d < dm) :
    enemySelectStep g (some (dm, cm)) c = some (dm, cm) := by
  simp [enemySelectStep, he, hlt]

theorem enemySelect_fold (g : Grid Tile) :
    ∀ (l : List Coords) (acc : Option (Int × Coords)) (r : Int × Coords),
      l.foldl (enemySelectStep g) acc = some r →
      (∀ c ∈ l, ∀ d, enemyEligible g c = some d → r.1 ≤ d) ∧
      (∀ d c0, acc = some (d, c0) → r.1 ≤ d) ∧
      (enemyEligible g r.2 = some r.1 ∨ acc = some r) := by
  intro l
  induction l with
  | nil =>
    intro acc r h
    simp only [List.foldl_nil] at h
    refine ⟨by simp, ?_, Or.inr h⟩
    intro d c0 hacc
    rw [hacc] at h
    cases h
    rfl
  | cons c l ih =>
    intro acc r h
    simp only [List.foldl_cons] at h
    obtain ⟨ih1, ih2, ih3⟩ := ih (enemySelectStep g acc c) r h
    cases he : enemyEligible g c with
    | none =>
      rw [enemySelectStep_skip g acc c he] at ih2 ih3
      refine ⟨?_, ih2, ih3⟩
      intro c2 hc2 d hd
      rcases List.mem_cons.mp hc2 with rfl | hmem
      · rw [he] at hd
        exact absurd hd (by simp)
      · exact ih1 c2 hmem d hd
    | some d2 =>
      cases hacc : acc with
      | none =>
        rw [hacc] at h ih2 ih3
        rw [enemySelectStep_first g c d2 he] at ih2 ih3
        refine ⟨?_, ?_, ?_⟩
        · intro c2 hc2 d hd
          rcases List.mem_cons.mp hc2 with rfl | hmem
          · rw [he] at hd
            injection hd with hdd
            have := ih2 d2 c2 rfl
            omega
          · exact ih1 c2 hmem d hd
        · intro d c0 hacc2
          exact absurd hacc2 (by simp)
        · rcases ih3 with helig | heq
          · exact Or.inl helig
          · cases heq
            exact Or.inl he
      | some p =>
        obtain ⟨dm, cm⟩ := p
        rw [hacc] at h ih2 ih3
        by_cases hlt : d2 < dm
        · rw [enemySelectStep_better g c cm d2 dm he hlt] at ih2 ih3
          refine ⟨?_, ?_, ?_⟩
          · intro c2 hc2 d hd
            rcases List.mem_cons.mp hc2 with rfl | hmem
            · rw [he] at hd
              injection hd with hdd
              have := ih2 d2 c2 rfl
              omega
            · exact ih1 c2 hmem d hd
          · intro d c0 hacc2
            injection hacc2 with hacc3
            injection hacc3 with h4 h5
            have := ih2 d2 c rfl
            omega
          · rcases ih3 with helig | heq
            · exact Or.inl helig
            · cases heq
              exact Or.inl he
        · rw [enemySelectStep_keep g c cm d2 dm he hlt] at ih2 ih3
          refine ⟨?_, ?_, ?_⟩
          · intro c2 hc2 d hd
            rcases List.mem_cons.mp hc2 with rfl | hmem
            · rw [he] at hd
              injection hd with hdd
              have := ih2 dm cm rfl
              omega
            · exact ih1 c2 hmem d hd
          · intro d c0 hacc2
            injection hacc2 with hacc3
            injection hacc3 with h4 h5
            have := ih2 dm cm rfl
            omega
          · rcases ih3 with helig | heq
            · exact Or.inl helig
            · exact Or.inr heq

/-- Inversion of eligibility. -/
theorem enemyEligible_inv (g : Grid Tile) (c : Coords) (d : Int)
    (h : enemyEligible g c = some d) :
    ∃ gr a hp f v p, g.get c = some ⟨gr, some (Obj.enemy a hp f v)⟩ ∧ 1 ≤ a ∧
      Ground.pathInfo gr = some p ∧ p.distance = d := by
  unfold enemyEligible at h
  cases hg : g.get c with
  | none => rw [hg] at h; exact absurd h (by simp)
  | some t =>
    rw [hg] at h
    obtain ⟨gr, obj⟩ := t
    cases obj with
    | none => simp at h
    | some o =>
      cases o with
      | enemy a hp f v =>
        simp only at h
        by_cases ha : 1 ≤ a
        · rw [if_pos ha] at h
          simp only [Tile.pathInfo, Option.map_eq_some'] at h
          obtain ⟨p, hp1, hp2⟩ := h
          exact ⟨gr, a, hp, f, v, p, rfl, ha, hp1, hp2⟩
        · rw [if_neg ha] at h
          exact absurd h (by simp)
      | caravan => simp at h
      | tree => simp at h
      | rock vv => simp at h
      | crystal => simp at h
      | tower a hp f v => simp at h

/-- The direction of the converse: an eligible coordinate is in bounds. -/
theorem enemyEligible_contains (g : Grid Tile) (c : Coords) (d : Int)
    (h : enemyEligible g c = some d) : g.dims.contains c := by
  obtain ⟨gr, a, hp, f, v, p, hg, _, _, _⟩ := enemyEligible_inv g c d h
  exact Grid.contains_of_get_some g c _ hg

/-- Characterization of the selection loop result. -/
theorem enemySelect_spec (g : Grid Tile) (d : Int) (c : Coords)
    (h : enemySelect g = some (d, c)) :
    enemyEligible g c = some d ∧
    ∀ c2 d2, enemyEligible g c2 = some d2 → d ≤ d2 := by
  obtain ⟨h1, _, h3⟩ := enemySelect_fold g g.dims.iterCoords none (d, c) h
  refine ⟨?_, ?_⟩
  · rcases h3 with helig | habs
    · exact helig
    · exact absurd habs (by simp)
  · intro c2 d2 he
    have hc2 := enemyEligible_contains g c2 d2 he
    have hmem : c2 ∈ g.dims.iterCoords := by
      rw [mem_iterCoords g.dims c2 (by obtain ⟨a, b, _, _⟩ := hc2; omega)
        (by obtain ⟨_, _, a, b⟩ := hc2; omega)]
      exact hc2
    exact h1 c2 hmem d2 he

theorem applyEnemyFire_fire (g : Grid Tile) (c : Coords) (gr : Ground)
    (a hp f : Int) (v : EnemyKind)
    (hget : g.get c = some ⟨gr, some (Obj.enemy a hp f v)⟩) (ha : 1 ≤ a) (hf : 1 ≤ f) :
    applyEnemyFire g c = inflictDamage (g.setObjAt c (some (Obj.enemy a hp (f - 1) v))) c 1 := by
  simp only [applyEnemyFire, hget]
  rw [if_pos ⟨ha, hf⟩]

theorem applyEnemyFire_nofire (g : Grid Tile) (c : Coords) (gr : Ground)
    (a hp f : Int) (v : EnemyKind)
    (hget : g.get c = some ⟨gr, some (Obj.enemy a hp f v)⟩) (h : ¬ (1 ≤ a ∧ 1 ≤ f)) :
    applyEnemyFire g c = g := by
  simp only [applyEnemyFire, hget]
  rw [if_neg h]

theorem inflictDamage_enemy_die (g : Grid Tile) (c : Coords) (d : Int)
    (t : Tile) (a hp f : Int) (v : EnemyKind)
    (hget : g.get c = some t) (hobj : t.obj = some (Obj.enemy a hp f v))
    (hdie : hp - d ≤ 0) :
    inflictDamage g c d = g.setObjAt c none := by
  unfold inflictDamage
  rw [hget]
  simp only [hobj]
  rw [if_pos hdie]

theorem moveDstOk_enemy_at (g : Grid Tile) (dst : Coords) (gr : Ground)
    (a hp f : Int) (v : EnemyKind)
    (hget : g.get dst = some ⟨gr, some (Obj.enemy a hp f v)⟩) :
    moveDstOk g dst = false := by
  simp [moveDstOk, hget]

theorem moveDstOk_setObjAt_enemy (g : Grid Tile) (c dst : Coords) (hwf : g.wf)
    (gr : Ground) (a hp f : Int) (v : EnemyKind)
    (a2 hp2 f2 : Int) (v2 : EnemyKind)
    (hget : g.get c = some ⟨gr, some (Obj.enemy a hp f v)⟩) :
    moveDstOk (g.setObjAt c (some (Obj.enemy a2 hp2 f2 v2))) dst = moveDstOk g dst := by
  by_cases hdc : dst = c
  · subst hdc
    rw [moveDstOk_enemy_at g dst gr a hp f v hget,
      moveDstOk_enemy_at _ dst gr a2 hp2 f2 v2
        (Grid.get_setObjAt_self g dst _ hwf _ hget)]
  · unfold moveDstOk
    rw [Grid.get_setObjAt_other g c dst _ hdc]

/-- C4: in an enemy-phase step with some enemy left to act, the enemy selected
is eligible (pending action, on a path tile) with the minimal path `distance`
among all eligible enemies, so it acts before any enemy with strictly larger
distance; its act first consumes a fire stack and takes 1 damage when it has a
fire stack (removing it from the grid when that kills it, with no action
consumed), and otherwise consumes one action and moves one tile along its
tile's `backward` delta exactly when the destination tile is empty or holds
the Caravan or a Tower, the action being consumed but the move forfeited
otherwise. -/
theorem c4_enemy_phase_step (g : Grid Tile) (hwf : g.wf) (d : Int) (c : Coords)
    (hsel : enemySelect g = some (d, c)) :
    (∃ gr a hp f v, g.get c = some ⟨gr, some (Obj.enemy a hp f v)⟩ ∧ 1 ≤ a ∧
      ∃ p, Ground.pathInfo gr = some p ∧ p.distance = d) ∧
    (∀ c2 d2, enemyEligible g c2 = some d2 → d ≤ d2) ∧
    (enemyPhaseStep g = enemyActStep g c) ∧
    (∀ gr a hp f v, g.get c = some ⟨gr, some (Obj.enemy a hp f v)⟩ →
      ∀ p, Ground.pathInfo gr = some p →
      ((1 ≤ f ∧ hp - 1 ≤ 0) →
        enemyActStep g c = (g.setObjAt c none, none)) ∧
      (¬ (1 ≤ f ∧ hp - 1 ≤ 0) →
        ((moveDstOk g (c + p.backward) = true →
          enemyActStep g c = (g.setObjAt c none,
            some ⟨Obj.enemy (a - 1) (if 1 ≤ f then hp - 1 else hp)
              (if 1 ≤ f then f - 1 else f) v, c, c + p.backward⟩)) ∧
         (moveDstOk g (c + p.backward) = false →
          enemyActStep g c = (g.setObjAt c (some (Obj.enemy (a - 1)
            (if 1 ≤ f then hp - 1 else hp) (if 1 ≤ f then f - 1 else f) v)),
            none))))) := by
  obtain ⟨helig, hmin⟩ := enemySelect_spec g d c hsel
  obtain ⟨gr0, a0, hp0, f0, v0, p0, hget0, ha0, hpi0, hd0⟩ := enemyEligible_inv g c d helig
  refine ⟨⟨gr0, a0, hp0, f0, v0, hget0, ha0, p0, hpi0, hd0⟩, hmin, ?_, ?_⟩
  · simp [enemyPhaseStep, hsel]
  · intro gr a hp f v hget p hpi
    have heq : (⟨gr0, some (Obj.enemy a0 hp0 f0 v0)⟩ : Tile)
        = ⟨gr, some (Obj.enemy a hp f v)⟩ := by
      have := hget0.symm.trans hget
      exact Option.some.inj this
    have hgr : gr0 = gr := congrArg Tile.ground heq
    have hobj : (Obj.enemy a0 hp0 f0 v0) = Obj.enemy a hp f v := by
      have := congrArg Tile.obj heq
      exact Option.some.inj this
    have ha : 1 ≤ a := by
      cases hobj
      exact ha0
    constructor
    · rintro ⟨hf, hdie⟩
      have hfire := applyEnemyFire_fire g c gr a hp f v hget ha hf
      have hgetset : (g.setObjAt c (some (Obj.enemy a hp (f - 1) v))).get c
          = some ⟨gr, some (Obj.enemy a hp (f - 1) v)⟩ :=
        Grid.get_setObjAt_self g c _ hwf _ hget
      have hdied := inflictDamage_enemy_die
        (g.setObjAt c (some (Obj.enemy a hp (f - 1) v))) c 1 _ a hp (f - 1) v
        hgetset rfl hdie
      have hcollapse := Grid.setObjAt_setObjAt g c
        (some (Obj.enemy a hp (f - 1) v)) none hwf
      have hgone : applyEnemyFire g c = g.setObjAt c none := by
        rw [hfire, hdied, hcollapse]
      have hgetnone : (g.setObjAt c none).get c = some ⟨gr, none⟩ :=
        Grid.get_setObjAt_self g c none hwf _ hget
      simp only [enemyActStep, hgone, hgetnone]
    · intro hnodie
      by_cases hf : 1 ≤ f
      · have hsurv : ¬ hp - 1 ≤ 0 := by
          intro hcon
          exact hnodie ⟨hf, hcon⟩
        have hfire := applyEnemyFire_fire g c gr a hp f v hget ha hf
        have hgetset : (g.setObjAt c (some (Obj.enemy a hp (f - 1) v))).get c
            = some ⟨gr, some (Obj.enemy a hp (f - 1) v)⟩ :=
          Grid.get_setObjAt_self g c _ hwf _ hget
        have hsurvd := inflictDamage_enemy_survive
          (g.setObjAt c (some (Obj.enemy a hp (f - 1) v))) c 1 _ a hp (f - 1) v
          hgetset rfl hsurv
        have hcollapse := Grid.setObjAt_setObjAt g c
          (some (Obj.enemy a hp (f - 1) v)) (some (Obj.enemy a (hp - 1) (f - 1) v)) hwf
        have hg1 : applyEnemyFire g c = g.setObjAt c (some (Obj.enemy a (hp - 1) (f - 1) v)) := by
          rw [hfire, hsurvd, hcollapse]
        have hget1 : (g.setObjAt c (some (Obj.enemy a (hp - 1) (f - 1) v))).get c
            = some ⟨gr, some (Obj.enemy a (hp - 1) (f - 1) v)⟩ :=
          Grid.get_setObjAt_self g c _ hwf _ hget
        have hwf1 := Grid.wf_setObjAt g c (some (Obj.enemy a (hp - 1) (f - 1) v)) hwf
        have hcollapse2 := Grid.setObjAt_setObjAt g c
          (some (Obj.enemy a (hp - 1) (f - 1) v))
          (some (Obj.enemy (a - 1) (hp - 1) (f - 1) v)) hwf
        have hdstok := moveDstOk_setObjAt_enemy g c (c + p.backward) hwf gr a hp f v
          (a - 1) (hp - 1) (f - 1) v hget
        have htp : Tile.pathInfo ⟨gr, some (Obj.enemy a (hp - 1) (f - 1) v)⟩ = some p := hpi
        constructor
        · intro hmv
          simp only [enemyActStep, hg1, hget1, if_pos ha, htp, hcollapse2]
          rw [hdstok, hmv]
          simp only [if_pos, if_pos hf]
          rw [Grid.setObjAt_setObjAt g c _ none hwf]
        · intro hmv
          simp only [enemyActStep, hg1, hget1, if_pos ha, htp, hcollapse2]
          rw [hdstok, hmv]
          simp only [if_pos hf]
          rfl
      · have hnof : ¬ (1 ≤ a ∧ 1 ≤ f) := by
          intro hcon
          exact hf hcon.2
        have hg1 := applyEnemyFire_nofire g c gr a hp f v hget hnof
        have hcollapse2 := Grid.setObjAt_setObjAt g c
          (some (Obj.enemy a hp f v)) (some (Obj.enemy (a - 1) hp f v)) hwf
        have hdstok := moveDstOk_setObjAt_enemy g c (c + p.backward) hwf gr a hp f v
          (a - 1) hp f v hget
        have htp : Tile.pathInfo ⟨gr, some (Obj.enemy a hp f v)⟩ = some p := hpi
        constructor
        · intro hmv
          simp only [enemyActStep, hg1, hget, if_pos ha, htp]
          rw [hdstok, hmv]
          simp only [if_pos, if_neg hf]
          rw [Grid.setObjAt_setObjAt g c _ none hwf]
        · intro hmv
          simp only [enemyActStep, hg1, hget, if_pos ha, htp]
          rw [hdstok, hmv]
          simp only [if_neg hf]
          rfl

/-- Witness for C4 on a 3-by-1 path with two enemies: the enemy at distance 1
is selected over the one at distance 2, consumes its action and moves backward
into the empty distance-0 tile. -/
theorem c4_enemy_phase_step_witness :
    enemyActStep (Grid.mk ⟨3, 1⟩
        [⟨Ground.path ⟨dRIGHT, dLEFT, 0⟩, none⟩,
         ⟨Ground.path ⟨dRIGHT, dLEFT, 1⟩, some (Obj.enemy 1 5 0 EnemyKind.basic)⟩,
         ⟨Ground.path ⟨dRIGHT, dLEFT, 2⟩, some (Obj.enemy 1 5 0 EnemyKind.basic)⟩]) ⟨1, 0⟩
      = ((Grid.mk ⟨3, 1⟩
          [⟨Ground.path ⟨dRIGHT, dLEFT, 0⟩, none⟩,
           ⟨Ground.path ⟨dRIGHT, dLEFT, 1⟩, some (Obj.enemy 1 5 0 EnemyKind.basic)⟩,
           ⟨Ground.path ⟨dRIGHT, dLEFT, 2⟩, some (Obj.enemy 1 5 0 EnemyKind.basic)⟩]).setObjAt
            ⟨1, 0⟩ none,
         some ⟨Obj.enemy (1 - 1) (if (1 : Int) ≤ 0 then 5 - 1 else 5)
           (if (1 : Int) ≤ 0 then 0 - 1 else 0) EnemyKind.basic, ⟨1, 0⟩,
           (⟨1, 0⟩ : Coords) + dLEFT⟩) :=
  (((c4_enemy_phase_step (Grid.mk ⟨3, 1⟩
        [⟨Ground.path ⟨dRIGHT, dLEFT, 0⟩, none⟩,
         ⟨Ground.path ⟨dRIGHT, dLEFT, 1⟩, some (Obj.enemy 1 5 0 EnemyKind.basic)⟩,
         ⟨Ground.path ⟨dRIGHT, dLEFT, 2⟩, some (Obj.enemy 1 5 0 EnemyKind.basic)⟩])
      (by decide) 1 ⟨1, 0⟩ (by decide)).2.2.2
      (Ground.path ⟨dRIGHT, dLEFT, 1⟩) 1 5 0 EnemyKind.basic (by decide)
      ⟨dRIGHT, dLEFT, 1⟩ rfl).2 (by decide)).1 (by decide)

/-! ### Claim C5: tower target acquisition -/

theorem Tile.hasEnemy_isSome (t : Tile) (h : t.hasEnemy = true) : t.obj.isSome = true := by
  unfold Tile.hasEnemy at h
  cases ho : t.obj with
  | none => rw [ho] at h; simp at h
  | some o => simp

/-- The per-direction view scan of the tower targeting loop (src/main.rs,
`Phase::Tower`): walk outward from the tower along `dirn`, breaking on the
grid edge, on the first occupied tile, or on an enemy-on-path tile whose
distance improves the running minimum `mina` (which it then updates).  The
outer `none` marks fuel exhaustion (any fuel at least `w + h` is enough for
the walk to leave the grid). -/
def towerViewLoop (g : Grid Tile) (dirn : CoordsDelta) :
    Option (Int × CoordsDelta) → Nat → Coords → Option (Option (Int × CoordsDelta))
  | _, 0, _ => none
  | mina, fuel + 1, view =>
    match g.get view with
    | none => some mina
    | some t =>
      if t.hasEnemy then
        match t.pathInfo with
        | some p =>
          match mina with
          | none => some (some (p.distance, dirn))
          | some (dmin, dmdir) =>
            if p.distance < dmin then some (some (p.distance, dirn))
            else if t.obj.isSome then some (some (dmin, dmdir))
            else towerViewLoop g dirn (some (dmin, dmdir)) fuel (view + dirn)
        | none =>
          if t.obj.isSome then some mina
          else towerViewLoop g dirn mina fuel (view + dirn)
      else
        if t.obj.isSome then some mina
        else towerViewLoop g dirn mina fuel (view + dirn)

/-- The full 4-direction targeting scan of a tower at `c` (src/main.rs,
`Phase::Tower`): scan the directions in order, threading the running minimum
`(distance, direction)` through the per-direction loops. -/
def towerTarget (g : Grid Tile) (c : Coords) (fuel : Nat) :
    Option (Option (Int × CoordsDelta)) :=
  directions4.foldl (fun acc dirn =>
    match acc with
    | none => none
    | some mina => towerViewLoop g dirn mina fuel (c + dirn)) (some none)

/-- A tower's act (src/main.rs, `Phase::Tower` body once a tower with a
pending action is found): consume one action, acquire a target with the
4-direction scan, and fire the tower-type-specific shot as a new Shoot
animation in the chosen direction if a target was found. -/
def towerAct (g : Grid Tile) (c : Coords) (fuel : Nat) :
    Option (Grid Tile × Option ShootAnim) :=
  match g.get c with
  | some ⟨_, some (Obj.tower a hp f v)⟩ =>
    if 1 ≤ a then
      let g2 := g.setObjAt c (some (Obj.tower (a - 1) hp f v))
      match towerTarget g2 c fuel with
      | none => none
      | some r => some (g2, r.map (fun q => ⟨c, q.2, TowerKind.shot v, animDur⟩))
    else some (g, none)
  | _ => some (g, none)

/-- Modelled from the claim's words: the first occupied tile reached from
`view` walking along `dirn` (`none` when the walk leaves the grid or the fuel
runs out). -/
def firstOccupiedFrom (g : Grid Tile) (dirn : CoordsDelta) : Nat → Coords → Option Coords
  | 0, _ => none
  | fuel + 1, view =>
    match g.get view with
    | none => none
    | some t => if t.obj.isSome then some view else firstOccupiedFrom g dirn fuel (view + dirn)

/-- Modelled from the claim's words: the candidate a direction contributes,
namely the path distance of the first occupied tile in that direction when
that tile holds an enemy standing on a path tile. -/
def candFromView (g : Grid Tile) (dirn : CoordsDelta) (fuel : Nat) (view : Coords) : Option Int :=
  match firstOccupiedFrom g dirn fuel view with
  | some hit =>
    match g.get hit with
    | some t => if t.hasEnemy then (t.pathInfo).map Path.distance else none
    | none => none
  | none => none

/-- The candidate of direction `dirn` for a tower at `c`. -/
def dirCandidate (g : Grid Tile) (c : Coords) (dirn : CoordsDelta) (fuel : Nat) : Option Int :=
  candFromView g dirn fuel (c + dirn)

/-- One strict-minimum update of the running target (the update the source
performs inside the view loop). -/
def minUpdate (mina : Option (Int × CoordsDelta)) (cand : Option Int)
    (dirn : CoordsDelta) : Option (Int × CoordsDelta) :=
  match cand with
  | none => mina
  | some dv =>
    match mina with
    | none => some (dv, dirn)
    | some (dm, dmdir) => if dv < dm then some (dv, dirn) else some (dm, dmdir)

/-- The per-direction scan computes exactly one strict-minimum update with
that direction's candidate. -/
theorem towerViewLoop_spec (g : Grid Tile) (dirn : CoordsDelta) :
    ∀ (fuel : Nat) (view : Coords) (mina r : Option (Int × CoordsDelta)),
      towerViewLoop g dirn mina fuel view = some r →
      r = minUpdate mina (candFromView g dirn fuel view) dirn := by
  intro fuel
  induction fuel with
  | zero =>
    intro view mina r h
    simp [towerViewLoop] at h
  | succ fuel ih =>
    intro view mina r h
    cases hg : g.get view with
    | none =>
      simp only [towerViewLoop, hg] at h
      injection h with h
      subst h
      simp [candFromView, firstOccupiedFrom, hg, minUpdate]
    | some t =>
      by_cases he : t.hasEnemy
      · have hobj := Tile.hasEnemy_isSome t he
        cases hpi : t.pathInfo with
        | some p =>
          cases mina with
          | none =>
            simp only [towerViewLoop, hg, he, hpi, if_true] at h
            injection h with h
            subst h
            simp [candFromView, firstOccupiedFrom, hg, hobj, he, hpi, minUpdate]
          | some q =>
            obtain ⟨dm, dmdir⟩ := q
            by_cases hlt : p.distance < dm
            · simp only [towerViewLoop, hg, he, hpi, if_true, if_pos hlt] at h
              injection h with h
              subst h
              simp [candFromView, firstOccupiedFrom, hg, hobj, he, hpi, minUpdate, hlt]
            · simp only [towerViewLoop, hg, he, hpi, if_true, if_neg hlt, hobj] at h
              injection h with h
              subst h
              simp [candFromView, firstOccupiedFrom, hg, hobj, he, hpi, minUpdate, hlt]
        | none =>
          simp only [towerViewLoop, hg, he, hpi, if_true, hobj] at h
          injection h with h
          subst h
          simp [candFromView, firstOccupiedFrom, hg, hobj, he, hpi, minUpdate]
      · cases hos : t.obj.isSome with
        | true =>
          simp only [towerViewLoop, hg, he, hos] at h
          injection h with h
          subst h
          simp [candFromView, firstOccupiedFrom, hg, hos, he, minUpdate]
        | false =>
          simp only [towerViewLoop, hg, he, hos] at h
          have := ih (view + dirn) mina r h
          rw [this]
          have hcand : candFromView g dirn (fuel + 1) view
              = candFromView g dirn fuel (view + dirn) := by
            simp [candFromView, firstOccupiedFrom, hg, hos]
          rw [hcand]

/-- Folding the targeting step over any direction list equals folding the
strict-minimum update over the corresponding candidates. -/
theorem towerTarget_fold (g : Grid Tile) (c : Coords) (fuel : Nat) :
    ∀ (ds : List CoordsDelta) (acc r : Option (Int × CoordsDelta)),
      ds.foldl (fun acc dirn =>
        match acc with
        | none => none
        | some mina => towerViewLoop g dirn mina fuel (c + dirn)) (some acc) = some r →
      r = (ds.map (fun dirn => (dirCandidate g c dirn fuel, dirn))).foldl
            (fun mina pr => minUpdate mina pr.1 pr.2) acc := by
  intro ds
  induction ds with
  | nil =>
    intro acc r h
    simp only [List.foldl_nil] at h
    injection h with h
    subst h
    simp
  | cons dirn ds ih =>
    intro acc r h
    simp only [List.foldl_cons] at h
    cases htv : towerViewLoop g dirn acc fuel (c + dirn) with
    | none =>
      rw [htv] at h
      exfalso
      have hnone : ∀ (l : List CoordsDelta),
          l.foldl (fun acc dirn =>
            match acc with
            | none => none
            | some mina => towerViewLoop g dirn mina fuel (c + dirn))
            (none : Option (Option (Int × CoordsDelta))) = none := by
        intro l
        induction l with
        | nil => rfl
        | cons x xs ihx => simpa using ihx
      rw [hnone ds] at h
      cases h
    | some m1 =>
      rw [htv] at h
      have hm1 := towerViewLoop_spec g dirn fuel (c + dirn) acc m1 htv
      have := ih m1 r h
      rw [this, hm1]
      simp [dirCandidate]

/-- The strict-minimum fold over a candidate list. -/
def minFold (l : List (Option Int × CoordsDelta)) : Option (Int × CoordsDelta) :=
  l.foldl (fun mina pr => minUpdate mina pr.1 pr.2) none

/-- What it means for `r` to be the chosen candidate of the list `l`: none if
no candidates, otherwise the smallest candidate, the earliest one on ties. -/
def MinSpec (l : List (Option Int × CoordsDelta)) : Option (Int × CoordsDelta) → Prop
  | none => ∀ pr ∈ l, pr.1 = none
  | some (dv, dd) =>
    (∃ k : Nat, l[k]? = some (some dv, dd) ∧
      ∀ j : Nat, j < k → ∀ pr : Option Int × CoordsDelta,
        l[j]? = some pr → ∀ d2, pr.1 = some d2 → dv < d2) ∧
    ∀ pr ∈ l, ∀ d2, pr.1 = some d2 → dv ≤ d2

theorem MinSpec_none (l : List (Option Int × CoordsDelta)) :
    MinSpec l none ↔ ∀ pr ∈ l, pr.1 = none := Iff.rfl

theorem MinSpec_some (l : List (Option Int × CoordsDelta)) (dv : Int) (dd : CoordsDelta) :
    MinSpec l (some (dv, dd)) ↔
      ((∃ k : Nat, l[k]? = some (some dv, dd) ∧
        ∀ j : Nat, j < k → ∀ pr : Option Int × CoordsDelta,
          l[j]? = some pr → ∀ d2, pr.1 = some d2 → dv < d2) ∧
      ∀ pr ∈ l, ∀ d2, pr.1 = some d2 → dv ≤ d2) := Iff.rfl

theorem listGet_mem {α : Type _} (l : List α) (n : Nat) (a : α) (h : l[n]? = some a) :
    a ∈ l := by
  induction l generalizing n with
  | nil => simp at h
  | cons b t ih =>
    cases n with
    | zero =>
      rw [List.getElem?_cons_zero] at h
      injection h with h
      rw [← h]
      exact List.mem_cons_self b t
    | succ m =>
      rw [List.getElem?_cons_succ] at h
      exact List.mem_cons_of_mem b (ih m h)

theorem listGet_some_lt {α : Type _} (l : List α) (k : Nat) (a : α)
    (h : l[k]? = some a) : k < l.length := by
  by_cases hk : k < l.length
  · exact hk
  · rw [List.getElem?_eq_none (by omega)] at h
    cases h

theorem minFold_spec (l : List (Option Int × CoordsDelta)) : MinSpec l (minFold l) := by
  induction l using List.reverseRecOn with
  | nil =>
    have h0 : minFold [] = (none : Option (Int × CoordsDelta)) := rfl
    rw [h0, MinSpec_none]
    intro pr hpr
    cases hpr
  | append_singleton l pr ih =>
    have hfold : minFold (l ++ [pr]) = minUpdate (minFold l) pr.1 pr.2 := by
      unfold minFold
      rw [List.foldl_append]
      rfl
    rw [hfold]
    cases hm : minFold l with
    | none =>
      rw [hm] at ih
      cases hc : pr.1 with
      | none =>
        show MinSpec (l ++ [pr]) none
        rw [MinSpec_none]
        intro pr2 hpr2
        rcases List.mem_append.mp hpr2 with hl | hr
        · exact ih pr2 hl
        · rw [List.mem_singleton.mp hr, hc]
      | some dv =>
        show MinSpec (l ++ [pr]) (some (dv, pr.2))
        rw [MinSpec_some]
        refine ⟨⟨l.length, ?_, ?_⟩, ?_⟩
        · rw [listGet_append_right l [pr] l.length (le_refl _), Nat.sub_self]
          have hpe : pr = (some dv, pr.2) := by rw [← hc]
          rw [← hpe]
          rfl
        · intro j hj pr2 hpr2 d2 hd2
          rw [listGet_append_left l [pr] j hj] at hpr2
          have hmem : pr2 ∈ l := listGet_mem l j pr2 hpr2
          rw [ih pr2 hmem] at hd2
          cases hd2
        · intro pr2 hpr2 d2 hd2
          rcases List.mem_append.mp hpr2 with hl | hr
          · rw [ih pr2 hl] at hd2; cases hd2
          · rw [List.mem_singleton.mp hr, hc] at hd2
            injection hd2 with hd2
            omega
    | some q =>
      obtain ⟨dm, dmdir⟩ := q
      rw [hm] at ih
      obtain ⟨⟨k, hk, hklt⟩, hmin⟩ := ih
      have hkl : k < l.length := listGet_some_lt l k _ hk
      cases hc : pr.1 with
      | none =>
        show MinSpec (l ++ [pr]) (some (dm, dmdir))
        rw [MinSpec_some]
        refine ⟨⟨k, ?_, ?_⟩, ?_⟩
        · rw [listGet_append_left l [pr] k hkl]; exact hk
        · intro j hj pr2 hpr2 d2 hd2
          rw [listGet_append_left l [pr] j (by omega)] at hpr2
          exact hklt j hj pr2 hpr2 d2 hd2
        · intro pr2 hpr2 d2 hd2
          rcases List.mem_append.mp hpr2 with hl | hr
          · exact hmin pr2 hl d2 hd2
          · rw [List.mem_singleton.mp hr, hc] at hd2; cases hd2
      | some dv =>
        by_cases hlt : dv < dm
        · have hupd : minUpdate (some (dm, dmdir)) (some dv) pr.2 = some (dv, pr.2) := by
            simp [minUpdate, hlt]
          rw [hupd, MinSpec_some]
          refine ⟨⟨l.length, ?_, ?_⟩, ?_⟩
          · rw [listGet_append_right l [pr] l.length (le_refl _), Nat.sub_self]
            have hpe : pr = (some dv, pr.2) := by rw [← hc]
            rw [← hpe]
            rfl
          · intro j hj pr2 hpr2 d2 hd2
            rw [listGet_append_left l [pr] j hj] at hpr2
            have hmem : pr2 ∈ l := listGet_mem l j pr2 hpr2
            have := hmin pr2 hmem d2 hd2
            omega
          · intro pr2 hpr2 d2 hd2
            rcases List.mem_append.mp hpr2 with hl | hr
            · have := hmin pr2 hl d2 hd2
              omega
            · rw [List.mem_singleton.mp hr, hc] at hd2
              injection hd2 with hd2
              omega
        · have hupd : minUpdate (some (dm, dmdir)) (some dv) pr.2 = some (dm, dmdir) := by
            simp [minUpdate, hlt]
          rw [hupd, MinSpec_some]
          refine ⟨⟨k, ?_, ?_⟩, ?_⟩
          · rw [listGet_append_left l [pr] k hkl]; exact hk
          · intro j hj pr2 hpr2 d2 hd2
            rw [listGet_append_left l [pr] j (by omega)] at hpr2
            exact hklt j hj pr2 hpr2 d2 hd2
          · intro pr2 hpr2 d2 hd2
            rcases List.mem_append.mp hpr2 with hl | hr
            · exact hmin pr2 hl d2 hd2
            · rw [List.mem_singleton.mp hr, hc] at hd2
              injection hd2 with hd2
              omega

theorem Grid.get_mem {T : Type} (g : Grid T) (c : Coords) (t : T)
    (h : g.get c = some t) : t ∈ g.content := by
  unfold Grid.get at h
  cases hidx : g.dims.indexOfCoords c with
  | none => rw [hidx] at h; cases h
  | some idx =>
    rw [hidx] at h
    exact listGet_mem g.content idx t h

/-- C5: when a tower acquires a target it scans outward along the 4 cardinal
directions, stopping in each direction at the first occupied tile; a
stopped-at tile holding an enemy is a valid candidate (carrying its path
distance; enemies stand on path tiles by the stated hypothesis), and
candidates arise only this way; the scan's result is the candidate of
smallest path distance, ties broken by the direction scan order; if a target
was found the tower's type-specific Shot is fired as a new Shoot animation in
the chosen direction, and otherwise no shot is fired. -/
theorem c5_tower_targeting (g : Grid Tile) (c : Coords) (fuel : Nat)
    (henemy : ∀ t ∈ g.content, t.hasEnemy = true → (t.pathInfo).isSome = true) :
    (∀ dirn hit t2, firstOccupiedFrom g dirn fuel (c + dirn) = some hit →
      g.get hit = some t2 → t2.hasEnemy = true →
      ∃ p, t2.pathInfo = some p ∧ dirCandidate g c dirn fuel = some p.distance) ∧
    (∀ dirn dv, dirCandidate g c dirn fuel = some dv →
      ∃ hit t2 p, firstOccupiedFrom g dirn fuel (c + dirn) = some hit ∧
        g.get hit = some t2 ∧ t2.hasEnemy = true ∧ t2.pathInfo = some p ∧
        p.distance = dv) ∧
    (∀ r, towerTarget g c fuel = some r →
      (r = none → ∀ dirn ∈ directions4, dirCandidate g c dirn fuel = none) ∧
      (∀ dv dd, r = some (dv, dd) →
        dirCandidate g c dd fuel = some dv ∧
        (∀ dirn ∈ directions4, ∀ d2, dirCandidate g c dirn fuel = some d2 → dv ≤ d2) ∧
        (∃ k : Nat, directions4[k]? = some dd ∧
          ∀ j : Nat, j < k → ∀ dirn, directions4[j]? = some dirn →
            ∀ d2, dirCandidate g c dirn fuel = some d2 → dv < d2))) ∧
    (∀ gr a hp f v, g.get c = some ⟨gr, some (Obj.tower a hp f v)⟩ → 1 ≤ a →
      ∀ r, towerTarget (g.setObjAt c (some (Obj.tower (a - 1) hp f v))) c fuel = some r →
        towerAct g c fuel = some (g.setObjAt c (some (Obj.tower (a - 1) hp f v)),
          r.map (fun q => ⟨c, q.2, TowerKind.shot v, animDur⟩))) := by
  refine ⟨?_, ?_, ?_, ?_⟩
  · intro dirn hit t2 hfo hget2 he2
    have hmem := Grid.get_mem g hit t2 hget2
    have hpis := henemy t2 hmem he2
    cases hpi : t2.pathInfo with
    | none => rw [hpi] at hpis; cases hpis
    | some p =>
      refine ⟨p, rfl, ?_⟩
      simp [dirCandidate, candFromView, hfo, hget2, he2, hpi]
  · intro dirn dv h
    unfold dirCandidate candFromView at h
    cases hfo : firstOccupiedFrom g dirn fuel (c + dirn) with
    | none => rw [hfo] at h; cases h
    | some hit =>
      simp only [hfo] at h
      cases hget2 : g.get hit with
      | none => simp only [hget2] at h; cases h
      | some t2 =>
        simp only [hget2] at h
        by_cases he2 : t2.hasEnemy
        · rw [if_pos he2] at h
          cases hpi : t2.pathInfo with
          | none => simp [hpi] at h
          | some p =>
            rw [hpi] at h
            have h2 : some p.distance = some dv := h
            injection h2 with h2
            exact ⟨hit, t2, p, rfl, hget2, he2, hpi, h2⟩
        · rw [if_neg he2] at h
          cases h
  · intro r htarget
    have hbr := towerTarget_fold g c fuel directions4 none r htarget
    have hms : MinSpec (directions4.map (fun dirn => (dirCandidate g c dirn fuel, dirn))) r := by
      have h0 := minFold_spec (directions4.map (fun dirn => (dirCandidate g c dirn fuel, dirn)))
      have h1 : minFold (directions4.map (fun dirn => (dirCandidate g c dirn fuel, dirn)))
          = (directions4.map (fun dirn => (dirCandidate g c dirn fuel, dirn))).foldl
              (fun mina pr => minUpdate mina pr.1 pr.2) none := rfl
      rw [h1, ← hbr] at h0
      exact h0
    constructor
    · intro hr
      subst hr
      rw [MinSpec_none] at hms
      intro dirn hdirn
      exact hms (dirCandidate g c dirn fuel, dirn)
        (List.mem_map_of_mem _ hdirn)
    · intro dv dd hr
      subst hr
      rw [MinSpec_some] at hms
      obtain ⟨⟨k, hk, hearly⟩, hmin⟩ := hms
      rw [listGet_map] at hk
      cases hk4 : directions4[k]? with
      | none => rw [hk4] at hk; cases hk
      | some dirn0 =>
        rw [hk4] at hk
        have hk2 : some (dirCandidate g c dirn0 fuel, dirn0) = some (some dv, dd) := hk
        injection hk2 with hk
        have hdd : dirn0 = dd := congrArg Prod.snd hk
        have hcand : dirCandidate g c dd fuel = some dv := by
          rw [← hdd]
          exact congrArg Prod.fst hk
        refine ⟨hcand, ?_, ⟨k, by rw [hk4, hdd], ?_⟩⟩
        · intro dirn hdirn d2 hd2
          have := hmin (dirCandidate g c dirn fuel, dirn)
            (List.mem_map_of_mem _ hdirn) d2 hd2
          exact this
        · intro j hj dirn hjd d2 hd2
          have hmap : (directions4.map
              (fun dirn => (dirCandidate g c dirn fuel, dirn)))[j]?
              = some (dirCandidate g c dirn fuel, dirn) := by
            rw [listGet_map, hjd]
            rfl
          exact hearly j hj (dirCandidate g c dirn fuel, dirn) hmap d2 hd2
  · intro gr a hp f v hget ha r hr
    unfold towerAct
    simp only [hget]
    rw [if_pos ha]
    simp only [hr]

/-- The grid for the C5 witness: a tower at the center of a 3-by-3 grid, an
enemy at distance 5 above it and an enemy at distance 3 to its right. -/
def scanGrid : Grid Tile :=
  ⟨⟨3, 3⟩,
   [⟨Ground.grass 0, none⟩,
    ⟨Ground.path ⟨dRIGHT, dLEFT, 5⟩, some (Obj.enemy 0 8 0 EnemyKind.basic)⟩,
    ⟨Ground.grass 0, none⟩,
    ⟨Ground.grass 0, none⟩,
    ⟨Ground.grass 0, some (Obj.tower 1 3 0 TowerKind.basic)⟩,
    ⟨Ground.path ⟨dRIGHT, dLEFT, 3⟩, some (Obj.enemy 0 8 0 EnemyKind.basic)⟩,
    ⟨Ground.grass 0, none⟩,
    ⟨Ground.grass 0, none⟩,
    ⟨Ground.grass 0, none⟩]⟩

/-- Witness for C5: on `scanGrid` the tower sees candidates at distances 5
(up) and 3 (right), picks the right-hand enemy, and fires its shot to the
right. -/
theorem c5_tower_targeting_witness :
    (dirCandidate scanGrid ⟨1, 1⟩ dRIGHT 5 = some 3 ∧
      (∀ dirn ∈ directions4, ∀ d2,
        dirCandidate scanGrid ⟨1, 1⟩ dirn 5 = some d2 → 3 ≤ d2) ∧
      (∃ k : Nat, directions4[k]? = some dRIGHT ∧
        ∀ j : Nat, j < k → ∀ dirn, directions4[j]? = some dirn →
          ∀ d2, dirCandidate scanGrid ⟨1, 1⟩ dirn 5 = some d2 → 3 < d2)) ∧
    towerAct scanGrid ⟨1, 1⟩ 5
      = some (scanGrid.setObjAt ⟨1, 1⟩ (some (Obj.tower (1 - 1) 3 0 TowerKind.basic)),
          some ⟨⟨1, 1⟩, dRIGHT, TowerKind.basic.shot, animDur⟩) := by
  have h := c5_tower_targeting scanGrid ⟨1, 1⟩ 5 (by decide)
  refine ⟨(h.2.2.1 (some (3, dRIGHT)) (by decide)).2 3 dRIGHT rfl, ?_⟩
  have h4 := h.2.2.2 (Ground.grass 0) 1 3 0 TowerKind.basic (by decide) (by decide)
    (some (3, dRIGHT)) (by decide)
  exact h4

/-! ### The chunk generator (src/main.rs, `Chunk::generate`)

The thread-local RNG is an oracle stream `g : Nat → Nat` with an index that
every `rand_range` call advances by one.  `rand_range(0..n)` consumes one
value, reduced mod `n`; a float comparison `rand_range(0.0..1.0) < p` (for
thresholds strictly between 0 and 1 — both outcomes always reachable)
consumes one value and is modelled as its parity.  The probability thresholds
themselves (0.05 vs 0.3 etc.) affect only the distribution, never the set of
possible outcomes, so they do not appear in the model. -/

/-- One `rand_range(lo..hi)` draw with `lo = 0`: the next oracle value mod n. -/
def randNat (g : Nat → Nat) (i n : Nat) : Nat := g i % n

/-- One `rand_range(0.0..1.0) < p` draw for a threshold strictly between 0
and 1: the parity of the next oracle value. -/
def randBool (g : Nat → Nat) (i : Nat) : Bool := g i % 2 == 0

/-- The fixed 10-by-10 chunk dimensions of `Chunk::generate`. -/
def chunkDims : Dimensions := ⟨10, 10⟩

/-- One tile of the initial all-grass grid: a 1-in-4 draw picks a decorated
variant (a second draw in 1..4), otherwise variant 0. -/
def initGrassStep (g : Nat → Nat) (acc : List Tile × Nat) (_c : Coords) : List Tile × Nat :=
  let ts := acc.1
  let i := acc.2
  if randNat g i 4 = 0 then
    (ts ++ [⟨Ground.grass (1 + randNat g (i + 1) 3), none⟩], i + 2)
  else (ts ++ [⟨Ground.grass 0, none⟩], i + 1)

/-- The initial all-grass 10-by-10 grid of a generation attempt. -/
def initGrass (g : Nat → Nat) (i : Nat) : Grid Tile × Nat :=
  let r := chunkDims.iterCoords.foldl (initGrassStep g) ([], i)
  (⟨chunkDims, r.1⟩, r.2)

/-- The candidate step directions of the path head: 4-connected directions
whose target tile is non-path and unoccupied, or one step past the right
edge. -/
def possibleDirections (grid : Grid Tile) (curHead : Coords) : List CoordsDelta :=
  directions4.filter (fun d =>
    (match grid.get (curHead + d) with
     | some t => !t.hasPath && t.obj.isNone
     | none => false) || ((curHead + d).x == grid.dims.w))

/-- The direction choice: a small straight-line bias draw when the last
direction is still possible, otherwise (or on a failed bias draw) a uniform
pick among the candidates.  Returns the direction and the advanced index. -/
def chooseDirection (g : Nat → Nat) (possible : List CoordsDelta)
    (lastDirection : CoordsDelta) (i : Nat) : CoordsDelta × Nat :=
  if possible.contains lastDirection then
    if randBool g i then (lastDirection, i + 1)
    else (possible.getD (randNat g (i + 1) possible.length) dRIGHT, i + 2)
  else (possible.getD (randNat g i possible.length) dRIGHT, i + 1)

/-- Plant a tree on an empty grass tile (the guarded
`if let Some(other_tile) = grid.get_mut(..)` writes of the carve loop). -/
def plantTree (grid : Grid Tile) (c : Coords) : Grid Tile :=
  match grid.get c with
  | some t => if t.isEmptyGrass then grid.setObjAt c (some Obj.tree) else grid
  | none => grid

/-- The anti-U-turn tree planting around a turn: one draw (against 0.95) per
direction other than the chosen one. -/
def plantTurnTrees (g : Nat → Nat) (curHead : Coords) (dirn : CoordsDelta) :
    List CoordsDelta → Grid Tile × Nat → Grid Tile × Nat
  | [], st => st
  | other :: rest, st =>
    if other ≠ dirn then
      if randBool g st.2 then
        plantTurnTrees g curHead dirn rest (plantTree st.1 (curHead + other), st.2 + 1)
      else plantTurnTrees g curHead dirn rest (st.1, st.2 + 1)
    else plantTurnTrees g curHead dirn rest st

/-- The forced-turn tree planting two tiles ahead of the new head: one draw
(against 0.3 on the border rows, 0.1 elsewhere — one draw either way). -/
def forceTree (g : Nat → Nat) (grid : Grid Tile) (newHead : Coords)
    (dirn : CoordsDelta) (i : Nat) : Grid Tile × Nat :=
  if randBool g i then (plantTree grid (newHead + dirn), i + 1)
  else (grid, i + 1)

/-- The mutable state of the path-carving loop of `Chunk::generate`. -/
structure CarveState where
  grid : Grid Tile
  pathDist : Int
  prevHead : Coords
  curHead : Coords
  lastDirection : CoordsDelta
  westward : Nat
  distanceInChunk : Nat
  itTurnedLastTile : Bool
  uTurnCount : Nat
  rng : Nat

/-- The tail of one carve-loop iteration once a direction `dirn` has been
chosen (with `i1` the advanced oracle index): stamp the path tile, update
the turn/U-turn bookkeeping, plant the steering trees and advance the
head. -/
def carveAdvance (g : Nat → Nat) (s : CarveState) (dirn : CoordsDelta) (i1 : Nat) :
    CarveState :=
  let backward := s.prevHead - s.curHead
  let grid1 := s.grid.setGroundAt s.curHead (Ground.path ⟨dirn, backward, s.pathDist⟩)
  let itTurnsNow : Bool :=
    ! ((backward.dx == 0 && dirn.dx == 0) || (backward.dy == 0 && dirn.dy == 0))
  let uTurn2 := if s.itTurnedLastTile && itTurnsNow then s.uTurnCount + 1 else s.uTurnCount
  let st2 := if s.itTurnedLastTile
    then plantTurnTrees g s.curHead dirn directions4 (grid1, i1)
    else (grid1, i1)
  let west2 := if dirn = dLEFT then s.westward + 1 else s.westward
  let newHead := s.curHead + dirn
  let st3 := forceTree g st2.1 newHead dirn st2.2
  ⟨st3.1, s.pathDist + 1, s.curHead, newHead, dirn, west2,
    s.distanceInChunk + 1, itTurnsNow, uTurn2, st3.2⟩

/-- One iteration of the carve loop: `Sum.inl i` is the
`continue 'try_new_path` rejection (no candidate direction) carrying the
oracle index, `Sum.inr` the advanced state, `none` the unreachable panic of
`grid.get_mut(cur_head).unwrap()` off the grid. -/
def carveStep (g : Nat → Nat) (s : CarveState) : Option (Sum Nat CarveState) :=
  let possible := possibleDirections s.grid s.curHead
  if possible.isEmpty then some (Sum.inl s.rng)
  else
    match s.grid.get s.curHead with
    | none => none
    | some _ =>
      let dc := chooseDirection g possible s.lastDirection s.rng
      some (Sum.inr (carveAdvance g s dc.1 dc.2))

/-- The result of the carve loop: rejection with the oracle index, or the
state at the `break` (head just past the right edge). -/
inductive CarveOut where
  | rejected (i : Nat)
  | finished (s : CarveState)

/-- The carve loop of `Chunk::generate`, with fuel (`none` = fuel ran out or
the modelled panic). -/
def carveLoop (g : Nat → Nat) : Nat → CarveState → Option CarveOut
  | 0, _ => none
  | fuel + 1, s =>
    match carveStep g s with
    | none => none
    | some (Sum.inl i2) => some (CarveOut.rejected i2)
    | some (Sum.inr s2) =>
      if s2.curHead.x = s2.grid.dims.w then some (CarveOut.finished s2)
      else carveLoop g fuel s2

/-- The post-acceptance cleanup: clear every object planted to steer the
path. -/
def clearObjs (grid : Grid Tile) : Grid Tile :=
  ⟨grid.dims, grid.content.map (fun t => ⟨t.ground, none⟩)⟩

/-- One generation attempt (the body of the `'try_new_path` loop up to and
including the acceptance checks): `Sum.inl i` is a rejection carrying the
oracle index for the retry, `Sum.inr` the accepted cleaned grid. -/
def generateAttempt (last : Option (Int × Int)) (g : Nat → Nat) (i : Nat)
    (fuel : Nat) : Option (Sum Nat (Grid Tile × Nat)) :=
  let gi := initGrass g i
  let grid0 := gi.1
  let i0 := gi.2
  let start : Int × Int × Nat :=
    match last with
    | some (y, d) => (y, d + 1, i0)
    | none => (((randNat g i0 chunkDims.h.toNat : Nat) : Int), 0, i0 + 1)
  let pathY := start.1
  let pathDist := start.2.1
  let i1 := start.2.2
  let s0 : CarveState := ⟨grid0, pathDist, ⟨-1, pathY⟩, ⟨0, pathY⟩, ⟨1, 0⟩,
    0, 0, false, 0, i1⟩
  match carveLoop g fuel s0 with
  | none => none
  | some (CarveOut.rejected i2) => some (Sum.inl i2)
  | some (CarveOut.finished s) =>
    if s.westward < 2 ∨ ¬ (14 ≤ s.distanceInChunk ∧ s.distanceInChunk < 30)
        ∨ 2 ≤ s.uTurnCount
    then some (Sum.inl s.rng)
    else some (Sum.inr (clearObjs s.grid, s.rng))

/-- The `'try_new_path` retry loop, bounded by an attempt count. -/
def generateGridLoop (last : Option (Int × Int)) (g : Nat → Nat) (fuel : Nat) :
    Nat → Nat → Option (Grid Tile × Nat)
  | 0, _ => none
  | attempts + 1, i =>
    match generateAttempt last g i fuel with
    | none => none
    | some (Sum.inl i2) => generateGridLoop last g fuel attempts i2
    | some (Sum.inr r) => some r

/-- The water random walk (inner loop of the water pass): break on a path or
water tile or a 1-in-3 draw, otherwise flood the tile and drift to a random
non-path neighbour. -/
def waterWalk (g : Nat → Nat) : Nat → Grid Tile → Coords → Nat → Option (Grid Tile × Nat)
  | 0, _, _, _ => none
  | fuel + 1, grid, c, i =>
    match grid.get c with
    | none => none
    | some t =>
      if t.hasPath || t.hasWater then some (grid, i)
      else if randNat g i 3 = 0 then some (grid, i + 1)
      else
        let grid2 := grid.setGroundAt c Ground.water
        let d := directions4.getD (randNat g (i + 1) 4) dRIGHT
        if (match grid2.get (c + d) with
            | some t2 => !t2.hasPath
            | none => false)
        then waterWalk g fuel grid2 (c + d) (i + 2)
        else waterWalk g fuel grid2 c (i + 2)

/-- The water pass: while a 0.4 draw succeeds, flood from a random seed. -/
def waterPass (g : Nat → Nat) (ifuel : Nat) : Nat → Grid Tile → Nat → Option (Grid Tile × Nat)
  | 0, grid, i => if randBool g i then none else some (grid, i + 1)
  | wfuel + 1, grid, i =>
    if randBool g i then
      let cx := randNat g (i + 1) grid.dims.w.toNat
      let cy := randNat g (i + 2) grid.dims.h.toNat
      match waterWalk g ifuel grid ⟨(cx : Int), (cy : Int)⟩ (i + 3) with
      | none => none
      | some r => waterPass g ifuel wfuel r.1 r.2
    else some (grid, i + 1)

/-- One tile of the tree pass: empty grass gets a tree on a draw (0.3 on the
border rows, 0.05 elsewhere — one draw either way). -/
def treesStep (g : Nat → Nat) (acc : Grid Tile × Nat) (c : Coords) : Grid Tile × Nat :=
  match acc.1.get c with
  | some t =>
    if t.isEmptyGrass then
      if randBool g acc.2 then (acc.1.setObjAt c (some Obj.tree), acc.2 + 1)
      else (acc.1, acc.2 + 1)
    else acc
  | none => acc

/-- The tree pass over all tiles. -/
def treesPass (g : Nat → Nat) (grid : Grid Tile) (i : Nat) : Grid Tile × Nat :=
  grid.dims.iterCoords.foldl (treesStep g) (grid, i)

/-- One tile of the rock pass: empty grass gets a rock (random visual
variant) on a 0.05 draw. -/
def rocksStep (g : Nat → Nat) (acc : Grid Tile × Nat) (c : Coords) : Grid Tile × Nat :=
  match acc.1.get c with
  | some t =>
    if t.isEmptyGrass then
      if randBool g acc.2 then
        (acc.1.setObjAt c (some (Obj.rock (randNat g (acc.2 + 1) 3))), acc.2 + 2)
      else (acc.1, acc.2 + 1)
    else acc
  | none => acc

/-- The rock pass over all tiles. -/
def rocksPass (g : Nat → Nat) (grid : Grid Tile) (i : Nat) : Grid Tile × Nat :=
  grid.dims.iterCoords.foldl (rocksStep g) (grid, i)

/-- One tile of the crystal pass: empty grass gets a crystal on a draw (0.03
near the border rows, 0.006 elsewhere — one draw either way), counting the
crystals placed. -/
def crystalsStep (g : Nat → Nat) (acc : Grid Tile × Nat × Nat) (c : Coords) :
    Grid Tile × Nat × Nat :=
  match acc.1.get c with
  | some t =>
    if t.isEmptyGrass then
      if randBool g acc.2.1 then
        (acc.1.setObjAt c (some Obj.crystal), acc.2.1 + 1, acc.2.2 + 1)
      else (acc.1, acc.2.1 + 1, acc.2.2)
    else acc
  | none => acc

/-- The crystal pass: up to 30 sweeps until at least one crystal is placed. -/
def crystalsPass (g : Nat → Nat) : Nat → Grid Tile → Nat → Nat → Grid Tile × Nat
  | 0, grid, i, _ => (grid, i)
  | sweeps + 1, grid, i, count =>
    let r := grid.dims.iterCoords.foldl (crystalsStep g) (grid, i, count)
    if 1 ≤ r.2.2 then (r.1, r.2.1)
    else crystalsPass g sweeps r.1 r.2.1 r.2.2

/-- One tile of the enemy pass: a path tile gets a fresh enemy (0 actions,
8 hp, no fire) on a 0.4 draw. -/
def enemiesStep (g : Nat → Nat) (acc : Grid Tile × Nat) (c : Coords) : Grid Tile × Nat :=
  match acc.1.get c with
  | some t =>
    if t.hasPath then
      if randBool g acc.2 then
        (acc.1.setObjAt c (some (Obj.enemy 0 8 0 EnemyKind.basic)), acc.2 + 1)
      else (acc.1, acc.2 + 1)
    else acc
  | none => acc

/-- The enemy pass over all tiles. -/
def enemiesPass (g : Nat → Nat) (grid : Grid Tile) (i : Nat) : Grid Tile × Nat :=
  grid.dims.iterCoords.foldl (enemiesStep g) (grid, i)

/-- A piece of world that can be generated independently (src/main.rs,
`struct Chunk`). -/
structure Chunk where
  grid : Grid Tile

/-- `Chunk::generate` from src/main.rs: carve and accept a path (retrying on
rejection), clear the steering trees, then layer water, trees, rocks,
crystals and enemies.  `attempts` bounds the retry loop, `cfuel` the carve
loop, `wfuel` the water pass; `none` means some bound ran out (the source
loops are unbounded) or a modelled panic. -/
def Chunk.generate (last : Option (Int × Int)) (g : Nat → Nat)
    (i attempts cfuel wfuel : Nat) : Option Chunk :=
  match generateGridLoop last g cfuel attempts i with
  | none => none
  | some gi =>
    match waterPass g wfuel wfuel gi.1 gi.2 with
    | none => none
    | some wr =>
      let tr := treesPass g wr.1 wr.2
      let rr := rocksPass g tr.1 tr.2
      let cr := crystalsPass g 30 rr.1 rr.2 0
      let er := enemiesPass g cr.1 cr.2
      some ⟨er.1⟩

/-! ### Ground/path preservation lemmas for the generator -/

theorem Tile.pathInfo_none_of_not_path (t : Tile) (h : t.hasPath = false) :
    t.pathInfo = none := by
  unfold Tile.pathInfo
  unfold Tile.hasPath at h
  cases hg : t.ground with
  | grass vv => rfl
  | water => rfl
  | path p => rw [hg] at h; simp [Ground.isPath] at h

theorem pathAt_eq_of_get (g : Grid Tile) (c : Coords) (t : Tile)
    (hget : g.get c = some t) : pathAt g c = t.pathInfo := by
  unfold pathAt
  rw [hget]
  rfl

theorem pathAt_none_of_get_none (g : Grid Tile) (c : Coords)
    (hget : g.get c = none) : pathAt g c = none := by
  unfold pathAt
  rw [hget]
  rfl

theorem setObjAt_get_none (g : Grid Tile) (c : Coords) (o : Option Obj)
    (hg : g.get c = none) : g.setObjAt c o = g := by
  unfold Grid.setObjAt Grid.modifyAt
  rw [hg]

theorem setGroundAt_get_none (g : Grid Tile) (c : Coords) (gr : Ground)
    (hg : g.get c = none) : g.setGroundAt c gr = g := by
  unfold Grid.setGroundAt Grid.modifyAt
  rw [hg]

theorem pathAt_setObjAt (g : Grid Tile) (c : Coords) (o : Option Obj) (c' : Coords)
    (hwf : g.wf) : pathAt (g.setObjAt c o) c' = pathAt g c' := by
  by_cases hc : c' = c
  · subst hc
    cases hg : g.get c' with
    | none => rw [setObjAt_get_none g c' o hg]
    | some t =>
      rw [pathAt_eq_of_get _ c' ⟨t.ground, o⟩ (Grid.get_setObjAt_self g c' o hwf t hg),
        pathAt_eq_of_get g c' t hg]
      rfl
  · unfold pathAt
    rw [Grid.get_setObjAt_other g c c' o hc]

theorem Grid.get_setGroundAt_self (g : Grid Tile) (c : Coords) (gr : Ground)
    (hwf : g.wf) (t : Tile) (h : g.get c = some t) :
    (g.setGroundAt c gr).get c = some ⟨gr, t.obj⟩ := by
  unfold Grid.setGroundAt
  rw [Grid.get_modifyAt_self _ _ _ hwf, h]
  rfl

theorem Grid.get_setGroundAt_other (g : Grid Tile) (c c' : Coords) (gr : Ground)
    (h : c' ≠ c) : (g.setGroundAt c gr).get c' = g.get c' :=
  Grid.get_modifyAt_other g c c' _ h

theorem Grid.wf_setGroundAt (g : Grid Tile) (c : Coords) (gr : Ground) (hwf : g.wf) :
    (g.setGroundAt c gr).wf := Grid.wf_modifyAt g c _ hwf

theorem Grid.dims_setGroundAt (g : Grid Tile) (c : Coords) (gr : Ground) :
    (g.setGroundAt c gr).dims = g.dims := Grid.dims_modifyAt g c _

theorem pathAt_setGroundAt_self (g : Grid Tile) (c : Coords) (gr : Ground)
    (hwf : g.wf) (t : Tile) (hg : g.get c = some t) :
    pathAt (g.setGroundAt c gr) c = gr.pathInfo := by
  rw [pathAt_eq_of_get _ c ⟨gr, t.obj⟩ (Grid.get_setGroundAt_self g c gr hwf t hg)]
  rfl

theorem pathAt_setGroundAt_other (g : Grid Tile) (c c' : Coords) (gr : Ground)
    (h : c' ≠ c) : pathAt (g.setGroundAt c gr) c' = pathAt g c' := by
  unfold pathAt
  rw [Grid.get_setGroundAt_other g c c' gr h]

/-- Relation between two grids: same dimensions, well-formed, same path layer
everywhere. -/
def PathSameFrom (a b : Grid Tile) : Prop :=
  b.dims = a.dims ∧ b.wf ∧ ∀ c, pathAt b c = pathAt a c

theorem pathSame_refl (a : Grid Tile) (h : a.wf) : PathSameFrom a a :=
  ⟨rfl, h, fun _ => rfl⟩

theorem pathSame_trans (a b c : Grid Tile) (h1 : PathSameFrom a b)
    (h2 : PathSameFrom b c) : PathSameFrom a c :=
  ⟨h2.1.trans h1.1, h2.2.1, fun x => (h2.2.2 x).trans (h1.2.2 x)⟩

theorem plantTree_pathSame (grid : Grid Tile) (c : Coords) (hwf : grid.wf) :
    PathSameFrom grid (plantTree grid c) := by
  cases hg : grid.get c with
  | none =>
    have heq : plantTree grid c = grid := by simp [plantTree, hg]
    rw [heq]
    exact pathSame_refl grid hwf
  | some t =>
    by_cases he : t.isEmptyGrass
    · have heq : plantTree grid c = grid.setObjAt c (some Obj.tree) := by
        simp [plantTree, hg, he]
      rw [heq]
      exact ⟨Grid.dims_setObjAt grid c _, Grid.wf_setObjAt grid c _ hwf,
        fun c' => pathAt_setObjAt grid c _ c' hwf⟩
    · have heq : plantTree grid c = grid := by simp [plantTree, hg, he]
      rw [heq]
      exact pathSame_refl grid hwf

theorem plantTurnTrees_pathSame (g : Nat → Nat) (cur : Coords) (dirn : CoordsDelta) :
    ∀ (ds : List CoordsDelta) (grid : Grid Tile) (i : Nat), grid.wf →
      PathSameFrom grid (plantTurnTrees g cur dirn ds (grid, i)).1 := by
  intro ds
  induction ds with
  | nil => intro grid i hwf; exact pathSame_refl grid hwf
  | cons other rest ih =>
    intro grid i hwf
    unfold plantTurnTrees
    by_cases hne : other ≠ dirn
    · rw [if_pos hne]
      by_cases hb : randBool g i
      · rw [if_pos hb]
        have h1 := plantTree_pathSame grid (cur + other) hwf
        exact pathSame_trans _ _ _ h1 (ih (plantTree grid (cur + other)) (i + 1) h1.2.1)
      · rw [if_neg hb]
        exact ih grid (i + 1) hwf
    · rw [if_neg hne]
      exact ih grid i hwf

theorem forceTree_pathSame (g : Nat → Nat) (grid : Grid Tile) (newHead : Coords)
    (dirn : CoordsDelta) (i : Nat) (hwf : grid.wf) :
    PathSameFrom grid (forceTree g grid newHead dirn i).1 := by
  unfold forceTree
  by_cases hb : randBool g i
  · rw [if_pos hb]
    exact plantTree_pathSame grid (newHead + dirn) hwf
  · rw [if_neg hb]
    exact pathSame_refl grid hwf

theorem clearObjs_get (g : Grid Tile) (c : Coords) :
    (clearObjs g).get c = (g.get c).map (fun t => ⟨t.ground, none⟩) := by
  unfold clearObjs Grid.get
  simp only
  cases g.dims.indexOfCoords c with
  | none => rfl
  | some idx => exact listGet_map _ _ idx

theorem clearObjs_pathSame (g : Grid Tile) (hwf : g.wf) : PathSameFrom g (clearObjs g) := by
  refine ⟨rfl, ⟨hwf.1, hwf.2.1, by simpa [clearObjs] using hwf.2.2⟩, ?_⟩
  intro c
  unfold pathAt
  rw [clearObjs_get]
  cases g.get c with
  | none => rfl
  | some t => rfl

theorem waterWalk_pathSame (g : Nat → Nat) :
    ∀ (fuel : Nat) (grid : Grid Tile) (c : Coords) (i : Nat) (r : Grid Tile × Nat),
      grid.wf → waterWalk g fuel grid c i = some r → PathSameFrom grid r.1 := by
  intro fuel
  induction fuel with
  | zero => intro grid c i r _ h; simp [waterWalk] at h
  | succ fuel ih =>
    intro grid c i r hwf h
    unfold waterWalk at h
    cases hg : grid.get c with
    | none => rw [hg] at h; exact Option.noConfusion h
    | some t =>
      rw [hg] at h
      have h2 : (if t.hasPath || t.hasWater then some (grid, i)
          else if randNat g i 3 = 0 then some (grid, i + 1)
          else if (match (grid.setGroundAt c Ground.water).get
                (c + directions4.getD (randNat g (i + 1) 4) dRIGHT) with
              | some t2 => !t2.hasPath
              | none => false)
            then waterWalk g fuel (grid.setGroundAt c Ground.water)
              (c + directions4.getD (randNat g (i + 1) 4) dRIGHT) (i + 2)
            else waterWalk g fuel (grid.setGroundAt c Ground.water) c (i + 2)) = some r := h
      clear h
      by_cases hpw : (t.hasPath || t.hasWater : Bool)
      · rw [if_pos hpw] at h2
        injection h2 with h2
        subst h2
        exact pathSame_refl grid hwf
      · rw [if_neg hpw] at h2
        by_cases hr3 : randNat g i 3 = 0
        · rw [if_pos hr3] at h2
          injection h2 with h2
          subst h2
          exact pathSame_refl grid hwf
        · rw [if_neg hr3] at h2
          have hnp : t.hasPath = false := by
            cases hhp : t.hasPath
            · rfl
            · rw [hhp] at hpw; simp at hpw
          have hps : PathSameFrom grid (grid.setGroundAt c Ground.water) := by
            refine ⟨Grid.dims_setGroundAt grid c _, Grid.wf_setGroundAt grid c _ hwf, ?_⟩
            intro c'
            by_cases hc : c' = c
            · subst hc
              rw [pathAt_setGroundAt_self grid c' Ground.water hwf t hg,
                pathAt_eq_of_get grid c' t hg]
              rw [Tile.pathInfo_none_of_not_path t hnp]
              rfl
            · exact pathAt_setGroundAt_other grid c c' Ground.water hc
          by_cases hmv : (match (grid.setGroundAt c Ground.water).get
                (c + directions4.getD (randNat g (i + 1) 4) dRIGHT) with
              | some t2 => !t2.hasPath
              | none => false : Bool)
          · rw [if_pos hmv] at h2
            exact pathSame_trans _ _ _ hps (ih _ _ _ r hps.2.1 h2)
          · rw [if_neg hmv] at h2
            exact pathSame_trans _ _ _ hps (ih _ _ _ r hps.2.1 h2)

theorem waterPass_pathSame (g : Nat → Nat) (ifuel : Nat) :
    ∀ (wfuel : Nat) (grid : Grid Tile) (i : Nat) (r : Grid Tile × Nat),
      grid.wf → waterPass g ifuel wfuel grid i = some r → PathSameFrom grid r.1 := by
  intro wfuel
  induction wfuel with
  | zero =>
    intro grid i r hwf h
    unfold waterPass at h
    by_cases hb : randBool g i
    · rw [if_pos hb] at h; cases h
    · rw [if_neg hb] at h
      injection h with h
      subst h
      exact pathSame_refl grid hwf
  | succ wfuel ih =>
    intro grid i r hwf h
    unfold waterPass at h
    by_cases hb : randBool g i
    · rw [if_pos hb] at h
      have h2 : (match waterWalk g ifuel grid
            ⟨((randNat g (i + 1) grid.dims.w.toNat : Nat) : Int),
             ((randNat g (i + 2) grid.dims.h.toNat : Nat) : Int)⟩ (i + 3) with
          | none => none
          | some r2 => waterPass g ifuel wfuel r2.1 r2.2) = some r := h
      clear h
      cases hww : waterWalk g ifuel grid
          ⟨((randNat g (i + 1) grid.dims.w.toNat : Nat) : Int),
           ((randNat g (i + 2) grid.dims.h.toNat : Nat) : Int)⟩ (i + 3) with
      | none => rw [hww] at h2; exact Option.noConfusion h2
      | some r2 =>
        rw [hww] at h2
        have h1 := waterWalk_pathSame g ifuel grid _ _ r2 hwf hww
        have h3 : waterPass g ifuel wfuel r2.1 r2.2 = some r := h2
        exact pathSame_trans _ _ _ h1 (ih r2.1 r2.2 r h1.2.1 h3)
    · rw [if_neg hb] at h
      injection h with h
      subst h
      exact pathSame_refl grid hwf

/-- Generic preservation of a property through a left fold. -/
theorem foldl_pres {α β : Type _} (P : β → Prop) (step : β → α → β)
    (hstep : ∀ b a, P b → P (step b a)) :
    ∀ (l : List α) (b : β), P b → P (l.foldl step b) := by
  intro l
  induction l with
  | nil => intro b h; exact h
  | cons a t ih => intro b h; exact ih (step b a) (hstep b a h)

theorem treesPass_pathSame (g : Nat → Nat) (grid : Grid Tile) (i : Nat) (hwf : grid.wf) :
    PathSameFrom grid (treesPass g grid i).1 := by
  unfold treesPass
  refine foldl_pres (fun acc => PathSameFrom grid acc.1) (treesStep g) ?_
    grid.dims.iterCoords (grid, i) (pathSame_refl grid hwf)
  intro acc c hP
  cases hg : acc.1.get c with
  | none =>
    have heq : treesStep g acc c = acc := by simp [treesStep, hg]
    rw [heq]
    exact hP
  | some t =>
    by_cases he : t.isEmptyGrass
    · by_cases hb : randBool g acc.2
      · have heq : treesStep g acc c = (acc.1.setObjAt c (some Obj.tree), acc.2 + 1) := by
          simp [treesStep, hg, he, hb]
        rw [heq]
        exact pathSame_trans _ _ _ hP
          ⟨Grid.dims_setObjAt acc.1 c _, Grid.wf_setObjAt acc.1 c _ hP.2.1,
           fun c' => pathAt_setObjAt acc.1 c _ c' hP.2.1⟩
      · have heq : treesStep g acc c = (acc.1, acc.2 + 1) := by
          simp [treesStep, hg, he, hb]
        rw [heq]
        exact hP
    · have heq : treesStep g acc c = acc := by simp [treesStep, hg, he]
      rw [heq]
      exact hP

theorem rocksPass_pathSame (g : Nat → Nat) (grid : Grid Tile) (i : Nat) (hwf : grid.wf) :
    PathSameFrom grid (rocksPass g grid i).1 := by
  unfold rocksPass
  refine foldl_pres (fun acc => PathSameFrom grid acc.1) (rocksStep g) ?_
    grid.dims.iterCoords (grid, i) (pathSame_refl grid hwf)
  intro acc c hP
  cases hg : acc.1.get c with
  | none =>
    have heq : rocksStep g acc c = acc := by simp [rocksStep, hg]
    rw [heq]
    exact hP
  | some t =>
    by_cases he : t.isEmptyGrass
    · by_cases hb : randBool g acc.2
      · have heq : rocksStep g acc c =
            (acc.1.setObjAt c (some (Obj.rock (randNat g (acc.2 + 1) 3))), acc.2 + 2) := by
          simp [rocksStep, hg, he, hb]
        rw [heq]
        exact pathSame_trans _ _ _ hP
          ⟨Grid.dims_setObjAt acc.1 c _, Grid.wf_setObjAt acc.1 c _ hP.2.1,
           fun c' => pathAt_setObjAt acc.1 c _ c' hP.2.1⟩
      · have heq : rocksStep g acc c = (acc.1, acc.2 + 1) := by
          simp [rocksStep, hg, he, hb]
        rw [heq]
        exact hP
    · have heq : rocksStep g acc c = acc := by simp [rocksStep, hg, he]
      rw [heq]
      exact hP

theorem crystalsSweep_pathSame (g : Nat → Nat) (grid0 : Grid Tile)
    (l : List Coords) (acc : Grid Tile × Nat × Nat)
    (hP : PathSameFrom grid0 acc.1) :
    PathSameFrom grid0 (l.foldl (crystalsStep g) acc).1 := by
  refine foldl_pres (fun acc => PathSameFrom grid0 acc.1) (crystalsStep g) ?_ l acc hP
  intro acc2 c hP2
  cases hg : acc2.1.get c with
  | none =>
    have heq : crystalsStep g acc2 c = acc2 := by simp [crystalsStep, hg]
    rw [heq]
    exact hP2
  | some t =>
    by_cases he : t.isEmptyGrass
    · by_cases hb : randBool g acc2.2.1
      · have heq : crystalsStep g acc2 c =
            (acc2.1.setObjAt c (some Obj.crystal), acc2.2.1 + 1, acc2.2.2 + 1) := by
          simp [crystalsStep, hg, he, hb]
        rw [heq]
        exact pathSame_trans _ _ _ hP2
          ⟨Grid.dims_setObjAt acc2.1 c _, Grid.wf_setObjAt acc2.1 c _ hP2.2.1,
           fun c' => pathAt_setObjAt acc2.1 c _ c' hP2.2.1⟩
      · have heq : crystalsStep g acc2 c = (acc2.1, acc2.2.1 + 1, acc2.2.2) := by
          simp [crystalsStep, hg, he, hb]
        rw [heq]
        exact hP2
    · have heq : crystalsStep g acc2 c = acc2 := by simp [crystalsStep, hg, he]
      rw [heq]
      exact hP2

theorem crystalsPass_pathSame (g : Nat → Nat) :
    ∀ (sweeps : Nat) (grid : Grid Tile) (i count : Nat), grid.wf →
      PathSameFrom grid (crystalsPass g sweeps grid i count).1 := by
  intro sweeps
  induction sweeps with
  | zero => intro grid i count hwf; exact pathSame_refl grid hwf
  | succ sweeps ih =>
    intro grid i count hwf
    unfold crystalsPass
    have h1 := crystalsSweep_pathSame g grid grid.dims.iterCoords (grid, i, count)
      (pathSame_refl grid hwf)
    by_cases hcnt : 1 ≤ (grid.dims.iterCoords.foldl (crystalsStep g) (grid, i, count)).2.2
    · rw [if_pos hcnt]
      exact h1
    · rw [if_neg hcnt]
      exact pathSame_trans _ _ _ h1 (ih _ _ _ h1.2.1)

theorem enemiesPass_pathSame (g : Nat → Nat) (grid : Grid Tile) (i : Nat) (hwf : grid.wf) :
    PathSameFrom grid (enemiesPass g grid i).1 := by
  unfold enemiesPass
  refine foldl_pres (fun acc => PathSameFrom grid acc.1) (enemiesStep g) ?_
    grid.dims.iterCoords (grid, i) (pathSame_refl grid hwf)
  intro acc c hP
  cases hg : acc.1.get c with
  | none =>
    have heq : enemiesStep g acc c = acc := by simp [enemiesStep, hg]
    rw [heq]
    exact hP
  | some t =>
    by_cases he : t.hasPath
    · by_cases hb : randBool g acc.2
      · have heq : enemiesStep g acc c =
            (acc.1.setObjAt c (some (Obj.enemy 0 8 0 EnemyKind.basic)), acc.2 + 1) := by
          simp [enemiesStep, hg, he, hb]
        rw [heq]
        exact pathSame_trans _ _ _ hP
          ⟨Grid.dims_setObjAt acc.1 c _, Grid.wf_setObjAt acc.1 c _ hP.2.1,
           fun c' => pathAt_setObjAt acc.1 c _ c' hP.2.1⟩
      · have heq : enemiesStep g acc c = (acc.1, acc.2 + 1) := by
          simp [enemiesStep, hg, he, hb]
        rw [heq]
        exact hP
    · have heq : enemiesStep g acc c = acc := by simp [enemiesStep, hg, he]
      rw [heq]
      exact hP

/-! ### Carve-loop invariant machinery -/

theorem Tile.not_path_of_pathInfo_none (t : Tile) (h : t.pathInfo = none) :
    t.hasPath = false := by
  unfold Tile.pathInfo at h
  unfold Tile.hasPath
  cases hg : t.ground with
  | grass vv => rfl
  | water => rfl
  | path p => rw [hg] at h; exact Option.noConfusion h

theorem coords_add_sub (c p : Coords) : c + (p - c) = p := by
  cases c with
  | mk cx cy =>
    cases p with
    | mk px py =>
      show Coords.mk (cx + (px - cx)) (cy + (py - cy)) = Coords.mk px py
      congr 1 <;> omega

theorem add_dir_ne (c : Coords) (d : CoordsDelta) (hd : d ∈ directions4) : c + d ≠ c := by
  intro h
  have hx : c.x + d.dx = c.x := congrArg Coords.x h
  have hy : c.y + d.dy = c.y := congrArg Coords.y h
  fin_cases hd <;> simp [dUP, dRIGHT, dDOWN, dLEFT] at hx hy

theorem randNat_lt (g : Nat → Nat) (i n : Nat) (h : 0 < n) : randNat g i n < n :=
  Nat.mod_lt _ h

theorem listGetD_mem {α : Type _} (l : List α) (n : Nat) (d : α) (h : n < l.length) :
    l.getD n d ∈ l := by
  obtain ⟨a, ha⟩ : ∃ a, l[n]? = some a := by
    cases hg : l[n]? with
    | none => rw [List.getElem?_eq_none_iff] at hg; omega
    | some a => exact ⟨a, rfl⟩
  have : l.getD n d = a := by
    unfold List.getD
    rw [List.get?_eq_getElem?, ha]
    rfl
  rw [this]
  exact listGet_mem l n a ha

theorem contains_mem_delta (l : List CoordsDelta) (a : CoordsDelta)
    (h : l.contains a = true) : a ∈ l :=
  List.mem_of_elem_eq_true h

theorem chooseDirection_mem (g : Nat → Nat) (possible : List CoordsDelta)
    (ld : CoordsDelta) (i : Nat) (hne : possible ≠ []) :
    (chooseDirection g possible ld i).1 ∈ possible := by
  have hlen : 0 < possible.length := List.length_pos.mpr hne
  unfold chooseDirection
  by_cases hc : possible.contains ld = true
  · rw [if_pos hc]
    by_cases hb : randBool g i = true
    · rw [if_pos hb]
      exact contains_mem_delta possible ld hc
    · rw [if_neg hb]
      exact listGetD_mem possible _ dRIGHT (randNat_lt g (i + 1) _ hlen)
  · rw [if_neg hc]
    exact listGetD_mem possible _ dRIGHT (randNat_lt g i _ hlen)

theorem possibleDirections_spec (grid : Grid Tile) (curHead : Coords) (d : CoordsDelta)
    (h : d ∈ possibleDirections grid curHead) :
    d ∈ directions4 ∧
      ((∃ t, grid.get (curHead + d) = some t ∧ t.hasPath = false ∧ t.obj.isNone = true)
        ∨ (curHead + d).x = grid.dims.w) := by
  unfold possibleDirections at h
  have hmem := List.mem_of_mem_filter h
  have hpred := List.of_mem_filter h
  refine ⟨hmem, ?_⟩
  rcases Bool.or_eq_true_iff.mp hpred with h1 | h2
  · left
    cases hg : grid.get (curHead + d) with
    | none => rw [hg] at h1; exact Bool.noConfusion h1
    | some t =>
      rw [hg] at h1
      obtain ⟨ha, hb⟩ := Bool.and_eq_true_iff.mp h1
      exact ⟨t, rfl, by simpa using ha, hb⟩
  · right
    exact eq_of_beq h2

/-- Whether a stamped path tile is a turn (the `it_turns_now` test of the
carve loop, expressed over the stamped payload). -/
def turnAt (q : Path) : Bool :=
  ! ((q.backward.dx == 0 && q.forward.dx == 0) || (q.backward.dy == 0 && q.forward.dy == 0))

/-- One step of the U-turn accumulator of the carve loop. -/
def turnFoldStep (acc : Bool × Nat) (b : Bool) : Bool × Nat :=
  (b, if acc.1 && b then acc.2 + 1 else acc.2)

/-- The (it_turned_last_tile, u_turn_count) pair after a sequence of
turn flags. -/
def turnFold (l : List Bool) : Bool × Nat := l.foldl turnFoldStep (false, 0)

theorem turnFold_concat (l : List Bool) (b : Bool) :
    turnFold (l ++ [b]) = turnFoldStep (turnFold l) b := by
  unfold turnFold
  rw [List.foldl_append]
  rfl

/-- The number of westward steps of a stamped path. -/
def westCount (pqs : List (Coords × Path)) : Nat :=
  pqs.countP (fun cp => decide (cp.2.forward = dLEFT))

theorem westCount_concat (pqs : List (Coords × Path)) (cp : Coords × Path) :
    westCount (pqs ++ [cp]) =
      westCount pqs + (if cp.2.forward = dLEFT then 1 else 0) := by
  unfold westCount
  rw [List.countP_append]
  by_cases h : cp.2.forward = dLEFT <;> simp [h]

/-- The loop invariant of the path-carving loop: `pqs` lists the stamped
path tiles in carving order with their payloads, `d0` is the distance of
the first tile, `prev0` the virtual predecessor of the entry tile. -/
structure CarveInv (s : CarveState) (pqs : List (Coords × Path)) (d0 : Int)
    (prev0 : Coords) : Prop where
  dims : s.grid.dims = chunkDims
  wf : s.grid.wf
  cover : ∀ c : Coords, (pathAt s.grid c).isSome = true ↔ c ∈ pqs.map Prod.fst
  nodup : (pqs.map Prod.fst).Nodup
  stamp : ∀ (k : Nat) (cp : Coords × Path), pqs[k]? = some cp →
    pathAt s.grid cp.1 = some cp.2 ∧ cp.2.distance = d0 + k ∧ cp.2.forward ∈ directions4
  entry : ∀ cp : Coords × Path, pqs[0]? = some cp →
    cp.1 = ⟨0, prev0.y⟩ ∧ cp.1 + cp.2.backward = prev0
  chain : ∀ (k : Nat) (cp cp' : Coords × Path), pqs[k]? = some cp →
    pqs[k + 1]? = some cp' →
    cp'.1 = cp.1 + cp.2.forward ∧ cp'.1 + cp'.2.backward = cp.1
  link : match pqs.getLast? with
    | none => s.curHead = ⟨0, prev0.y⟩ ∧ s.prevHead = prev0
    | some cp => s.curHead = cp.1 + cp.2.forward ∧ s.prevHead = cp.1 ∧
        s.lastDirection = cp.2.forward
  dist : s.pathDist = d0 + pqs.length
  dic : s.distanceInChunk = pqs.length
  west : s.westward = westCount pqs
  turns : (s.itTurnedLastTile, s.uTurnCount) = turnFold (pqs.map (fun cp => turnAt cp.2))
  headok : ∀ t : Tile, s.grid.get s.curHead = some t → t.hasPath = false

theorem getLast?_eq_of_getElem {α : Type _} (l : List α) (k : Nat) (a : α)
    (hk : l[k]? = some a) (hlen : k + 1 = l.length) : l.getLast? = some a := by
  induction l generalizing k with
  | nil => simp at hk
  | cons x xs ih =>
    cases xs with
    | nil =>
      have hk0 : k = 0 := by simpa using hlen
      subst hk0
      have h1 : some x = some a := hk
      injection h1 with h1
    | cons y ys =>
      cases k with
      | zero => simp at hlen
      | succ m =>
        rw [List.getElem?_cons_succ] at hk
        have hlen2 : m + 1 = (y :: ys).length := by simpa using hlen
        rw [List.getLast?_cons_cons]
        exact ih m hk hlen2

/-- One successful carve iteration preserves the carve invariant, appending
the freshly stamped tile. -/
theorem carveAdvance_inv (g : Nat → Nat) (s : CarveState) (pqs : List (Coords × Path))
    (d0 : Int) (prev0 : Coords) (t : Tile) (dirn : CoordsDelta) (i1 : Nat)
    (hinv : CarveInv s pqs d0 prev0)
    (hget : s.grid.get s.curHead = some t)
    (hmem : dirn ∈ possibleDirections s.grid s.curHead) :
    CarveInv (carveAdvance g s dirn i1)
      (pqs ++ [(s.curHead, ⟨dirn, s.prevHead - s.curHead, s.pathDist⟩)]) d0 prev0 := by
  obtain ⟨hd4, htarget⟩ := possibleDirections_spec s.grid s.curHead dirn hmem
  have htp : t.hasPath = false := hinv.headok t hget
  have hfresh : s.curHead ∉ pqs.map Prod.fst := by
    intro hmem2
    have hsome := (hinv.cover s.curHead).mpr hmem2
    rw [pathAt_eq_of_get s.grid s.curHead t hget,
      Tile.pathInfo_none_of_not_path t htp] at hsome
    simp at hsome
  set q : Path := ⟨dirn, s.prevHead - s.curHead, s.pathDist⟩ with hq
  set grid1 := s.grid.setGroundAt s.curHead (Ground.path q) with hgrid1
  set st2 := (if s.itTurnedLastTile
      then plantTurnTrees g s.curHead dirn directions4 (grid1, i1)
      else (grid1, i1)) with hst2
  set st3 := forceTree g st2.1 (s.curHead + dirn) dirn st2.2 with hst3
  have hwf1 : grid1.wf := Grid.wf_setGroundAt s.grid s.curHead _ hinv.wf
  have hps2 : PathSameFrom grid1 st2.1 := by
    rw [hst2]
    by_cases hb : s.itTurnedLastTile = true
    · rw [if_pos hb]
      exact plantTurnTrees_pathSame g s.curHead dirn directions4 grid1 i1 hwf1
    · rw [if_neg hb]
      exact pathSame_refl grid1 hwf1
  have hps3 : PathSameFrom grid1 st3.1 := by
    rw [hst3]
    exact pathSame_trans _ _ _ hps2
      (forceTree_pathSame g st2.1 (s.curHead + dirn) dirn st2.2 hps2.2.1)
  have hdimsG : st3.1.dims = chunkDims := by
    rw [hps3.1, hgrid1, Grid.dims_setGroundAt, hinv.dims]
  have hstampG : pathAt st3.1 s.curHead = some q := by
    rw [hps3.2.2 s.curHead, hgrid1,
      pathAt_setGroundAt_self s.grid s.curHead (Ground.path q) hinv.wf t hget]
    rfl
  have hotherG : ∀ c : Coords, c ≠ s.curHead → pathAt st3.1 c = pathAt s.grid c := by
    intro c hc
    rw [hps3.2.2 c, hgrid1, pathAt_setGroundAt_other s.grid s.curHead c _ hc]
  have hne_new : s.curHead + dirn ≠ s.curHead := add_dir_ne s.curHead dirn hd4
  have hca : carveAdvance g s dirn i1 =
      ⟨st3.1, s.pathDist + 1, s.curHead, s.curHead + dirn, dirn,
        (if dirn = dLEFT then s.westward + 1 else s.westward),
        s.distanceInChunk + 1,
        (! (((s.prevHead - s.curHead).dx == 0 && dirn.dx == 0)
          || ((s.prevHead - s.curHead).dy == 0 && dirn.dy == 0))),
        (if s.itTurnedLastTile
            && (! (((s.prevHead - s.curHead).dx == 0 && dirn.dx == 0)
              || ((s.prevHead - s.curHead).dy == 0 && dirn.dy == 0)))
          then s.uTurnCount + 1 else s.uTurnCount),
        st3.2⟩ := rfl
  rw [hca]
  refine ⟨?_, ?_, ?_, ?_, ?_, ?_, ?_, ?_, ?_, ?_, ?_, ?_, ?_⟩
  · show st3.1.dims = chunkDims
    exact hdimsG
  · show st3.1.wf
    exact hps3.2.1
  · show ∀ c : Coords, (pathAt st3.1 c).isSome = true ↔
      c ∈ (pqs ++ [(s.curHead, q)]).map Prod.fst
    intro c
    rw [List.map_append]
    by_cases hc : c = s.curHead
    · subst hc
      rw [hstampG]
      simp
    · rw [hotherG c hc, hinv.cover c]
      simp [List.mem_append, hc]
  · show ((pqs ++ [(s.curHead, q)]).map Prod.fst).Nodup
    rw [List.map_append]
    have h1 : ([(s.curHead, q)].map Prod.fst) = [s.curHead] := rfl
    rw [h1, List.nodup_append]
    exact ⟨hinv.nodup, List.nodup_singleton _, fun a ha hb => by
      rw [List.mem_singleton] at hb
      subst hb
      exact hfresh ha⟩
  · show ∀ (k : Nat) (cp : Coords × Path), (pqs ++ [(s.curHead, q)])[k]? = some cp →
      pathAt st3.1 cp.1 = some cp.2 ∧ cp.2.distance = d0 + k ∧ cp.2.forward ∈ directions4
    intro k cp hk
    rcases Nat.lt_trichotomy k pqs.length with hlt | heq | hgt
    · rw [listGet_append_left pqs _ k hlt] at hk
      obtain ⟨h1, h2, h3⟩ := hinv.stamp k cp hk
      have hcp_mem : cp.1 ∈ pqs.map Prod.fst :=
        List.mem_map_of_mem Prod.fst (listGet_mem pqs k cp hk)
      have hcp_ne : cp.1 ≠ s.curHead := by
        intro h
        rw [h] at hcp_mem
        exact hfresh hcp_mem
      exact ⟨by rw [hotherG cp.1 hcp_ne]; exact h1, h2, h3⟩
    · subst heq
      rw [listGet_append_right pqs _ _ (le_refl _), Nat.sub_self] at hk
      have h1 : some (s.curHead, q) = some cp := hk
      injection h1 with h1
      subst h1
      refine ⟨hstampG, ?_, hd4⟩
      exact hinv.dist
    · exfalso
      have hlen := listGet_some_lt _ k cp hk
      rw [List.length_append] at hlen
      simp at hlen
      omega
  · show ∀ cp : Coords × Path, (pqs ++ [(s.curHead, q)])[0]? = some cp →
      cp.1 = ⟨0, prev0.y⟩ ∧ cp.1 + cp.2.backward = prev0
    intro cp h0
    by_cases hpq : pqs = []
    · subst hpq
      obtain ⟨hcur, hprev⟩ : s.curHead = (⟨0, prev0.y⟩ : Coords) ∧ s.prevHead = prev0 :=
        hinv.link
      have h1 : some (s.curHead, q) = some cp := h0
      injection h1 with h1
      subst h1
      refine ⟨hcur, ?_⟩
      show s.curHead + (s.prevHead - s.curHead) = prev0
      rw [coords_add_sub]
      exact hprev
    · have hlt : 0 < pqs.length := List.length_pos.mpr hpq
      rw [listGet_append_left pqs _ 0 hlt] at h0
      exact hinv.entry cp h0
  · show ∀ (k : Nat) (cp cp' : Coords × Path),
      (pqs ++ [(s.curHead, q)])[k]? = some cp →
      (pqs ++ [(s.curHead, q)])[k + 1]? = some cp' →
      cp'.1 = cp.1 + cp.2.forward ∧ cp'.1 + cp'.2.backward = cp.1
    intro k cp cp' hk hk1
    rcases Nat.lt_trichotomy (k + 1) pqs.length with hlt | heq | hgt
    · rw [listGet_append_left pqs _ k (by omega)] at hk
      rw [listGet_append_left pqs _ (k + 1) hlt] at hk1
      exact hinv.chain k cp cp' hk hk1
    · rw [listGet_append_left pqs _ k (by omega)] at hk
      rw [heq, listGet_append_right pqs _ _ (le_refl _), Nat.sub_self] at hk1
      have h1 : some (s.curHead, q) = some cp' := hk1
      injection h1 with h1
      subst h1
      have hlast : pqs.getLast? = some cp := getLast?_eq_of_getElem pqs k cp hk heq
      have hlink := hinv.link
      rw [hlast] at hlink
      obtain ⟨hcur, hprev, hld⟩ : s.curHead = cp.1 + cp.2.forward ∧ s.prevHead = cp.1 ∧
          s.lastDirection = cp.2.forward := hlink
      refine ⟨hcur, ?_⟩
      show s.curHead + (s.prevHead - s.curHead) = cp.1
      rw [coords_add_sub]
      exact hprev
    · exfalso
      have hlen := listGet_some_lt _ (k + 1) cp' hk1
      rw [List.length_append] at hlen
      simp at hlen
      omega
  · have hlast : (pqs ++ [(s.curHead, q)]).getLast? = some (s.curHead, q) :=
      List.getLast?_concat _
    rw [hlast]
    exact ⟨rfl, rfl, rfl⟩
  · show s.pathDist + 1 = d0 + ((pqs ++ [(s.curHead, q)]).length : Int)
    rw [hinv.dist, List.length_append]
    have h1 : ([(s.curHead, q)]).length = 1 := rfl
    rw [h1]
    push_cast
    ring
  · show s.distanceInChunk + 1 = (pqs ++ [(s.curHead, q)]).length
    rw [hinv.dic, List.length_append]
    simp
  · show (if dirn = dLEFT then s.westward + 1 else s.westward) =
      westCount (pqs ++ [(s.curHead, q)])
    rw [westCount_concat, hinv.west]
    by_cases hdl : dirn = dLEFT
    · rw [if_pos hdl, if_pos hdl]
    · rw [if_neg hdl, if_neg hdl]
      simp
  · rw [List.map_append]
    have h1 : ([(s.curHead, q)].map (fun cp => turnAt cp.2)) = [turnAt q] := rfl
    rw [h1, turnFold_concat, ← hinv.turns]
    exact rfl
  · show ∀ t2 : Tile, st3.1.get (s.curHead + dirn) = some t2 → t2.hasPath = false
    intro t2 hget2
    rcases htarget with ⟨t1, hget1, htp1, _⟩ | hx
    · have hpath2 : pathAt st3.1 (s.curHead + dirn) = none := by
        rw [hotherG _ hne_new, pathAt_eq_of_get s.grid _ t1 hget1,
          Tile.pathInfo_none_of_not_path t1 htp1]
      rw [pathAt_eq_of_get st3.1 _ t2 hget2] at hpath2
      exact Tile.not_path_of_pathInfo_none t2 hpath2
    · exfalso
      have hcont := Grid.contains_of_get_some st3.1 _ t2 hget2
      rw [hdimsG] at hcont
      rw [hinv.dims] at hx
      obtain ⟨_, hxlt, _, _⟩ := hcont
      rw [hx] at hxlt
      exact lt_irrefl _ hxlt

/-- `carveStep` preserves the carve invariant on the `Sum.inr` branch. -/
theorem carveStep_inv (g : Nat → Nat) (s : CarveState) (pqs : List (Coords × Path))
    (d0 : Int) (prev0 : Coords) (s2 : CarveState)
    (hinv : CarveInv s pqs d0 prev0)
    (hstep : carveStep g s = some (Sum.inr s2)) :
    ∃ q : Path, CarveInv s2 (pqs ++ [(s.curHead, q)]) d0 prev0 := by
  have h2 : (if (possibleDirections s.grid s.curHead).isEmpty then
        some (Sum.inl s.rng)
      else match s.grid.get s.curHead with
        | none => none
        | some _ => some (Sum.inr (carveAdvance g s
            (chooseDirection g (possibleDirections s.grid s.curHead)
              s.lastDirection s.rng).1
            (chooseDirection g (possibleDirections s.grid s.curHead)
              s.lastDirection s.rng).2))) = some (Sum.inr s2) := hstep
  by_cases hpe : (possibleDirections s.grid s.curHead).isEmpty = true
  · rw [if_pos hpe] at h2
    injection h2 with h3
    exact absurd h3 (by simp)
  · rw [if_neg hpe] at h2
    cases hget : s.grid.get s.curHead with
    | none =>
      rw [hget] at h2
      exact Option.noConfusion h2
    | some t =>
      rw [hget] at h2
      have h3 : some (Sum.inr (carveAdvance g s
          (chooseDirection g (possibleDirections s.grid s.curHead)
            s.lastDirection s.rng).1
          (chooseDirection g (possibleDirections s.grid s.curHead)
            s.lastDirection s.rng).2)) = some (Sum.inr s2) := h2
      injection h3 with h4
      have hne : possibleDirections s.grid s.curHead ≠ [] := by
        intro h
        rw [h] at hpe
        exact hpe rfl
      have hmem := chooseDirection_mem g (possibleDirections s.grid s.curHead)
        s.lastDirection s.rng hne
      have h5 : carveAdvance g s
          (chooseDirection g (possibleDirections s.grid s.curHead)
            s.lastDirection s.rng).1
          (chooseDirection g (possibleDirections s.grid s.curHead)
            s.lastDirection s.rng).2 = s2 := by
        injection h4
      rw [← h5]
      exact ⟨_, carveAdvance_inv g s pqs d0 prev0 t _ _ hinv hget hmem⟩

/-- The carve loop either rejects or finishes in a state satisfying the
invariant with the head just past the right edge. -/
theorem carveLoop_inv (g : Nat → Nat) :
    ∀ (fuel : Nat) (s : CarveState) (pqs : List (Coords × Path)) (d0 : Int)
      (prev0 : Coords) (out : CarveOut),
      CarveInv s pqs d0 prev0 →
      carveLoop g fuel s = some out →
      (∃ i2, out = CarveOut.rejected i2) ∨
      (∃ (s2 : CarveState) (pqs2 : List (Coords × Path)),
        out = CarveOut.finished s2 ∧ CarveInv s2 pqs2 d0 prev0 ∧
        s2.curHead.x = s2.grid.dims.w ∧ pqs2 ≠ []) := by
  intro fuel
  induction fuel with
  | zero =>
    intro s pqs d0 prev0 out _ h
    simp [carveLoop] at h
  | succ fuel ih =>
    intro s pqs d0 prev0 out hinv h
    unfold carveLoop at h
    cases hstep : carveStep g s with
    | none =>
      rw [hstep] at h
      exact Option.noConfusion h
    | some res =>
      rw [hstep] at h
      cases res with
      | inl i2 =>
        have h2 : some (CarveOut.rejected i2) = some out := h
        injection h2 with h2
        exact Or.inl ⟨i2, h2.symm⟩
      | inr s2 =>
        obtain ⟨q, hinv2⟩ := carveStep_inv g s pqs d0 prev0 s2 hinv hstep
        have h2 : (if s2.curHead.x = s2.grid.dims.w then some (CarveOut.finished s2)
            else carveLoop g fuel s2) = some out := h
        by_cases hx : s2.curHead.x = s2.grid.dims.w
        · rw [if_pos hx] at h2
          injection h2 with h2
          exact Or.inr ⟨s2, pqs ++ [(s.curHead, q)], h2.symm, hinv2, hx, by simp⟩
        · rw [if_neg hx] at h2
          exact ih s2 (pqs ++ [(s.curHead, q)]) d0 prev0 out hinv2 h2

/-- The carve invariant holds at the start of an attempt on an all-nonpath
grid. -/
theorem carveInv_init (grid0 : Grid Tile) (pathDist : Int) (pathY : Int) (i1 : Nat)
    (hdims : grid0.dims = chunkDims) (hwf : grid0.wf)
    (hgrass : ∀ c t, grid0.get c = some t → t.hasPath = false) :
    CarveInv ⟨grid0, pathDist, ⟨-1, pathY⟩, ⟨0, pathY⟩, ⟨1, 0⟩, 0, 0, false, 0, i1⟩
      [] pathDist ⟨-1, pathY⟩ := by
  refine ⟨hdims, hwf, ?_, List.nodup_nil, ?_, ?_, ?_, ⟨rfl, rfl⟩, by simp, rfl, rfl, rfl, ?_⟩
  · show ∀ c : Coords, (pathAt grid0 c).isSome = true ↔
      c ∈ ([] : List (Coords × Path)).map Prod.fst
    intro c
    constructor
    · intro hsome
      exfalso
      cases hg : grid0.get c with
      | none =>
        rw [pathAt_none_of_get_none grid0 c hg] at hsome
        simp at hsome
      | some t =>
        rw [pathAt_eq_of_get grid0 c t hg,
          Tile.pathInfo_none_of_not_path t (hgrass c t hg)] at hsome
        simp at hsome
    · intro hmem
      simp at hmem
  · intro k cp hk
    simp at hk
  · intro cp h0
    simp at h0
  · intro k cp cp' hk _
    simp at hk
  · intro t hget
    exact hgrass _ t hget

theorem initGrass_foldl_length (g : Nat → Nat) :
    ∀ (l : List Coords) (acc : List Tile × Nat),
      (l.foldl (initGrassStep g) acc).1.length = acc.1.length + l.length := by
  intro l
  induction l with
  | nil => intro acc; simp
  | cons c rest ih =>
    intro acc
    rw [List.foldl_cons, ih]
    have hstep : (initGrassStep g acc c).1.length = acc.1.length + 1 := by
      by_cases hr : randNat g acc.2 4 = 0
      · simp [initGrassStep, hr]
      · simp [initGrassStep, hr]
    rw [hstep, List.length_cons]
    omega

theorem initGrass_foldl_grass (g : Nat → Nat) (l : List Coords) (acc : List Tile × Nat)
    (hacc : ∀ t ∈ acc.1, t.hasPath = false) :
    ∀ t ∈ (l.foldl (initGrassStep g) acc).1, t.hasPath = false := by
  refine foldl_pres (fun acc => ∀ t ∈ acc.1, t.hasPath = false)
    (initGrassStep g) ?_ l acc hacc
  intro b c hb t ht
  by_cases hr : randNat g b.2 4 = 0
  · have heq : (initGrassStep g b c).1 =
        b.1 ++ [⟨Ground.grass (1 + randNat g (b.2 + 1) 3), none⟩] := by
      simp [initGrassStep, hr]
    rw [heq] at ht
    rcases List.mem_append.mp ht with h1 | h2
    · exact hb t h1
    · rw [List.mem_singleton] at h2
      subst h2
      rfl
  · have heq : (initGrassStep g b c).1 = b.1 ++ [⟨Ground.grass 0, none⟩] := by
      simp [initGrassStep, hr]
    rw [heq] at ht
    rcases List.mem_append.mp ht with h1 | h2
    · exact hb t h1
    · rw [List.mem_singleton] at h2
      subst h2
      rfl

theorem initGrass_spec (g : Nat → Nat) (i : Nat) :
    (initGrass g i).1.dims = chunkDims ∧ (initGrass g i).1.wf ∧
    (∀ c t, (initGrass g i).1.get c = some t → t.hasPath = false) := by
  have hlen : ((chunkDims.iterCoords.foldl (initGrassStep g) ([], i)).1).length = 100 := by
    rw [initGrass_foldl_length g chunkDims.iterCoords ([], i)]
    rw [iterCoords_length]
    show 0 + chunkDims.h.toNat * chunkDims.w.toNat = 100
    decide
  refine ⟨rfl, ⟨?_, ?_, ?_⟩, ?_⟩
  · show (0 : Int) ≤ chunkDims.w
    decide
  · show (0 : Int) ≤ chunkDims.h
    decide
  · exact hlen.trans (by decide : (100 : Nat) = (chunkDims.w * chunkDims.h).toNat)
  · intro c t hget
    have hmem := Grid.get_mem (initGrass g i).1 c t hget
    exact initGrass_foldl_grass g chunkDims.iterCoords ([], i) (by intro t2 ht2; simp at ht2)
      t hmem

/-- The path-shape properties guaranteed for every grid produced by an
accepted generation attempt (and preserved by all decoration passes):
`pqs` lists the path tiles in walking order, `d0` is the entry distance,
`y0` the entry row. -/
def ChunkPathProps (grid : Grid Tile) (pqs : List (Coords × Path)) (d0 y0 : Int) : Prop :=
  grid.dims = chunkDims ∧ grid.wf ∧
  (∀ c : Coords, (pathAt grid c).isSome = true ↔ c ∈ pqs.map Prod.fst) ∧
  (pqs.map Prod.fst).Nodup ∧
  (∀ (k : Nat) (cp : Coords × Path), pqs[k]? = some cp →
    pathAt grid cp.1 = some cp.2 ∧ cp.2.distance = d0 + k ∧ cp.2.forward ∈ directions4) ∧
  (∀ cp : Coords × Path, pqs[0]? = some cp →
    cp.1 = ⟨0, y0⟩ ∧ cp.1 + cp.2.backward = ⟨-1, y0⟩) ∧
  (∀ (k : Nat) (cp cp' : Coords × Path), pqs[k]? = some cp → pqs[k + 1]? = some cp' →
    cp'.1 = cp.1 + cp.2.forward ∧ cp'.1 + cp'.2.backward = cp.1) ∧
  (∀ cp : Coords × Path, pqs.getLast? = some cp → (cp.1 + cp.2.forward).x = chunkDims.w) ∧
  pqs ≠ [] ∧
  14 ≤ pqs.length ∧ pqs.length < 30 ∧
  2 ≤ westCount pqs ∧
  (turnFold (pqs.map (fun cp => turnAt cp.2))).2 ≤ 1

theorem carveFinish_props (s2 : CarveState) (pqs : List (Coords × Path)) (d0 y0 : Int)
    (hinv : CarveInv s2 pqs d0 ⟨-1, y0⟩)
    (hx : s2.curHead.x = s2.grid.dims.w) (hne : pqs ≠ [])
    (hw : 2 ≤ s2.westward) (hd1 : 14 ≤ s2.distanceInChunk)
    (hd2 : s2.distanceInChunk < 30) (hu : s2.uTurnCount ≤ 1) :
    ChunkPathProps s2.grid pqs d0 y0 := by
  refine ⟨hinv.dims, hinv.wf, hinv.cover, hinv.nodup, hinv.stamp, ?_, hinv.chain, ?_,
    hne, ?_, ?_, ?_, ?_⟩
  · intro cp h0
    exact hinv.entry cp h0
  · intro cp hlast
    have hlink := hinv.link
    rw [hlast] at hlink
    obtain ⟨hcur, _, _⟩ : s2.curHead = cp.1 + cp.2.forward ∧ s2.prevHead = cp.1 ∧
        s2.lastDirection = cp.2.forward := hlink
    rw [← hcur, hx, hinv.dims]
  · rw [← hinv.dic]
    exact hd1
  · rw [← hinv.dic]
    exact hd2
  · rw [← hinv.west]
    exact hw
  · have h2 := congrArg Prod.snd hinv.turns
    rw [← h2]
    exact hu

theorem ChunkPathProps_transfer (a b : Grid Tile) (pqs : List (Coords × Path))
    (d0 y0 : Int) (hp : ChunkPathProps a pqs d0 y0) (hs : PathSameFrom a b) :
    ChunkPathProps b pqs d0 y0 := by
  obtain ⟨h1, h2, h3, h4, h5, h6, h7, h8, h9, h10, h11, h12, h13⟩ := hp
  obtain ⟨hd, hwfb, hpa⟩ := hs
  refine ⟨hd.trans h1, hwfb, ?_, h4, ?_, h6, h7, h8, h9, h10, h11, h12, h13⟩
  · intro c
    rw [hpa c]
    exact h3 c
  · intro k cp hk
    rw [hpa cp.1]
    exact h5 k cp hk

theorem carveAccept_inr (g : Nat → Nat) (fuel : Nat) (s0 : CarveState) (d0 y0 : Int)
    (r : Grid Tile × Nat)
    (hbase : CarveInv s0 [] d0 ⟨-1, y0⟩)
    (h : (match carveLoop g fuel s0 with
      | none => none
      | some (CarveOut.rejected i2) => some (Sum.inl i2)
      | some (CarveOut.finished s) =>
        if s.westward < 2 ∨ ¬ (14 ≤ s.distanceInChunk ∧ s.distanceInChunk < 30)
            ∨ 2 ≤ s.uTurnCount
        then some (Sum.inl s.rng)
        else some (Sum.inr (clearObjs s.grid, s.rng))) = some (Sum.inr r)) :
    ∃ pqs : List (Coords × Path), ChunkPathProps r.1 pqs d0 y0 := by
  cases hcl : carveLoop g fuel s0 with
  | none =>
    rw [hcl] at h
    exact Option.noConfusion h
  | some out =>
    rw [hcl] at h
    rcases carveLoop_inv g fuel s0 [] d0 ⟨-1, y0⟩ out hbase hcl with
      ⟨i2, rfl⟩ | ⟨s2, pqs2, rfl, hinv2, hx, hne⟩
    · have h2 : some (Sum.inl i2) = some (Sum.inr r) := h
      injection h2 with h2
      exact absurd h2 (by simp)
    · have h2 : (if s2.westward < 2 ∨ ¬ (14 ≤ s2.distanceInChunk ∧ s2.distanceInChunk < 30)
            ∨ 2 ≤ s2.uTurnCount
          then some (Sum.inl s2.rng)
          else some (Sum.inr (clearObjs s2.grid, s2.rng))) = some (Sum.inr r) := h
      by_cases hacc : s2.westward < 2 ∨ ¬ (14 ≤ s2.distanceInChunk ∧ s2.distanceInChunk < 30)
          ∨ 2 ≤ s2.uTurnCount
      · rw [if_pos hacc] at h2
        injection h2 with h2
        exact absurd h2 (by simp)
      · rw [if_neg hacc] at h2
        injection h2 with h2
        injection h2 with h2
        push_neg at hacc
        obtain ⟨hw, hdic, hu⟩ := hacc
        have hprops := carveFinish_props s2 pqs2 d0 y0 hinv2 hx hne hw hdic.1 hdic.2
          (by omega)
        have hclear := clearObjs_pathSame s2.grid hinv2.wf
        refine ⟨pqs2, ?_⟩
        rw [← h2]
        exact ChunkPathProps_transfer s2.grid (clearObjs s2.grid) pqs2 d0 y0 hprops hclear

theorem generateAttempt_inr (last : Option (Int × Int)) (g : Nat → Nat) (i fuel : Nat)
    (r : Grid Tile × Nat) (h : generateAttempt last g i fuel = some (Sum.inr r)) :
    ∃ (pqs : List (Coords × Path)) (d0 y0 : Int),
      ChunkPathProps r.1 pqs d0 y0 ∧
      (∀ y d : Int, last = some (y, d) → d0 = d + 1 ∧ y0 = y) ∧
      (last = none → d0 = 0) := by
  obtain ⟨hdims, hwf, hgrass⟩ := initGrass_spec g i
  cases last with
  | some yd =>
    obtain ⟨y, d⟩ := yd
    have h2 : (match carveLoop g fuel
        (⟨(initGrass g i).1, d + 1, ⟨-1, y⟩, ⟨0, y⟩, ⟨1, 0⟩, 0, 0, false, 0,
          (initGrass g i).2⟩ : CarveState) with
      | none => none
      | some (CarveOut.rejected i2) => some (Sum.inl i2)
      | some (CarveOut.finished s) =>
        if s.westward < 2 ∨ ¬ (14 ≤ s.distanceInChunk ∧ s.distanceInChunk < 30)
            ∨ 2 ≤ s.uTurnCount
        then some (Sum.inl s.rng)
        else some (Sum.inr (clearObjs s.grid, s.rng))) = some (Sum.inr r) := h
    have hbase := carveInv_init (initGrass g i).1 (d + 1) y (initGrass g i).2
      hdims hwf hgrass
    obtain ⟨pqs, hp⟩ := carveAccept_inr g fuel _ (d + 1) y r hbase h2
    refine ⟨pqs, d + 1, y, hp, ?_, fun hn => Option.noConfusion hn⟩
    intro y2 d2 heq
    have h3 : (y, d) = (y2, d2) := by injection heq
    have hy : y = y2 := congrArg Prod.fst h3
    have hd : d = d2 := congrArg Prod.snd h3
    exact ⟨by rw [hd], hy⟩
  | none =>
    have h2 : (match carveLoop g fuel
        (⟨(initGrass g i).1, 0,
          ⟨-1, ((randNat g (initGrass g i).2 chunkDims.h.toNat : Nat) : Int)⟩,
          ⟨0, ((randNat g (initGrass g i).2 chunkDims.h.toNat : Nat) : Int)⟩, ⟨1, 0⟩,
          0, 0, false, 0, (initGrass g i).2 + 1⟩ : CarveState) with
      | none => none
      | some (CarveOut.rejected i2) => some (Sum.inl i2)
      | some (CarveOut.finished s) =>
        if s.westward < 2 ∨ ¬ (14 ≤ s.distanceInChunk ∧ s.distanceInChunk < 30)
            ∨ 2 ≤ s.uTurnCount
        then some (Sum.inl s.rng)
        else some (Sum.inr (clearObjs s.grid, s.rng))) = some (Sum.inr r) := h
    have hbase := carveInv_init (initGrass g i).1 0
      ((randNat g (initGrass g i).2 chunkDims.h.toNat : Nat) : Int)
      ((initGrass g i).2 + 1) hdims hwf hgrass
    obtain ⟨pqs, hp⟩ := carveAccept_inr g fuel _ 0 _ r hbase h2
    exact ⟨pqs, 0, _, hp, fun y2 d2 heq => Option.noConfusion heq, fun _ => rfl⟩

theorem generateGridLoop_inr (last : Option (Int × Int)) (g : Nat → Nat) (fuel : Nat) :
    ∀ (attempts i : Nat) (r : Grid Tile × Nat),
      generateGridLoop last g fuel attempts i = some r →
      ∃ (pqs : List (Coords × Path)) (d0 y0 : Int),
        ChunkPathProps r.1 pqs d0 y0 ∧
        (∀ y d : Int, last = some (y, d) → d0 = d + 1 ∧ y0 = y) ∧
        (last = none → d0 = 0) := by
  intro attempts
  induction attempts with
  | zero =>
    intro i r h
    simp [generateGridLoop] at h
  | succ attempts ih =>
    intro i r h
    unfold generateGridLoop at h
    cases hga : generateAttempt last g i fuel with
    | none =>
      rw [hga] at h
      exact Option.noConfusion h
    | some res =>
      rw [hga] at h
      cases res with
      | inl i2 =>
        have h2 : generateGridLoop last g fuel attempts i2 = some r := h
        exact ih i2 r h2
      | inr r2 =>
        have h2 : some r2 = some r := h
        injection h2 with h2
        subst h2
        exact generateAttempt_inr last g i fuel r2 hga

/-- Master lemma: every chunk returned by `Chunk.generate` carries a path
walk with all carve-invariant properties and the acceptance bounds. -/
theorem chunkGenerate_props (last : Option (Int × Int)) (g : Nat → Nat)
    (i attempts cfuel wfuel : Nat) (ch : Chunk)
    (h : Chunk.generate last g i attempts cfuel wfuel = some ch) :
    ∃ (pqs : List (Coords × Path)) (d0 y0 : Int),
      ChunkPathProps ch.grid pqs d0 y0 ∧
      (∀ y d : Int, last = some (y, d) → d0 = d + 1 ∧ y0 = y) ∧
      (last = none → d0 = 0) := by
  unfold Chunk.generate at h
  cases hgl : generateGridLoop last g cfuel attempts i with
  | none =>
    rw [hgl] at h
    exact Option.noConfusion h
  | some gi =>
    rw [hgl] at h
    have hh : (match waterPass g wfuel wfuel gi.1 gi.2 with
      | none => none
      | some wr =>
        let tr := treesPass g wr.1 wr.2
        let rr := rocksPass g tr.1 tr.2
        let cr := crystalsPass g 30 rr.1 rr.2 0
        let er := enemiesPass g cr.1 cr.2
        some (⟨er.1⟩ : Chunk)) = some ch := h
    cases hwp : waterPass g wfuel wfuel gi.1 gi.2 with
    | none =>
      rw [hwp] at hh
      exact Option.noConfusion hh
    | some wr =>
      rw [hwp] at hh
      set tr := treesPass g wr.1 wr.2 with htr
      set rr := rocksPass g tr.1 tr.2 with hrr
      set cr := crystalsPass g 30 rr.1 rr.2 0 with hcr
      set er := enemiesPass g cr.1 cr.2 with her
      have h2 : some (⟨er.1⟩ : Chunk) = some ch := hh
      injection h2 with h2
      subst h2
      obtain ⟨pqs, d0, y0, hp, hsome, hnone⟩ :=
        generateGridLoop_inr last g cfuel attempts i gi hgl
      have hwf0 : gi.1.wf := hp.2.1
      have hs1 : PathSameFrom gi.1 wr.1 :=
        waterPass_pathSame g wfuel wfuel gi.1 gi.2 wr hwf0 hwp
      have hs2 : PathSameFrom gi.1 tr.1 := by
        rw [htr]
        exact pathSame_trans _ _ _ hs1 (treesPass_pathSame g wr.1 wr.2 hs1.2.1)
      have hs3 : PathSameFrom gi.1 rr.1 := by
        rw [hrr]
        exact pathSame_trans _ _ _ hs2 (rocksPass_pathSame g tr.1 tr.2 hs2.2.1)
      have hs4 : PathSameFrom gi.1 cr.1 := by
        rw [hcr]
        exact pathSame_trans _ _ _ hs3 (crystalsPass_pathSame g 30 rr.1 rr.2 0 hs3.2.1)
      have hs5 : PathSameFrom gi.1 er.1 := by
        rw [her]
        exact pathSame_trans _ _ _ hs4 (enemiesPass_pathSame g cr.1 cr.2 hs4.2.1)
      exact ⟨pqs, d0, y0, ChunkPathProps_transfer gi.1 er.1 pqs d0 y0 hp hs5, hsome, hnone⟩

theorem mem_getElem {α : Type _} (l : List α) (a : α) (h : a ∈ l) :
    ∃ k : Nat, l[k]? = some a := by
  induction l with
  | nil => simp at h
  | cons x xs ih =>
    rcases List.mem_cons.mp h with rfl | h2
    · exact ⟨0, by simp⟩
    · obtain ⟨k, hk⟩ := ih h2
      exact ⟨k + 1, by simpa using hk⟩

/-- C1: for every chunk returned by `Chunk.generate`, the path tiles form a
single walk: the tiles of the walk are exactly the path tiles of the chunk
(each visited once), following each tile's `forward` delta reaches the next
tile of the walk, `distance` increases by exactly 1 per step, each tile's
`backward` delta points to the previous tile of the walk, and the walk
terminates at the rightmost column (the last tile's `forward` step leaves
the grid over the right edge). -/
theorem c1_path_walk (last : Option (Int × Int)) (g : Nat → Nat)
    (i attempts cfuel wfuel : Nat) (ch : Chunk)
    (h : Chunk.generate last g i attempts cfuel wfuel = some ch) :
    ∃ (pqs : List (Coords × Path)) (d0 : Int),
      pqs ≠ [] ∧
      (∀ c : Coords, (pathAt ch.grid c).isSome = true ↔ c ∈ pqs.map Prod.fst) ∧
      (pqs.map Prod.fst).Nodup ∧
      (∀ (k : Nat) (cp : Coords × Path), pqs[k]? = some cp →
        pathAt ch.grid cp.1 = some cp.2 ∧ cp.2.distance = d0 + k) ∧
      (∀ (k : Nat) (cp cp' : Coords × Path), pqs[k]? = some cp → pqs[k + 1]? = some cp' →
        cp'.1 = cp.1 + cp.2.forward ∧ cp'.1 + cp'.2.backward = cp.1 ∧
        cp'.2.distance = cp.2.distance + 1) ∧
      (∀ cp : Coords × Path, pqs.getLast? = some cp →
        (cp.1 + cp.2.forward).x = ch.grid.dims.w) := by
  obtain ⟨pqs, d0, y0, hp, _, _⟩ := chunkGenerate_props last g i attempts cfuel wfuel ch h
  obtain ⟨h1, h2, h3, h4, h5, h6, h7, h8, h9, h10, h11, h12, h13⟩ := hp
  refine ⟨pqs, d0, h9, h3, h4, ?_, ?_, ?_⟩
  · intro k cp hk
    obtain ⟨ha, hb, _⟩ := h5 k cp hk
    exact ⟨ha, hb⟩
  · intro k cp cp' hk hk1
    obtain ⟨ha, hb⟩ := h7 k cp cp' hk hk1
    obtain ⟨_, hdk, _⟩ := h5 k cp hk
    obtain ⟨_, hdk1, _⟩ := h5 (k + 1) cp' hk1
    refine ⟨ha, hb, ?_⟩
    rw [hdk, hdk1]
    push_cast
    ring
  · intro cp hlast
    rw [h1]
    exact h8 cp hlast

/-- C3: when `Chunk.generate` is called with `last = some (row, distance)`,
the entry path tile of the returned chunk sits at column 0, row `row`, and
carries distance `distance + 1`; its distance is minimal among all path
tiles of the chunk.  With `last = none`, the entry tile is at column 0 of
some row and carries distance 0, again minimal. -/
theorem c3_join_consistency (last : Option (Int × Int)) (g : Nat → Nat)
    (i attempts cfuel wfuel : Nat) (ch : Chunk)
    (h : Chunk.generate last g i attempts cfuel wfuel = some ch) :
    (∀ y d : Int, last = some (y, d) →
      ∃ p : Path, pathAt ch.grid (⟨0, y⟩ : Coords) = some p ∧ p.distance = d + 1 ∧
        ∀ (c : Coords) (q : Path), pathAt ch.grid c = some q →
          p.distance ≤ q.distance) ∧
    (last = none →
      ∃ (y : Int) (p : Path), pathAt ch.grid (⟨0, y⟩ : Coords) = some p ∧
        p.distance = 0 ∧
        ∀ (c : Coords) (q : Path), pathAt ch.grid c = some q →
          p.distance ≤ q.distance) := by
  obtain ⟨pqs, d0, y0, hp, hsome, hnone⟩ :=
    chunkGenerate_props last g i attempts cfuel wfuel ch h
  obtain ⟨h1, h2, h3, h4, h5, h6, h7, h8, h9, h10, h11, h12, h13⟩ := hp
  obtain ⟨cp0, hcp0⟩ : ∃ cp0, pqs[0]? = some cp0 := by
    cases pqs with
    | nil => exact absurd rfl h9
    | cons x xs => exact ⟨x, by simp⟩
  obtain ⟨hentry1, _⟩ := h6 cp0 hcp0
  obtain ⟨hstamp0, hdist0, _⟩ := h5 0 cp0 hcp0
  have hdist1 : cp0.2.distance = d0 := by
    rw [hdist0]
    simp
  have hmin : ∀ (c : Coords) (q : Path), pathAt ch.grid c = some q → d0 ≤ q.distance := by
    intro c q hq
    have hsome2 : (pathAt ch.grid c).isSome = true := by
      rw [hq]
      rfl
    obtain ⟨cp, hcpmem, hcpeq⟩ := List.mem_map.mp ((h3 c).mp hsome2)
    obtain ⟨k, hk⟩ := mem_getElem pqs cp hcpmem
    obtain ⟨hst, hdk, _⟩ := h5 k cp hk
    rw [hcpeq, hq] at hst
    injection hst with hst
    rw [hst, hdk]
    omega
  constructor
  · intro y d heq
    obtain ⟨hd0, hy0⟩ := hsome y d heq
    refine ⟨cp0.2, ?_, ?_, ?_⟩
    · rw [← hy0, ← hentry1]
      exact hstamp0
    · rw [hdist1, hd0]
    · intro c q hq
      rw [hdist1]
      exact hmin c q hq
  · intro heq
    have hd0 := hnone heq
    refine ⟨y0, cp0.2, ?_, ?_, ?_⟩
    · rw [← hentry1]
      exact hstamp0
    · rw [hdist1, hd0]
    · intro c q hq
      rw [hdist1]
      exact hmin c q hq

/-- C8: every chunk accepted by `Chunk.generate` has a path whose tile
count (the walk covering exactly the path tiles) is between 14 and 29, with
at least 2 westward steps and at most one U-turn (consecutive-turn
event). -/
theorem c8_acceptance_bounds (last : Option (Int × Int)) (g : Nat → Nat)
    (i attempts cfuel wfuel : Nat) (ch : Chunk)
    (h : Chunk.generate last g i attempts cfuel wfuel = some ch) :
    ∃ pqs : List (Coords × Path),
      (∀ c : Coords, (pathAt ch.grid c).isSome = true ↔ c ∈ pqs.map Prod.fst) ∧
      (pqs.map Prod.fst).Nodup ∧
      (∀ (k : Nat) (cp : Coords × Path), pqs[k]? = some cp →
        pathAt ch.grid cp.1 = some cp.2) ∧
      14 ≤ pqs.length ∧ pqs.length ≤ 29 ∧
      2 ≤ westCount pqs ∧
      (turnFold (pqs.map (fun cp => turnAt cp.2))).2 ≤ 1 := by
  obtain ⟨pqs, d0, y0, hp, _, _⟩ := chunkGenerate_props last g i attempts cfuel wfuel ch h
  obtain ⟨h1, h2, h3, h4, h5, h6, h7, h8, h9, h10, h11, h12, h13⟩ := hp
  exact ⟨pqs, h3, h4, fun k cp hk => (h5 k cp hk).1, h10, by omega, h12, h13⟩

/-- A concrete random oracle on which one generation attempt is accepted:
used to witness the generator theorems on a fully evaluated chunk. -/
def witOracle : Nat → Nat :=
  fun n => match n with
  | 100 | 102 | 104 | 106 | 111 | 119 | 127 | 133 | 135
  | 140 | 142 | 144 | 146 | 148 | 150 | 317 => 0
  | 109 | 117 => 2
  | _ => 1

/-- The chunk generated from `witOracle` (joined at row 2, distance 5). -/
def witChunk : Chunk := (Chunk.generate (some (2, 5)) witOracle 0 1 30 5).getD ⟨⟨⟨0, 0⟩, []⟩⟩

set_option maxRecDepth 10000 in
theorem witChunk_spec : Chunk.generate (some (2, 5)) witOracle 0 1 30 5 = some witChunk := by
  rfl

/-- Witness for C1 on the concrete generated chunk. -/
theorem c1_path_walk_witness :
    ∃ (pqs : List (Coords × Path)) (d0 : Int),
      pqs ≠ [] ∧
      (∀ c : Coords, (pathAt witChunk.grid c).isSome = true ↔ c ∈ pqs.map Prod.fst) ∧
      (pqs.map Prod.fst).Nodup ∧
      (∀ (k : Nat) (cp : Coords × Path), pqs[k]? = some cp →
        pathAt witChunk.grid cp.1 = some cp.2 ∧ cp.2.distance = d0 + k) ∧
      (∀ (k : Nat) (cp cp' : Coords × Path), pqs[k]? = some cp → pqs[k + 1]? = some cp' →
        cp'.1 = cp.1 + cp.2.forward ∧ cp'.1 + cp'.2.backward = cp.1 ∧
        cp'.2.distance = cp.2.distance + 1) ∧
      (∀ cp : Coords × Path, pqs.getLast? = some cp →
        (cp.1 + cp.2.forward).x = witChunk.grid.dims.w) :=
  c1_path_walk (some (2, 5)) witOracle 0 1 30 5 witChunk witChunk_spec

/-- Witness for C3 on the concrete generated chunk: the entry tile is at
(0, 2) with distance 6, minimal over the chunk. -/
theorem c3_join_consistency_witness :
    ∃ p : Path, pathAt witChunk.grid (⟨0, 2⟩ : Coords) = some p ∧ p.distance = 5 + 1 ∧
      ∀ (c : Coords) (q : Path), pathAt witChunk.grid c = some q →
        p.distance ≤ q.distance :=
  (c3_join_consistency (some (2, 5)) witOracle 0 1 30 5 witChunk witChunk_spec).1 2 5 rfl

/-- Witness for C8 on the concrete generated chunk. -/
theorem c8_acceptance_bounds_witness :
    ∃ pqs : List (Coords × Path),
      (∀ c : Coords, (pathAt witChunk.grid c).isSome = true ↔ c ∈ pqs.map Prod.fst) ∧
      (pqs.map Prod.fst).Nodup ∧
      (∀ (k : Nat) (cp : Coords × Path), pqs[k]? = some cp →
        pathAt witChunk.grid cp.1 = some cp.2) ∧
      14 ≤ pqs.length ∧ pqs.length ≤ 29 ∧
      2 ≤ westCount pqs ∧
      (turnFold (pqs.map (fun cp => turnAt cp.2))).2 ≤ 1 :=
  c8_acceptance_bounds (some (2, 5)) witOracle 0 1 30 5 witChunk witChunk_spec

end TD
